import Mathlib

/-!
# A shallow embedding of `scheduler.py` (TimeTableScheduler, `OptimizedScheduler` revision)

Python's mutable object graph is embedded as a `State` record that every
operation threads explicitly.  Python `set`s of slot indices become
`Finset Nat`; Python `defaultdict(int)` becomes `Dict`, an insertion-ordered
list of key/value entries whose lookup defaults to `0` (mirroring both the
default-on-read behaviour and the `del` statements that remove keys).
Object references (`course.teacher`, `course.batch`) become indices into the
state's `teachers` / `batches` lists.  `None` numeric fields of `Course`
(`required_hours` for labs, etc.) are stored as `0`; the source never reads
them for the corresponding course type.
-/

namespace Sched

/-- `defaultdict(int)`: insertion-ordered entries, lookup of a missing key is `0`. -/
structure Dict where
  entries : List (Nat × Int)
deriving DecidableEq

/-- Python `d[k]` on a `defaultdict(int)` (read-only view: missing key reads as 0). -/
def Dict.get (d : Dict) (k : Nat) : Int :=
  match d.entries.find? (fun e => e.1 == k) with
  | some e => e.2
  | none => 0

/-- Python `d[k] = v` on a `defaultdict(int)`: update in place or append a new entry. -/
def Dict.setVal (d : Dict) (k : Nat) (v : Int) : Dict :=
  if (d.entries.find? (fun e => e.1 == k)).isSome then
    ⟨d.entries.map fun e => if e.1 == k then (k, v) else e⟩
  else
    ⟨d.entries ++ [(k, v)]⟩

/-- Python `d[k] += delta`. -/
def Dict.incr (d : Dict) (k : Nat) (delta : Int) : Dict :=
  d.setVal k (d.get k + delta)

/-- Python `del d[k]`. -/
def Dict.del (d : Dict) (k : Nat) : Dict :=
  ⟨d.entries.filter fun e => !(e.1 == k)⟩

/-- The backtrack cleanup pattern `d[k] -= v` followed by
`if d[k] == 0: del d[k]`. -/
def Dict.subDrop (d : Dict) (k : Nat) (v : Int) : Dict :=
  let e := d.incr k (-v)
  if e.get k == 0 then e.del k else e

/-- Python `list(d.values())`. -/
def Dict.values (d : Dict) : List Int :=
  d.entries.map (·.2)

def emptyDict : Dict := ⟨[]⟩

/-- `Teacher.__init__` fields (the unused `subject_courses` is omitted). -/
structure Teacher where
  name : String
  subjects : List String
  available_time_slots : Finset Nat
  max_hours : Int
  assigned_hours : Int
  assigned_time_slots : Finset Nat
  daily_hours : Dict
deriving DecidableEq

/-- `Course.__init__` fields.  `batchIdx`/`teacher` are indices into the state's
lists; `course_type` is the literal Python string. -/
structure Course where
  name : String
  batchIdx : Nat
  subject : String
  course_type : String
  required_hours : Nat
  number_of_sessions : Nat
  session_duration : Nat
  time_slots : List Nat
  teacher : Option Nat
  classroom : Option Nat
deriving DecidableEq

/-- `Batch.__init__` fields (the unused `courses` list is omitted). -/
structure Batch where
  name : String
  used_time_slots : Finset Nat
  lab_days : Dict
  theory_hours_per_day : Dict
  lab_start_slots : Finset Nat
deriving DecidableEq

/-- `OptimizedScheduler.__init__` configuration (immutable during a run). -/
structure Config where
  periods_per_day : Nat
  number_of_days : Nat
  max_theory_per_day : Nat
  max_assignments : Nat
deriving DecidableEq

/-- The mutable object graph plus the scheduler's `assignments_tried` counter. -/
structure State where
  teachers : List Teacher
  batches : List Batch
  courses : List Course
  tried : Nat
deriving DecidableEq

def dummyTeacher : Teacher := ⟨"", [], ∅, 0, 0, ∅, emptyDict⟩
def dummyCourse : Course := ⟨"", 0, "", "", 0, 0, 0, [], none, none⟩
def dummyBatch : Batch := ⟨"", ∅, emptyDict, emptyDict, ∅⟩

def State.teacherD (s : State) (i : Nat) : Teacher := s.teachers.getD i dummyTeacher
def State.courseD (s : State) (i : Nat) : Course := s.courses.getD i dummyCourse
def State.batchD (s : State) (i : Nat) : Batch := s.batches.getD i dummyBatch

def State.modTeacher (s : State) (i : Nat) (f : Teacher → Teacher) : State :=
  { s with teachers := s.teachers.set i (f (s.teacherD i)) }
def State.modCourse (s : State) (i : Nat) (f : Course → Course) : State :=
  { s with courses := s.courses.set i (f (s.courseD i)) }
def State.modBatch (s : State) (i : Nat) (f : Batch → Batch) : State :=
  { s with batches := s.batches.set i (f (s.batchD i)) }

/-! ## Derived queries of the Resource Model -/

/-- `Teacher.can_teach_more`. -/
def can_teach_more (t : Teacher) (additional_hours : Nat) : Bool :=
  t.assigned_hours + (additional_hours : Int) ≤ t.max_hours

/-- `Course._calculate_total_slots`. -/
def total_slots_needed (c : Course) : Nat :=
  if c.course_type == "lab" then c.number_of_sessions * c.session_duration
  else c.required_hours

/-- `Course._calculate_difficulty`. -/
def difficulty_score (c : Course) : Nat :=
  (if c.course_type == "lab" then 2 else 1) * total_slots_needed c

/-- `Course.get_eligible_teachers`, returning indices into `teachers` in list order. -/
def get_eligible_teachers (teachers : List Teacher) (c : Course) : List Nat :=
  (List.range teachers.length).filter fun i =>
    let t := teachers.getD i dummyTeacher
    c.subject ∈ t.subjects ∧ can_teach_more t (total_slots_needed c) = true

/-- `Batch.can_add_theory_on_day`. -/
def can_add_theory_on_day (b : Batch) (day : Nat) (max_theory_per_day : Nat) : Bool :=
  b.theory_hours_per_day.get day < (max_theory_per_day : Int)

/-- `Batch.can_add_lab_on_day` (with its default `max_labs_per_day = 1`). -/
def can_add_lab_on_day (b : Batch) (day : Nat) : Bool :=
  b.lab_days.get day < 1

/-- The availability test shared by `_find_consecutive_slots`,
`_check_slot_availability` and `_get_sorted_theory_slots`:
`slot in teacher.available_time_slots and slot not in batch.used_time_slots
and slot not in teacher.assigned_time_slots`. -/
def slot_free (t : Teacher) (b : Batch) (slot : Nat) : Bool :=
  slot ∈ t.available_time_slots ∧ slot ∉ b.used_time_slots ∧
    slot ∉ t.assigned_time_slots

/-- `OptimizedScheduler._find_consecutive_slots`: candidate lab start slots on
`day`, restricted to day-relative positions 0 and 4. -/
def find_consecutive_slots (cfg : Config) (t : Teacher) (b : Batch)
    (day duration : Nat) : List Nat :=
  let day_start := day * cfg.periods_per_day
  [0, 4].filterMap fun relative_start =>
    let start_slot := day_start + relative_start
    if start_slot + duration ≤ day_start + cfg.periods_per_day ∧
        ((List.range' start_slot duration).all fun slot => slot_free t b slot) then
      some start_slot
    else none

/-- `OptimizedScheduler._has_lab_on_day` (identical to the
`ConstraintPropagator` copy). -/
def has_lab_on_day (cfg : Config) (b : Batch) (day : Nat) : Bool :=
  let day_start := day * cfg.periods_per_day
  day_start ∈ b.lab_start_slots ∨ day_start + 4 ∈ b.lab_start_slots

/-- The sort key of `_get_sorted_theory_slots`:
`(batch.theory_hours_per_day[day], teacher.daily_hours[day], slot)`. -/
def theory_slot_key (cfg : Config) (t : Teacher) (b : Batch) (slot : Nat) :
    Int × Int × Nat :=
  (b.theory_hours_per_day.get (slot / cfg.periods_per_day),
   t.daily_hours.get (slot / cfg.periods_per_day), slot)

/-- Lexicographic comparison of the theory-slot sort keys (the final `slot`
component makes it a total antisymmetric order, so the sorted result is the
same for any iteration order of the Python set). -/
def theory_key_le (a b : Int × Int × Nat) : Bool :=
  a.1 < b.1 ∨ (a.1 = b.1 ∧ (a.2.1 < b.2.1 ∨ (a.2.1 = b.2.1 ∧ a.2.2 ≤ b.2.2)))

/-- Ascending enumeration of a multiset of naturals (CPython iterates a set
of small ints in ascending order). -/
def multisetAsc (m : Multiset Nat) : List Nat :=
  Quot.liftOn m (fun l => l.insertionSort (· ≤ ·)) fun l₁ l₂ h =>
    List.eq_of_perm_of_sorted
      ((List.perm_insertionSort _ l₁).trans
        (h.trans (List.perm_insertionSort _ l₂).symm))
      (List.sorted_insertionSort _ l₁) (List.sorted_insertionSort _ l₂)

/-- Ascending enumeration of a `Finset Nat`. -/
def finsetAsc (s : Finset Nat) : List Nat := multisetAsc s.val

/-- `OptimizedScheduler._get_sorted_theory_slots`. -/
def get_sorted_theory_slots (cfg : Config) (t : Teacher) (b : Batch) : List Nat :=
  let available_slots :=
    finsetAsc (t.available_time_slots.filter fun slot =>
      slot ∉ b.used_time_slots ∧ slot ∉ t.assigned_time_slots)
  let filtered_slots := available_slots.filter fun slot =>
    !(slot % cfg.periods_per_day == 3 && has_lab_on_day cfg b (slot / cfg.periods_per_day))
  filtered_slots.insertionSort fun x y =>
    theory_key_le (theory_slot_key cfg t b x) (theory_slot_key cfg t b y) = true

/-! ## Priorities

Python's `sorted`/`list.sort` are stable; `List.insertionSort` with a
reflexive `≤`-style relation on the sort keys is likewise stable, so it
reproduces Python's ordering.  (CPython `defaultdict` reads insert missing
keys as a side effect; the embedding models reads as pure lookups with
default `0`.  The inserted zero keys influence only the `workload_variance`
tie-break, never a stored counter value.) -/

/-- Lexicographic `≤` on `(Int, Int, Nat)` sort keys (theory slots, lab days). -/
def lex3_le (a b : Int × Int × Nat) : Bool :=
  a.1 < b.1 ∨ (a.1 = b.1 ∧ (a.2.1 < b.2.1 ∨ (a.2.1 = b.2.1 ∧ a.2.2 ≤ b.2.2)))

/-- Lexicographic `≤` on `(Int, Int, Int)` sort keys (teacher, course priority). -/
def lexII_le (a b : Int × Int × Int) : Bool :=
  a.1 < b.1 ∨ (a.1 = b.1 ∧ (a.2.1 < b.2.1 ∨ (a.2.1 = b.2.1 ∧ a.2.2 ≤ b.2.2)))

/-- `max(values) - min(values) if values else 0` over `teacher.daily_hours.values()`. -/
def workload_variance (t : Teacher) : Int :=
  match t.daily_hours.values with
  | [] => 0
  | v :: vs => vs.foldl max v - vs.foldl min v

/-- `OptimizedScheduler.get_teacher_priority` (the course argument is used only
through `course.batch`). -/
def get_teacher_priority (t : Teacher) (b : Batch) : Int × Int × Int :=
  let available_slots : Int :=
    ((t.available_time_slots.filter fun slot =>
        slot ∉ b.used_time_slots ∧ slot ∉ t.assigned_time_slots).card : Int)
  (t.assigned_hours, -available_slots, workload_variance t)

/-- `OptimizedScheduler.get_course_priority`. -/
def get_course_priority (teachers : List Teacher) (c : Course) : Int × Int × Int :=
  let available_teachers := (get_eligible_teachers teachers c).length
  if available_teachers == 0 then (0, 0, 0)
  else ((available_teachers : Int), (difficulty_score c : Int),
        -(total_slots_needed c : Int))

/-! ## Commit / rollback of slot assignments -/

def bump (s : State) : State := { s with tried := s.tried + 1 }

/-- One iteration of the `for slot in slots` loop of `_assign_slots`. -/
def add_slot (ci ti bi day : Nat) (st : State) (slot : Nat) : State :=
  let st := st.modCourse ci fun c => { c with time_slots := c.time_slots ++ [slot] }
  let st := st.modBatch bi fun b =>
    { b with used_time_slots := insert slot b.used_time_slots }
  st.modTeacher ti fun t =>
    { t with assigned_time_slots := insert slot t.assigned_time_slots,
             assigned_hours := t.assigned_hours + 1,
             daily_hours := t.daily_hours.incr day 1 }

/-- One iteration of the `for slot in slots` loop of `_unassign_slots`. -/
def remove_slot (ci ti bi day : Nat) (st : State) (slot : Nat) : State :=
  let st := st.modCourse ci fun c => { c with time_slots := c.time_slots.erase slot }
  let st := st.modBatch bi fun b =>
    { b with used_time_slots := b.used_time_slots.erase slot }
  st.modTeacher ti fun t =>
    { t with assigned_time_slots := t.assigned_time_slots.erase slot,
             assigned_hours := t.assigned_hours - 1,
             daily_hours := t.daily_hours.incr day (-1) }

/-- `OptimizedScheduler._assign_slots`.  `ci`/`ti`/`bi` index the course,
teacher and batch objects the Python method receives by reference. -/
def assign_slots (s : State) (ci ti bi : Nat) (slots : List Nat) (day : Nat)
    (is_lab : Bool) : State :=
  let s1 := slots.foldl (add_slot ci ti bi day) s
  if is_lab then
    let s2 := s1.modBatch bi fun b => { b with lab_days := b.lab_days.incr day 1 }
    match slots with
    | [] => s2  -- `slots[0]` would fault in Python; call sites pass non-empty lists
    | lab_start_slot :: _ =>
      s2.modBatch bi fun b =>
        { b with lab_start_slots := insert lab_start_slot b.lab_start_slots }
  else
    s1.modBatch bi fun b =>
      { b with theory_hours_per_day :=
          b.theory_hours_per_day.incr day (slots.length : Int) }

/-- `OptimizedScheduler._unassign_slots` (`list.remove` = erase first
occurrence; `set.remove` on present elements = `Finset.erase`). -/
def unassign_slots (s : State) (ci ti bi : Nat) (slots : List Nat) (day : Nat)
    (is_lab : Bool) : State :=
  let s1 := slots.foldl (remove_slot ci ti bi day) s
  if is_lab then
    let s2 := s1.modBatch bi fun b =>
      { b with lab_days := b.lab_days.subDrop day 1 }
    match slots with
    | [] => s2
    | lab_start_slot :: _ =>
      s2.modBatch bi fun b =>
        { b with lab_start_slots := b.lab_start_slots.erase lab_start_slot }
  else
    s1.modBatch bi fun b =>
      { b with theory_hours_per_day :=
          b.theory_hours_per_day.subDrop day (slots.length : Int) }

/-! ## Lab placement (`assign_lab_time_slots`) -/

/-- The `for day in days` loop body of `assign_lab_time_slots`.
`next_session` is the recursive call for the next session index. -/
def lab_day_loop (cfg : Config) (ci ti : Nat) (next_session : State → Bool × State) :
    List Nat → State → Bool × State
  | [], s => (false, s)
  | day :: days, s =>
    let c := s.courseD ci
    let b := s.batchD c.batchIdx
    if !(can_add_lab_on_day b day) then lab_day_loop cfg ci ti next_session days s
    else
      match find_consecutive_slots cfg (s.teacherD ti) b day c.session_duration with
      | [] => lab_day_loop cfg ci ti next_session days s
      | start_slot :: _ =>
        let consecutive_slots := List.range' start_slot c.session_duration
        let slot_position := start_slot - day * cfg.periods_per_day
        if !(slot_position == 0 || slot_position == 4) then
          lab_day_loop cfg ci ti next_session days s
        else
          let s1 := bump (assign_slots s ci ti c.batchIdx consecutive_slots day true)
          match next_session s1 with
          | (true, s2) => (true, s2)
          | (false, s2) =>
            lab_day_loop cfg ci ti next_session days
              (unassign_slots s2 ci ti c.batchIdx consecutive_slots day true)

/-- `assign_lab_time_slots course session_index`, encoded over
`remaining = number_of_sessions - session_index` (the entry test
`session_index >= number_of_sessions` is `remaining = 0`). -/
def assign_lab_go (cfg : Config) (ci : Nat) : Nat → State → Bool × State
  | 0, s => (true, s)
  | remaining + 1, s =>
    if cfg.max_assignments ≤ s.tried then (false, s)
    else
      let c := s.courseD ci
      match c.teacher with
      | none => (false, s)  -- attribute access on `None` would fault; never reached
      | some ti =>
        let b := s.batchD c.batchIdx
        let days := (List.range cfg.number_of_days).insertionSort fun x y =>
          lex3_le (b.lab_days.get x, b.theory_hours_per_day.get x, x)
                  (b.lab_days.get y, b.theory_hours_per_day.get y, y) = true
        lab_day_loop cfg ci ti (assign_lab_go cfg ci remaining) days s

/-! ## Theory placement (`assign_theory_time_slots`) -/

/-- The `for time_slot in available_slots` loop body of
`assign_theory_time_slots`. -/
def theory_slot_loop (cfg : Config) (ci ti : Nat) (next_hour : State → Bool × State) :
    List Nat → State → Bool × State
  | [], s => (false, s)
  | time_slot :: rest, s =>
    let c := s.courseD ci
    let b := s.batchD c.batchIdx
    let day := time_slot / cfg.periods_per_day
    let slot_in_day := time_slot % cfg.periods_per_day
    if !(can_add_theory_on_day b day cfg.max_theory_per_day) then
      theory_slot_loop cfg ci ti next_hour rest s
    else if slot_in_day == 3 && has_lab_on_day cfg b day then
      theory_slot_loop cfg ci ti next_hour rest s
    else
      let s1 := bump (assign_slots s ci ti c.batchIdx [time_slot] day false)
      match next_hour s1 with
      | (true, s2) => (true, s2)
      | (false, s2) =>
        theory_slot_loop cfg ci ti next_hour rest
          (unassign_slots s2 ci ti c.batchIdx [time_slot] day false)

/-- `assign_theory_time_slots course session_index`, encoded over
`remaining = required_hours - session_index`. -/
def assign_theory_go (cfg : Config) (ci : Nat) : Nat → State → Bool × State
  | 0, s => (true, s)
  | remaining + 1, s =>
    if cfg.max_assignments ≤ s.tried then (false, s)
    else
      let c := s.courseD ci
      match c.teacher with
      | none => (false, s)
      | some ti =>
        theory_slot_loop cfg ci ti (assign_theory_go cfg ci remaining)
          (get_sorted_theory_slots cfg (s.teacherD ti) (s.batchD c.batchIdx)) s

/-! ## Course-level search (`_schedule_recursive`) -/

/-- One iteration of the `for slot in course.time_slots[:]` loop in the
course-level backtrack of `_schedule_recursive` (lines 487-502). -/
def backtrack_slot (cfg : Config) (ci ti : Nat) (s : State) (slot : Nat) : State :=
  let day := slot / cfg.periods_per_day
  let c := s.courseD ci
  let s := s.modTeacher ti fun t =>
    { t with assigned_time_slots := t.assigned_time_slots.erase slot,
             assigned_hours := t.assigned_hours - 1,
             daily_hours := t.daily_hours.incr day (-1) }
  let s := s.modBatch c.batchIdx fun b =>
    { b with used_time_slots := b.used_time_slots.erase slot }
  if c.course_type == "lab" then
    s.modBatch c.batchIdx fun b =>
      { b with lab_days := b.lab_days.subDrop day 1 }
  else
    s.modBatch c.batchIdx fun b =>
      { b with theory_hours_per_day := b.theory_hours_per_day.subDrop day 1 }

/-- The `if course.time_slots:` backtrack block of `_schedule_recursive`. -/
def course_backtrack (cfg : Config) (ci ti : Nat) (s : State) : State :=
  let c := s.courseD ci
  if c.time_slots.isEmpty then s
  else
    let s1 := c.time_slots.foldl (backtrack_slot cfg ci ti) s
    s1.modCourse ci fun c0 => { c0 with time_slots := [] }

/-- The `for teacher in eligible_teachers` loop of `_schedule_recursive`.
`next_course` is the recursive call on `course_index + 1`. -/
def teacher_loop (cfg : Config) (ci : Nat) (next_course : State → Bool × State) :
    List Nat → State → Bool × State
  | [], s => (false, s)
  | ti :: rest, s =>
    let s0 := s.modCourse ci fun c => { c with teacher := some ti }
    let c := s0.courseD ci
    let r1 :=
      if c.course_type == "lab" then assign_lab_go cfg ci c.number_of_sessions s0
      else if c.course_type == "theory" then
        assign_theory_go cfg ci c.required_hours s0
      else (false, s0)
    match (if r1.1 then next_course r1.2 else (false, r1.2)) with
    | (true, s2) => (true, s2)
    | (false, s2) =>
      let s3 := course_backtrack cfg ci ti s2
      teacher_loop cfg ci next_course rest
        (s3.modCourse ci fun c0 => { c0 with teacher := none })

/-- `OptimizedScheduler._schedule_recursive`, over the list of still-unscheduled
course indices (Python's `course_index` cursor into `sorted_courses`). -/
def schedule_go (cfg : Config) : List Nat → State → Bool × State
  | [], s => (true, s)
  | ci :: rest, s =>
    if cfg.max_assignments ≤ s.tried then (false, s)
    else
      let c := s.courseD ci
      let eligible := get_eligible_teachers s.teachers c
      if eligible.isEmpty then (false, s)
      else
        let b := s.batchD c.batchIdx
        let sorted_teachers := eligible.insertionSort fun x y =>
          lexII_le (get_teacher_priority (s.teacherD x) b)
                   (get_teacher_priority (s.teacherD y) b) = true
        teacher_loop cfg ci (schedule_go cfg rest) sorted_teachers s

/-! ## Constraint propagation (`ConstraintPropagator`) -/

/-- The per-day lab-slot count of `_check_slot_availability` (lab branch):
`duration` if some anchor start on `day` fits and is fully free, else `0`
(the `break` counts at most one anchor per day). -/
def lab_day_avail (cfg : Config) (t : Teacher) (b : Batch) (duration day : Nat) : Nat :=
  let day_start := day * cfg.periods_per_day
  if [day_start, day_start + 4].any (fun start_slot =>
      decide (start_slot + duration ≤ day_start + cfg.periods_per_day) &&
        ((List.range' start_slot duration).all fun slot => slot_free t b slot)) then
    duration
  else 0

/-- `ConstraintPropagator._check_slot_availability`. -/
def check_slot_availability (cfg : Config) (s : State) (c : Course) : Bool :=
  let eligible := get_eligible_teachers s.teachers c
  let b := s.batchD c.batchIdx
  let max_available_slots := eligible.foldl (fun acc ti =>
    let t := s.teacherD ti
    let avail :=
      if c.course_type == "lab" then
        (List.range cfg.number_of_days).foldl
          (fun n day => n + lab_day_avail cfg t b c.session_duration day) 0
      else
        (t.available_time_slots.filter fun slot =>
          slot ∉ b.used_time_slots ∧ slot ∉ t.assigned_time_slots).card
    max acc avail) 0
  total_slots_needed c ≤ max_available_slots

/-- `ConstraintPropagator.propagate_constraints`.  The method only reads the
Resource Model; the state is threaded through unchanged to make the frame
property expressible. -/
def propagate_constraints (cfg : Config) (s : State) : Bool × State :=
  (s.courses.all fun c =>
    !(get_eligible_teachers s.teachers c).isEmpty && check_slot_availability cfg s c,
   s)

/-! ## Top level (`schedule_courses`) -/

/-- `OptimizedScheduler.schedule_courses` over all course indices of the state. -/
def schedule_courses (cfg : Config) (s : State) : Bool × State :=
  let p := propagate_constraints cfg s
  if !p.1 then (false, p.2)
  else
    let sorted_courses := (List.range p.2.courses.length).insertionSort fun x y =>
      lexII_le (get_course_priority p.2.teachers (p.2.courseD x))
               (get_course_priority p.2.teachers (p.2.courseD y)) = true
    schedule_go cfg sorted_courses p.2

/-! ## Classroom matching (`assign_classrooms`) -/

/-- The classroom dictionary keyed by `(course.name, time_slot)`. -/
abbrev RoomMap := List ((String × Nat) × Nat)

def mapInsert (m : RoomMap) (k : String × Nat) (v : Nat) : RoomMap :=
  if (m.find? fun e => decide (e.1 = k)).isSome then
    m.map fun e => if e.1 = k then (k, v) else e
  else m ++ [(k, v)]

def mapLookup (m : RoomMap) (k : String × Nat) : Option Nat :=
  (m.find? fun e => decide (e.1 = k)).map (·.2)

/-- `min(available_classrooms, key=lambda c: len(classroom_usage[c]))`:
CPython iterates a set of small ints in ascending order and `min` keeps the
first minimum, so this picks the lowest-index least-loaded room.  Call sites
guarantee a non-empty list (`min` on an empty sequence would fault). -/
def min_usage (usage : Nat → Finset Nat) : List Nat → Nat
  | [] => 0
  | r :: rs => rs.foldl (fun best c =>
      if (usage c).card < (usage best).card then c else best) r

/-- The inner `for ts in course.time_slots` loop of the theory branch of
`assign_classrooms`, threading the map and usage, `none` on `return None`. -/
def theory_rooms_go (num_classrooms : Nat) (name : String) :
    List Nat → RoomMap → (Nat → Finset Nat) →
      Option (RoomMap × (Nat → Finset Nat))
  | [], m, usage => some (m, usage)
  | ts :: rest, m, usage =>
    let available := (List.range num_classrooms).filter fun r => ts ∉ usage r
    if available.isEmpty then none
    else
      let room := min_usage usage available
      theory_rooms_go num_classrooms name rest (mapInsert m (name, ts) room)
        fun r => if r = room then insert ts (usage r) else usage r

/-- The `for course in sorted_courses` loop of `assign_classrooms`. -/
def assign_rooms_go (num_classrooms : Nat) :
    List Nat → List Course → RoomMap → (Nat → Finset Nat) →
      Option RoomMap × List Course
  | [], courses, m, _ => (some m, courses)
  | ci :: rest, courses, m, usage =>
    let c := courses.getD ci dummyCourse
    if c.time_slots.isEmpty then assign_rooms_go num_classrooms rest courses m usage
    else if c.course_type == "lab" then
      let available := (List.range num_classrooms).filter fun r =>
        c.time_slots.all fun ts => ts ∉ usage r
      if available.isEmpty then (none, courses)
      else
        let room := min_usage usage available
        let courses1 := courses.set ci { c with classroom := some room }
        let mu := c.time_slots.foldl
          (fun (acc : RoomMap × (Nat → Finset Nat)) ts =>
            (mapInsert acc.1 (c.name, ts) room,
             fun r => if r = room then insert ts (acc.2 r) else acc.2 r))
          (m, usage)
        assign_rooms_go num_classrooms rest courses1 mu.1 mu.2
    else
      match theory_rooms_go num_classrooms c.name c.time_slots m usage with
      | none => (none, courses)
      | some mu => assign_rooms_go num_classrooms rest courses mu.1 mu.2

/-- The sort key of `assign_classrooms`:
`(course.course_type == 'lab', -len(course.time_slots), course.name)`
(ascending, so `False` = theory actually sorts first). -/
def classroom_key (c : Course) : Bool × Int × String :=
  (c.course_type == "lab", -(c.time_slots.length : Int), c.name)

def classroom_key_le (a b : Bool × Int × String) : Bool :=
  (!a.1 && b.1) ∨ (a.1 = b.1 ∧ (a.2.1 < b.2.1 ∨
    (a.2.1 = b.2.1 ∧ (a.2.2 < b.2.2 ∨ a.2.2 = b.2.2))))

/-- `assign_classrooms` (module-level function).  Returns the mapping (or
`none`) together with the course list, whose lab `classroom` fields it
mutates.  `num_time_slots` is accepted and unused, as in the source. -/
def assign_classrooms (courses : List Course) (num_time_slots num_classrooms : Nat) :
    Option RoomMap × List Course :=
  let _ := num_time_slots
  let sorted_courses := (List.range courses.length).insertionSort fun x y =>
    classroom_key_le (classroom_key (courses.getD x dummyCourse))
                     (classroom_key (courses.getD y dummyCourse)) = true
  assign_rooms_go num_classrooms sorted_courses courses [] fun _ => ∅

/-! ## Lemma layer: `Dict` lookup arithmetic -/

theorem mem_multisetAsc (m : Multiset Nat) (x : Nat) :
    x ∈ multisetAsc m ↔ x ∈ m := by
  induction m using Quot.inductionOn with
  | _ l =>
    show x ∈ l.insertionSort (· ≤ ·) ↔ x ∈ (l : Multiset Nat)
    rw [List.mem_insertionSort, Multiset.mem_coe]

theorem mem_finsetAsc (s : Finset Nat) (x : Nat) :
    x ∈ finsetAsc s ↔ x ∈ s := by
  unfold finsetAsc
  rw [mem_multisetAsc]
  exact (Finset.mem_def).symm

theorem find_map_upd (l : List (Nat × Int)) (k : Nat) (v : Int) :
    (l.map fun e => if e.1 == k then (k, v) else e).find? (fun e => e.1 == k) =
      (l.find? (fun e => e.1 == k)).map fun _ => (k, v) := by
  induction l with
  | nil => rfl
  | cons a t ih =>
    by_cases h : a.1 = k
    · simp [List.find?, h]
    · simp only [List.map_cons]
      rw [if_neg (by simpa using h)]
      rw [List.find?_cons_of_neg _ (by simpa using h),
        List.find?_cons_of_neg _ (by simpa using h)]
      exact ih

theorem find_map_upd_ne (l : List (Nat × Int)) (k k' : Nat) (v : Int) (hk : k' ≠ k) :
    (l.map fun e => if e.1 == k then (k, v) else e).find? (fun e => e.1 == k') =
      l.find? (fun e => e.1 == k') := by
  induction l with
  | nil => rfl
  | cons a t ih =>
    by_cases h : a.1 = k
    · have hfa : (if (a.1 == k) = true then (k, v) else a) = (k, v) :=
        if_pos (by simpa using h)
      have hb1 : (k == k') = false := by simpa using Ne.symm hk
      have hb2 : (a.1 == k') = false := by simp [h]; exact Ne.symm hk
      simp only [List.map_cons, hfa, List.find?_cons, hb1, hb2]
      exact ih
    · have hfa : (if (a.1 == k) = true then (k, v) else a) = a :=
        if_neg (by simpa using h)
      simp only [List.map_cons, hfa]
      by_cases h2 : a.1 = k'
      · have hb : (a.1 == k') = true := by simpa using h2
        simp only [List.find?_cons, hb]
      · have hb : (a.1 == k') = false := by simpa using h2
        simp only [List.find?_cons, hb]
        exact ih

theorem Dict.get_setVal_self (d : Dict) (k : Nat) (v : Int) :
    (d.setVal k v).get k = v := by
  unfold Dict.setVal Dict.get
  by_cases h : (d.entries.find? (fun e => e.1 == k)).isSome
  · rw [if_pos h]
    simp only [find_map_upd]
    obtain ⟨e, he⟩ := Option.isSome_iff_exists.mp h
    simp [he]
  · rw [if_neg h]
    simp only [List.find?_append]
    rw [Option.not_isSome_iff_eq_none.mp h]
    simp [List.find?]

theorem Dict.get_setVal_ne (d : Dict) (k k' : Nat) (v : Int) (hk : k' ≠ k) :
    (d.setVal k v).get k' = d.get k' := by
  unfold Dict.setVal Dict.get
  by_cases h : (d.entries.find? (fun e => e.1 == k)).isSome
  · rw [if_pos h, find_map_upd_ne _ _ _ _ hk]
  · rw [if_neg h]
    simp only [List.find?_append]
    have hb : (k == k') = false := by simpa using Ne.symm hk
    have : List.find? (fun e => e.1 == k') [(k, v)] = none := by
      simp only [List.find?_cons, hb]; rfl
    rw [this]
    simp

theorem Dict.get_incr_self (d : Dict) (k : Nat) (v : Int) :
    (d.incr k v).get k = d.get k + v :=
  Dict.get_setVal_self _ _ _

theorem Dict.get_incr_ne (d : Dict) (k k' : Nat) (v : Int) (hk : k' ≠ k) :
    (d.incr k v).get k' = d.get k' :=
  Dict.get_setVal_ne _ _ _ _ hk

theorem Dict.get_del_self (d : Dict) (k : Nat) : (d.del k).get k = 0 := by
  unfold Dict.del Dict.get
  have : (d.entries.filter fun e => !(e.1 == k)).find? (fun e => e.1 == k) = none := by
    rw [List.find?_eq_none]
    intro e he
    have := (List.mem_filter.mp he).2
    simpa using this
  simp [this]

theorem Dict.get_del_ne (d : Dict) (k k' : Nat) (hk : k' ≠ k) :
    (d.del k).get k' = d.get k' := by
  unfold Dict.del Dict.get
  congr 1
  induction d.entries with
  | nil => rfl
  | cons a t ih =>
    by_cases h : a.1 = k
    · have hb2 : (a.1 == k') = false := by simp [h]; exact Ne.symm hk
      rw [List.filter_cons_of_neg (by simpa using h)]
      simp only [List.find?_cons, hb2]
      exact ih
    · rw [List.filter_cons_of_pos (by simpa using h)]
      by_cases h2 : a.1 = k'
      · have hb : (a.1 == k') = true := by simpa using h2
        simp only [List.find?_cons, hb]
      · have hb : (a.1 == k') = false := by simpa using h2
        simp only [List.find?_cons, hb]
        exact ih

theorem Dict.get_subDrop_self (d : Dict) (k : Nat) (v : Int) :
    (d.subDrop k v).get k = d.get k - v := by
  unfold Dict.subDrop
  have hbase : (d.incr k (-v)).get k = d.get k - v := by
    rw [Dict.get_incr_self]; ring
  by_cases h : (d.incr k (-v)).get k == 0
  · rw [if_pos h, Dict.get_del_self]
    have := of_decide_eq_true h
    omega
  · rw [if_neg h]; exact hbase

theorem Dict.get_subDrop_ne (d : Dict) (k k' : Nat) (v : Int) (hk : k' ≠ k) :
    (d.subDrop k v).get k' = d.get k' := by
  unfold Dict.subDrop
  by_cases h : (d.incr k (-v)).get k == 0
  · rw [if_pos h, Dict.get_del_ne _ _ _ hk, Dict.get_incr_ne _ _ _ _ hk]
  · rw [if_neg h, Dict.get_incr_ne _ _ _ _ hk]

/-! ## Lemma layer: state accessors -/

theorem getD_set_self {α : Type} (l : List α) (i : Nat) (a d : α)
    (h : i < l.length) : (l.set i a).getD i d = a := by
  simp [List.getD_eq_getElem?_getD, List.getElem?_set_self', List.getElem?_eq_getElem h]

theorem getD_set_ne {α : Type} (l : List α) (i j : Nat) (a d : α)
    (h : j ≠ i) : (l.set i a).getD j d = l.getD j d := by
  simp [List.getD_eq_getElem?_getD, List.getElem?_set_ne (Ne.symm h)]

namespace State

theorem modTeacher_teacherD_self (s : State) (i : Nat) (f : Teacher → Teacher)
    (h : i < s.teachers.length) : (s.modTeacher i f).teacherD i = f (s.teacherD i) :=
  getD_set_self _ _ _ _ h

theorem modTeacher_teacherD_ne (s : State) (i j : Nat) (f : Teacher → Teacher)
    (h : j ≠ i) : (s.modTeacher i f).teacherD j = s.teacherD j :=
  getD_set_ne _ _ _ _ _ h

theorem modCourse_courseD_self (s : State) (i : Nat) (f : Course → Course)
    (h : i < s.courses.length) : (s.modCourse i f).courseD i = f (s.courseD i) :=
  getD_set_self _ _ _ _ h

theorem modCourse_courseD_ne (s : State) (i j : Nat) (f : Course → Course)
    (h : j ≠ i) : (s.modCourse i f).courseD j = s.courseD j :=
  getD_set_ne _ _ _ _ _ h

theorem modBatch_batchD_self (s : State) (i : Nat) (f : Batch → Batch)
    (h : i < s.batches.length) : (s.modBatch i f).batchD i = f (s.batchD i) :=
  getD_set_self _ _ _ _ h

theorem modBatch_batchD_ne (s : State) (i j : Nat) (f : Batch → Batch)
    (h : j ≠ i) : (s.modBatch i f).batchD j = s.batchD j :=
  getD_set_ne _ _ _ _ _ h

@[simp] theorem modTeacher_courseD (s : State) (i j : Nat) (f : Teacher → Teacher) :
    (s.modTeacher i f).courseD j = s.courseD j := rfl
@[simp] theorem modTeacher_batchD (s : State) (i j : Nat) (f : Teacher → Teacher) :
    (s.modTeacher i f).batchD j = s.batchD j := rfl
@[simp] theorem modCourse_teacherD (s : State) (i j : Nat) (f : Course → Course) :
    (s.modCourse i f).teacherD j = s.teacherD j := rfl
@[simp] theorem modCourse_batchD (s : State) (i j : Nat) (f : Course → Course) :
    (s.modCourse i f).batchD j = s.batchD j := rfl
@[simp] theorem modBatch_teacherD (s : State) (i j : Nat) (f : Batch → Batch) :
    (s.modBatch i f).teacherD j = s.teacherD j := rfl
@[simp] theorem modBatch_courseD (s : State) (i j : Nat) (f : Batch → Batch) :
    (s.modBatch i f).courseD j = s.courseD j := rfl

@[simp] theorem bump_teacherD (s : State) (j : Nat) : (bump s).teacherD j = s.teacherD j := rfl
@[simp] theorem bump_courseD (s : State) (j : Nat) : (bump s).courseD j = s.courseD j := rfl
@[simp] theorem bump_batchD (s : State) (j : Nat) : (bump s).batchD j = s.batchD j := rfl

@[simp] theorem modTeacher_tlen (s : State) (i : Nat) (f : Teacher → Teacher) :
    (s.modTeacher i f).teachers.length = s.teachers.length := by
  simp [State.modTeacher]
@[simp] theorem modCourse_clen (s : State) (i : Nat) (f : Course → Course) :
    (s.modCourse i f).courses.length = s.courses.length := by
  simp [State.modCourse]
@[simp] theorem modBatch_blen (s : State) (i : Nat) (f : Batch → Batch) :
    (s.modBatch i f).batches.length = s.batches.length := by
  simp [State.modBatch]
@[simp] theorem modTeacher_blen (s : State) (i : Nat) (f : Teacher → Teacher) :
    (s.modTeacher i f).batches.length = s.batches.length := rfl
@[simp] theorem modTeacher_clen (s : State) (i : Nat) (f : Teacher → Teacher) :
    (s.modTeacher i f).courses.length = s.courses.length := rfl
@[simp] theorem modCourse_tlen (s : State) (i : Nat) (f : Course → Course) :
    (s.modCourse i f).teachers.length = s.teachers.length := rfl
@[simp] theorem modCourse_blen (s : State) (i : Nat) (f : Course → Course) :
    (s.modCourse i f).batches.length = s.batches.length := rfl
@[simp] theorem modBatch_tlen (s : State) (i : Nat) (f : Batch → Batch) :
    (s.modBatch i f).teachers.length = s.teachers.length := rfl
@[simp] theorem modBatch_clen (s : State) (i : Nat) (f : Batch → Batch) :
    (s.modBatch i f).courses.length = s.courses.length := rfl
@[simp] theorem bump_tlen (s : State) : (bump s).teachers.length = s.teachers.length := rfl
@[simp] theorem bump_blen (s : State) : (bump s).batches.length = s.batches.length := rfl
@[simp] theorem bump_clen (s : State) : (bump s).courses.length = s.courses.length := rfl

end State

theorem courses_ext {s s' : State} (hl : s'.courses.length = s.courses.length)
    (h : ∀ i, s'.courseD i = s.courseD i) : s'.courses = s.courses := by
  apply List.ext_getElem (by omega)
  intro i h1 h2
  have := h i
  rwa [State.courseD, State.courseD, List.getD_eq_getElem?_getD,
    List.getD_eq_getElem?_getD, List.getElem?_eq_getElem h1,
    List.getElem?_eq_getElem h2, Option.getD_some, Option.getD_some] at this

/-! ## Lemma layer: fold helpers -/

theorem foldl_insert_mem (slots : List Nat) (u : Finset Nat) (y : Nat) :
    y ∈ slots.foldl (fun v x => insert x v) u ↔ y ∈ u ∨ y ∈ slots := by
  induction slots generalizing u with
  | nil => simp
  | cons x rest ih =>
    simp only [List.foldl_cons, ih, Finset.mem_insert, List.mem_cons]
    tauto

theorem foldl_erase_mem (slots : List Nat) (u : Finset Nat) (y : Nat) :
    y ∈ slots.foldl Finset.erase u ↔ y ∈ u ∧ y ∉ slots := by
  induction slots generalizing u with
  | nil => simp
  | cons x rest ih =>
    simp only [List.foldl_cons, ih, Finset.mem_erase, List.mem_cons]
    tauto

theorem foldl_list_erase_append (ext l : List Nat) (hnd : ext.Nodup)
    (hfresh : ∀ x ∈ ext, x ∉ l) :
    ext.foldl List.erase (l ++ ext) = l := by
  induction ext generalizing l with
  | nil => simp
  | cons x rest ih =>
    simp only [List.foldl_cons]
    have h1 : (l ++ x :: rest).erase x = l ++ rest := by
      rw [List.erase_append_right _ (hfresh x (by simp))]
      simp
    rw [h1]
    exact ih l (List.Nodup.of_cons hnd) fun y hy => hfresh y (by simp [hy])

/-! ## Lemma layer: effects of the per-slot commit and rollback -/

theorem add_slot_courseD_self {s : State} {ci ti bi day x : Nat}
    (hci : ci < s.courses.length) :
    (add_slot ci ti bi day s x).courseD ci =
      { s.courseD ci with time_slots := (s.courseD ci).time_slots ++ [x] } := by
  unfold add_slot
  simp only [State.modTeacher_courseD, State.modBatch_courseD]
  exact State.modCourse_courseD_self _ _ _ hci

theorem add_slot_courseD_ne {s : State} {ci ti bi day x j : Nat} (hj : j ≠ ci) :
    (add_slot ci ti bi day s x).courseD j = s.courseD j := by
  unfold add_slot
  simp only [State.modTeacher_courseD, State.modBatch_courseD]
  exact State.modCourse_courseD_ne _ _ _ _ hj

theorem add_slot_batchD_self {s : State} {ci ti bi day x : Nat}
    (hbi : bi < s.batches.length) :
    (add_slot ci ti bi day s x).batchD bi =
      { s.batchD bi with used_time_slots := insert x (s.batchD bi).used_time_slots } := by
  unfold add_slot
  simp only [State.modTeacher_batchD]
  rw [State.modBatch_batchD_self _ _ _ (by simpa using hbi)]
  simp

theorem add_slot_batchD_ne {s : State} {ci ti bi day x j : Nat} (hj : j ≠ bi) :
    (add_slot ci ti bi day s x).batchD j = s.batchD j := by
  unfold add_slot
  simp only [State.modTeacher_batchD]
  rw [State.modBatch_batchD_ne _ _ _ _ hj]
  simp

theorem add_slot_teacherD_self {s : State} {ci ti bi day x : Nat}
    (hti : ti < s.teachers.length) :
    (add_slot ci ti bi day s x).teacherD ti =
      { s.teacherD ti with
          assigned_time_slots := insert x (s.teacherD ti).assigned_time_slots,
          assigned_hours := (s.teacherD ti).assigned_hours + 1,
          daily_hours := (s.teacherD ti).daily_hours.incr day 1 } := by
  unfold add_slot
  rw [State.modTeacher_teacherD_self _ _ _ (by simpa using hti)]
  simp

theorem add_slot_teacherD_ne {s : State} {ci ti bi day x j : Nat} (hj : j ≠ ti) :
    (add_slot ci ti bi day s x).teacherD j = s.teacherD j := by
  unfold add_slot
  rw [State.modTeacher_teacherD_ne _ _ _ _ hj]
  simp

@[simp] theorem add_slot_lens {s : State} {ci ti bi day x : Nat} :
    (add_slot ci ti bi day s x).courses.length = s.courses.length ∧
    (add_slot ci ti bi day s x).batches.length = s.batches.length ∧
    (add_slot ci ti bi day s x).teachers.length = s.teachers.length := by
  unfold add_slot
  simp

theorem remove_slot_courseD_self {s : State} {ci ti bi day x : Nat}
    (hci : ci < s.courses.length) :
    (remove_slot ci ti bi day s x).courseD ci =
      { s.courseD ci with time_slots := (s.courseD ci).time_slots.erase x } := by
  unfold remove_slot
  simp only [State.modTeacher_courseD, State.modBatch_courseD]
  exact State.modCourse_courseD_self _ _ _ hci

theorem remove_slot_courseD_ne {s : State} {ci ti bi day x j : Nat} (hj : j ≠ ci) :
    (remove_slot ci ti bi day s x).courseD j = s.courseD j := by
  unfold remove_slot
  simp only [State.modTeacher_courseD, State.modBatch_courseD]
  exact State.modCourse_courseD_ne _ _ _ _ hj

theorem remove_slot_batchD_self {s : State} {ci ti bi day x : Nat}
    (hbi : bi < s.batches.length) :
    (remove_slot ci ti bi day s x).batchD bi =
      { s.batchD bi with
          used_time_slots := (s.batchD bi).used_time_slots.erase x } := by
  unfold remove_slot
  simp only [State.modTeacher_batchD]
  rw [State.modBatch_batchD_self _ _ _ (by simpa using hbi)]
  simp

theorem remove_slot_batchD_ne {s : State} {ci ti bi day x j : Nat} (hj : j ≠ bi) :
    (remove_slot ci ti bi day s x).batchD j = s.batchD j := by
  unfold remove_slot
  simp only [State.modTeacher_batchD]
  rw [State.modBatch_batchD_ne _ _ _ _ hj]
  simp

theorem remove_slot_teacherD_self {s : State} {ci ti bi day x : Nat}
    (hti : ti < s.teachers.length) :
    (remove_slot ci ti bi day s x).teacherD ti =
      { s.teacherD ti with
          assigned_time_slots := (s.teacherD ti).assigned_time_slots.erase x,
          assigned_hours := (s.teacherD ti).assigned_hours - 1,
          daily_hours := (s.teacherD ti).daily_hours.incr day (-1) } := by
  unfold remove_slot
  rw [State.modTeacher_teacherD_self _ _ _ (by simpa using hti)]
  simp

theorem remove_slot_teacherD_ne {s : State} {ci ti bi day x j : Nat} (hj : j ≠ ti) :
    (remove_slot ci ti bi day s x).teacherD j = s.teacherD j := by
  unfold remove_slot
  rw [State.modTeacher_teacherD_ne _ _ _ _ hj]
  simp

@[simp] theorem remove_slot_lens {s : State} {ci ti bi day x : Nat} :
    (remove_slot ci ti bi day s x).courses.length = s.courses.length ∧
    (remove_slot ci ti bi day s x).batches.length = s.batches.length ∧
    (remove_slot ci ti bi day s x).teachers.length = s.teachers.length := by
  unfold remove_slot
  simp

/-! ## Lemma layer: effects of `_assign_slots` and `_unassign_slots` -/

/-- Static teacher fields, which no scheduler operation ever writes. -/
def tstatic (t : Teacher) : String × List String × Finset Nat × Int :=
  (t.name, t.subjects, t.available_time_slots, t.max_hours)

/-- Effects of `_assign_slots` on the conflict-relevant state. -/
structure ACore (s : State) (ci ti bi : Nat) (slots : List Nat) (s' : State) : Prop where
  clen : s'.courses.length = s.courses.length
  blen : s'.batches.length = s.batches.length
  tlen : s'.teachers.length = s.teachers.length
  course_self : s'.courseD ci =
    { s.courseD ci with time_slots := (s.courseD ci).time_slots ++ slots }
  course_ne : ∀ j, j ≠ ci → s'.courseD j = s.courseD j
  used_self : ∀ y, y ∈ (s'.batchD bi).used_time_slots ↔
    y ∈ (s.batchD bi).used_time_slots ∨ y ∈ slots
  batch_name : (s'.batchD bi).name = (s.batchD bi).name
  batch_ne : ∀ j, j ≠ bi → s'.batchD j = s.batchD j
  t_assigned : ∀ y, y ∈ (s'.teacherD ti).assigned_time_slots ↔
    y ∈ (s.teacherD ti).assigned_time_slots ∨ y ∈ slots
  t_hours : (s'.teacherD ti).assigned_hours =
    (s.teacherD ti).assigned_hours + slots.length
  t_static : tstatic (s'.teacherD ti) = tstatic (s.teacherD ti)
  t_ne : ∀ j, j ≠ ti → s'.teacherD j = s.teacherD j

/-- Effects of `_unassign_slots` on the conflict-relevant state. -/
structure RCore (s : State) (ci ti bi : Nat) (slots : List Nat) (s' : State) : Prop where
  clen : s'.courses.length = s.courses.length
  blen : s'.batches.length = s.batches.length
  tlen : s'.teachers.length = s.teachers.length
  course_self : s'.courseD ci =
    { s.courseD ci with time_slots := slots.foldl List.erase (s.courseD ci).time_slots }
  course_ne : ∀ j, j ≠ ci → s'.courseD j = s.courseD j
  used_self : ∀ y, y ∈ (s'.batchD bi).used_time_slots ↔
    y ∈ (s.batchD bi).used_time_slots ∧ y ∉ slots
  batch_name : (s'.batchD bi).name = (s.batchD bi).name
  batch_ne : ∀ j, j ≠ bi → s'.batchD j = s.batchD j
  t_assigned : ∀ y, y ∈ (s'.teacherD ti).assigned_time_slots ↔
    y ∈ (s.teacherD ti).assigned_time_slots ∧ y ∉ slots
  t_hours : (s'.teacherD ti).assigned_hours =
    (s.teacherD ti).assigned_hours - slots.length
  t_static : tstatic (s'.teacherD ti) = tstatic (s.teacherD ti)
  t_ne : ∀ j, j ≠ ti → s'.teacherD j = s.teacherD j

theorem foldl_add_acore {ci ti bi day : Nat} (slots : List Nat) (s : State)
    (hci : ci < s.courses.length) (hti : ti < s.teachers.length)
    (hbi : bi < s.batches.length) :
    ACore s ci ti bi slots (slots.foldl (add_slot ci ti bi day) s) := by
  induction slots generalizing s with
  | nil =>
    exact ⟨rfl, rfl, rfl, by simp, fun _ _ => rfl, by simp, rfl, fun _ _ => rfl,
      by simp, by simp, rfl, fun _ _ => rfl⟩
  | cons x rest ih =>
    have h1c := @add_slot_courseD_self s ci ti bi day x hci
    have h1b := @add_slot_batchD_self s ci ti bi day x hbi
    have h1t := @add_slot_teacherD_self s ci ti bi day x hti
    have hlen := @add_slot_lens s ci ti bi day x
    have h2 := ih (add_slot ci ti bi day s x)
      (by rw [hlen.1]; exact hci) (by rw [hlen.2.2]; exact hti)
      (by rw [hlen.2.1]; exact hbi)
    simp only [List.foldl_cons]
    refine ⟨by rw [h2.clen, hlen.1], by rw [h2.blen, hlen.2.1],
      by rw [h2.tlen, hlen.2.2], ?_, ?_, ?_, ?_, ?_, ?_, ?_, ?_, ?_⟩
    · rw [h2.course_self, h1c]; simp
    · intro j hj
      rw [h2.course_ne j hj, add_slot_courseD_ne hj]
    · intro y
      rw [h2.used_self y, h1b]
      simp only [Finset.mem_insert, List.mem_cons]
      tauto
    · rw [h2.batch_name, h1b]
    · intro j hj
      rw [h2.batch_ne j hj, add_slot_batchD_ne hj]
    · intro y
      rw [h2.t_assigned y, h1t]
      simp only [Finset.mem_insert, List.mem_cons]
      tauto
    · rw [h2.t_hours, h1t]
      simp only [List.length_cons]
      push_cast
      ring
    · rw [h2.t_static, h1t]
      rfl
    · intro j hj
      rw [h2.t_ne j hj, add_slot_teacherD_ne hj]

theorem foldl_remove_rcore {ci ti bi day : Nat} (slots : List Nat) (s : State)
    (hci : ci < s.courses.length) (hti : ti < s.teachers.length)
    (hbi : bi < s.batches.length) :
    RCore s ci ti bi slots (slots.foldl (remove_slot ci ti bi day) s) := by
  induction slots generalizing s with
  | nil =>
    exact ⟨rfl, rfl, rfl, by simp, fun _ _ => rfl, by simp, rfl, fun _ _ => rfl,
      by simp, by simp, rfl, fun _ _ => rfl⟩
  | cons x rest ih =>
    have h1c := @remove_slot_courseD_self s ci ti bi day x hci
    have h1b := @remove_slot_batchD_self s ci ti bi day x hbi
    have h1t := @remove_slot_teacherD_self s ci ti bi day x hti
    have hlen := @remove_slot_lens s ci ti bi day x
    have h2 := ih (remove_slot ci ti bi day s x)
      (by rw [hlen.1]; exact hci) (by rw [hlen.2.2]; exact hti)
      (by rw [hlen.2.1]; exact hbi)
    simp only [List.foldl_cons]
    refine ⟨by rw [h2.clen, hlen.1], by rw [h2.blen, hlen.2.1],
      by rw [h2.tlen, hlen.2.2], ?_, ?_, ?_, ?_, ?_, ?_, ?_, ?_, ?_⟩
    · rw [h2.course_self, h1c]
      rfl
    · intro j hj
      rw [h2.course_ne j hj, remove_slot_courseD_ne hj]
    · intro y
      rw [h2.used_self y, h1b]
      simp only [Finset.mem_erase, List.mem_cons]
      tauto
    · rw [h2.batch_name, h1b]
    · intro j hj
      rw [h2.batch_ne j hj, remove_slot_batchD_ne hj]
    · intro y
      rw [h2.t_assigned y, h1t]
      simp only [Finset.mem_erase, List.mem_cons]
      tauto
    · rw [h2.t_hours, h1t]
      simp only [List.length_cons]
      push_cast
      ring
    · rw [h2.t_static, h1t]
      rfl
    · intro j hj
      rw [h2.t_ne j hj, remove_slot_teacherD_ne hj]

theorem foldl_list_erase_mem {l : List Nat} (slots : List Nat) (x : Nat)
    (hnd : l.Nodup) :
    x ∈ slots.foldl List.erase l ↔ x ∈ l ∧ x ∉ slots := by
  induction slots generalizing l with
  | nil => simp
  | cons a rest ih =>
    simp only [List.foldl_cons]
    rw [ih (hnd.erase a), List.Nodup.mem_erase_iff hnd]
    simp only [List.mem_cons]
    tauto

theorem foldl_list_erase_nodup {l : List Nat} (slots : List Nat) (hnd : l.Nodup) :
    (slots.foldl List.erase l).Nodup := by
  induction slots generalizing l with
  | nil => exact hnd
  | cons a rest ih => exact ih (hnd.erase a)

/-! ## Lemma layer: the conflict-relevant restore relation and the search
invariant -/

/-- The state components that every failed placement attempt does restore
(`tried`, the per-day tie-break counters, the teachers' zero-entry dict keys,
and — after the course-level backtrack — the lab bookkeeping are exactly the
components excluded here). -/
structure REq (s s' : State) : Prop where
  clen : s'.courses.length = s.courses.length
  blen : s'.batches.length = s.batches.length
  tlen : s'.teachers.length = s.teachers.length
  course : ∀ i, s'.courseD i = s.courseD i
  used : ∀ i, (s'.batchD i).used_time_slots = (s.batchD i).used_time_slots
  assigned : ∀ i, (s'.teacherD i).assigned_time_slots = (s.teacherD i).assigned_time_slots
  hours : ∀ i, (s'.teacherD i).assigned_hours = (s.teacherD i).assigned_hours
  tstat : ∀ i, tstatic (s'.teacherD i) = tstatic (s.teacherD i)

theorem REq.refl (s : State) : REq s s :=
  ⟨rfl, rfl, rfl, fun _ => rfl, fun _ => rfl, fun _ => rfl, fun _ => rfl, fun _ => rfl⟩

theorem REq.trans {s1 s2 s3 : State} (h1 : REq s1 s2) (h2 : REq s2 s3) : REq s1 s3 :=
  ⟨h2.clen.trans h1.clen, h2.blen.trans h1.blen, h2.tlen.trans h1.tlen,
   fun i => (h2.course i).trans (h1.course i),
   fun i => (h2.used i).trans (h1.used i),
   fun i => (h2.assigned i).trans (h1.assigned i),
   fun i => (h2.hours i).trans (h1.hours i),
   fun i => (h2.tstat i).trans (h1.tstat i)⟩

/-- The search invariant behind C1: committed slot lists are duplicate-free,
mirrored in the owning batch's and teacher's sets, and pairwise disjoint
across courses of one batch and across courses of one teacher. -/
structure Inv (s : State) : Prop where
  nodup : ∀ i, (s.courseD i).time_slots.Nodup
  subUsed : ∀ i, ∀ x ∈ (s.courseD i).time_slots,
    x ∈ (s.batchD (s.courseD i).batchIdx).used_time_slots
  subAssigned : ∀ i ti, (s.courseD i).teacher = some ti →
    ∀ x ∈ (s.courseD i).time_slots, x ∈ (s.teacherD ti).assigned_time_slots
  batchDisj : ∀ i j, i ≠ j → (s.courseD i).batchIdx = (s.courseD j).batchIdx →
    ∀ x ∈ (s.courseD i).time_slots, x ∉ (s.courseD j).time_slots
  teacherDisj : ∀ i j ti, i ≠ j → (s.courseD i).teacher = some ti →
    (s.courseD j).teacher = some ti →
    ∀ x ∈ (s.courseD i).time_slots, x ∉ (s.courseD j).time_slots

theorem Inv.of_req {s s' : State} (h : REq s s') (hi : Inv s) : Inv s' := by
  refine ⟨?_, ?_, ?_, ?_, ?_⟩
  · intro i; rw [h.course i]; exact hi.nodup i
  · intro i x hx
    rw [h.course i] at hx ⊢
    rw [h.used]
    exact hi.subUsed i x hx
  · intro i ti ht x hx
    rw [h.course i] at ht hx
    rw [h.assigned]
    exact hi.subAssigned i ti ht x hx
  · intro i j hij hb x hx
    rw [h.course i] at hx
    rw [h.course i, h.course j] at hb
    rw [h.course j]
    exact hi.batchDisj i j hij hb x hx
  · intro i j ti hij hti htj x hx
    rw [h.course i] at hti hx
    rw [h.course j] at htj ⊢
    exact hi.teacherDisj i j ti hij hti htj x hx

/-! ### `ACore`/`RCore` transport through the batch-bookkeeping tail and `bump` -/

theorem ACore.modBatch_keep_a {s s' : State} {ci ti bi : Nat} {slots : List Nat}
    {f : Batch → Batch}
    (hused : ∀ b, (f b).used_time_slots = b.used_time_slots)
    (hname : ∀ b, (f b).name = b.name)
    (hbi : bi < s'.batches.length)
    (h : ACore s ci ti bi slots s') : ACore s ci ti bi slots (s'.modBatch bi f) := by
  refine ⟨h.clen, by simpa using h.blen, h.tlen, h.course_self, h.course_ne, ?_, ?_,
    ?_, h.t_assigned, h.t_hours, h.t_static, h.t_ne⟩
  · intro y
    rw [State.modBatch_batchD_self _ _ _ hbi, hused]
    exact h.used_self y
  · rw [State.modBatch_batchD_self _ _ _ hbi, hname]
    exact h.batch_name
  · intro j hj
    rw [State.modBatch_batchD_ne _ _ _ _ hj]
    exact h.batch_ne j hj

theorem RCore.modBatch_keep_r {s s' : State} {ci ti bi : Nat} {slots : List Nat}
    {f : Batch → Batch}
    (hused : ∀ b, (f b).used_time_slots = b.used_time_slots)
    (hname : ∀ b, (f b).name = b.name)
    (hbi : bi < s'.batches.length)
    (h : RCore s ci ti bi slots s') : RCore s ci ti bi slots (s'.modBatch bi f) := by
  refine ⟨h.clen, by simpa using h.blen, h.tlen, h.course_self, h.course_ne, ?_, ?_,
    ?_, h.t_assigned, h.t_hours, h.t_static, h.t_ne⟩
  · intro y
    rw [State.modBatch_batchD_self _ _ _ hbi, hused]
    exact h.used_self y
  · rw [State.modBatch_batchD_self _ _ _ hbi, hname]
    exact h.batch_name
  · intro j hj
    rw [State.modBatch_batchD_ne _ _ _ _ hj]
    exact h.batch_ne j hj

theorem ACore.bump {s s' : State} {ci ti bi : Nat} {slots : List Nat}
    (h : ACore s ci ti bi slots s') : ACore s ci ti bi slots (Sched.bump s') :=
  ⟨h.clen, h.blen, h.tlen, h.course_self, h.course_ne, h.used_self, h.batch_name,
   h.batch_ne, h.t_assigned, h.t_hours, h.t_static, h.t_ne⟩

/-! ### Effects of the full `_assign_slots` / `_unassign_slots` -/

theorem assign_slots_false_eq (s : State) (ci ti bi : Nat) (slots : List Nat)
    (day : Nat) :
    assign_slots s ci ti bi slots day false =
      (slots.foldl (add_slot ci ti bi day) s).modBatch bi fun b =>
        { b with theory_hours_per_day :=
            b.theory_hours_per_day.incr day (slots.length : Int) } := rfl

theorem assign_slots_true_nil_eq (s : State) (ci ti bi day : Nat) :
    assign_slots s ci ti bi [] day true =
      (([] : List Nat).foldl (add_slot ci ti bi day) s).modBatch bi fun b =>
        { b with lab_days := b.lab_days.incr day 1 } := rfl

theorem assign_slots_true_cons_eq (s : State) (ci ti bi day x : Nat)
    (rest : List Nat) :
    assign_slots s ci ti bi (x :: rest) day true =
      (((x :: rest).foldl (add_slot ci ti bi day) s).modBatch bi (fun b =>
          { b with lab_days := b.lab_days.incr day 1 })).modBatch bi fun b =>
        { b with lab_start_slots := insert x b.lab_start_slots } := rfl

theorem unassign_slots_false_eq (s : State) (ci ti bi : Nat) (slots : List Nat)
    (day : Nat) :
    unassign_slots s ci ti bi slots day false =
      (slots.foldl (remove_slot ci ti bi day) s).modBatch bi fun b =>
        { b with theory_hours_per_day :=
            b.theory_hours_per_day.subDrop day (slots.length : Int) } := rfl

theorem unassign_slots_true_nil_eq (s : State) (ci ti bi day : Nat) :
    unassign_slots s ci ti bi [] day true =
      (([] : List Nat).foldl (remove_slot ci ti bi day) s).modBatch bi fun b =>
        { b with lab_days := b.lab_days.subDrop day 1 } := rfl

theorem unassign_slots_true_cons_eq (s : State) (ci ti bi day x : Nat)
    (rest : List Nat) :
    unassign_slots s ci ti bi (x :: rest) day true =
      (((x :: rest).foldl (remove_slot ci ti bi day) s).modBatch bi (fun b =>
          { b with lab_days := b.lab_days.subDrop day 1 })).modBatch bi fun b =>
        { b with lab_start_slots := b.lab_start_slots.erase x } := rfl

theorem assign_slots_acore {s : State} {ci ti bi day : Nat} (slots : List Nat)
    (il : Bool) (hci : ci < s.courses.length) (hti : ti < s.teachers.length)
    (hbi : bi < s.batches.length) :
    ACore s ci ti bi slots (assign_slots s ci ti bi slots day il) := by
  have h := @foldl_add_acore ci ti bi day slots s hci hti hbi
  have hblen : bi < (slots.foldl (add_slot ci ti bi day) s).batches.length := by
    rw [h.blen]; exact hbi
  cases il with
  | false =>
    rw [assign_slots_false_eq]
    exact ACore.modBatch_keep_a (fun _ => rfl) (fun _ => rfl) hblen h
  | true =>
    cases slots with
    | nil =>
      rw [assign_slots_true_nil_eq]
      exact ACore.modBatch_keep_a (fun _ => rfl) (fun _ => rfl) hblen h
    | cons x rest =>
      rw [assign_slots_true_cons_eq]
      exact ACore.modBatch_keep_a (fun _ => rfl) (fun _ => rfl) (by simpa using hblen)
        (ACore.modBatch_keep_a (fun _ => rfl) (fun _ => rfl) hblen h)

theorem unassign_slots_rcore {s : State} {ci ti bi day : Nat} (slots : List Nat)
    (il : Bool) (hci : ci < s.courses.length) (hti : ti < s.teachers.length)
    (hbi : bi < s.batches.length) :
    RCore s ci ti bi slots (unassign_slots s ci ti bi slots day il) := by
  have h := @foldl_remove_rcore ci ti bi day slots s hci hti hbi
  have hblen : bi < (slots.foldl (remove_slot ci ti bi day) s).batches.length := by
    rw [h.blen]; exact hbi
  cases il with
  | false =>
    rw [unassign_slots_false_eq]
    exact RCore.modBatch_keep_r (fun _ => rfl) (fun _ => rfl) hblen h
  | true =>
    cases slots with
    | nil =>
      rw [unassign_slots_true_nil_eq]
      exact RCore.modBatch_keep_r (fun _ => rfl) (fun _ => rfl) hblen h
    | cons x rest =>
      rw [unassign_slots_true_cons_eq]
      exact RCore.modBatch_keep_r (fun _ => rfl) (fun _ => rfl) (by simpa using hblen)
        (RCore.modBatch_keep_r (fun _ => rfl) (fun _ => rfl) hblen h)

/-- Committing fresh slots to a course preserves the search invariant. -/
theorem Inv.assign {s s' : State} {ci ti bi : Nat} {slots : List Nat}
    (hi : Inv s) (ha : ACore s ci ti bi slots s')
    (hbi_eq : (s.courseD ci).batchIdx = bi)
    (hteq : (s.courseD ci).teacher = some ti)
    (hnd : slots.Nodup)
    (hfu : ∀ x ∈ slots, x ∉ (s.batchD bi).used_time_slots)
    (hfa : ∀ x ∈ slots, x ∉ (s.teacherD ti).assigned_time_slots) :
    Inv s' := by
  have hcs := ha.course_self
  have hts' : (s'.courseD ci).time_slots = (s.courseD ci).time_slots ++ slots := by
    rw [hcs]
  have hbx' : (s'.courseD ci).batchIdx = (s.courseD ci).batchIdx := by rw [hcs]
  have hth' : (s'.courseD ci).teacher = (s.courseD ci).teacher := by rw [hcs]
  -- a committed slot is fresh for every currently committed course list
  have hfresh_course : ∀ j, ∀ x ∈ slots,
      (s.courseD j).batchIdx = bi → x ∉ (s.courseD j).time_slots := by
    intro j x hx hbj hmem
    exact hfu x hx (by rw [← hbj]; exact hi.subUsed j x hmem)
  have hfresh_teacher : ∀ j, ∀ x ∈ slots,
      (s.courseD j).teacher = some ti → x ∉ (s.courseD j).time_slots := by
    intro j x hx htj hmem
    exact hfa x hx (hi.subAssigned j ti htj x hmem)
  refine ⟨?_, ?_, ?_, ?_, ?_⟩
  · intro i
    by_cases hic : i = ci
    · subst hic
      rw [hts']
      refine List.Nodup.append (hi.nodup i) hnd ?_
      intro x hx1 hx2
      exact hfresh_course i x hx2 hbi_eq hx1
    · rw [ha.course_ne i hic]; exact hi.nodup i
  · intro i x hx
    by_cases hic : i = ci
    · subst hic
      rw [hts'] at hx
      rw [hbx', hbi_eq]
      rcases List.mem_append.mp hx with hx | hx
      · by_cases hbb : bi = bi
        · exact (ha.used_self x).mpr (Or.inl (by rw [← hbi_eq]; exact hi.subUsed i x hx))
        · exact absurd rfl hbb
      · exact (ha.used_self x).mpr (Or.inr hx)
    · rw [ha.course_ne i hic] at hx ⊢
      by_cases hbb : (s.courseD i).batchIdx = bi
      · rw [hbb]
        exact (ha.used_self x).mpr (Or.inl (by rw [← hbb]; exact hi.subUsed i x hx))
      · rw [ha.batch_ne _ hbb]
        exact hi.subUsed i x hx
  · intro i tj htj x hx
    by_cases hic : i = ci
    · subst hic
      rw [hth', hteq] at htj
      injection htj with htj
      subst htj
      rw [hts'] at hx
      rcases List.mem_append.mp hx with hx | hx
      · exact (ha.t_assigned x).mpr (Or.inl (hi.subAssigned i ti hteq x hx))
      · exact (ha.t_assigned x).mpr (Or.inr hx)
    · rw [ha.course_ne i hic] at htj hx
      by_cases htt : tj = ti
      · subst htt
        exact (ha.t_assigned x).mpr (Or.inl (hi.subAssigned i tj htj x hx))
      · rw [ha.t_ne _ htt]
        exact hi.subAssigned i tj htj x hx
  · intro i j hij hb x hx
    have hbi' : ∀ k, (s'.courseD k).batchIdx = (s.courseD k).batchIdx := by
      intro k
      by_cases hkc : k = ci
      · subst hkc; exact hbx'
      · rw [ha.course_ne k hkc]
    rw [hbi' i, hbi' j] at hb
    by_cases hic : i = ci
    · subst hic
      rw [hts'] at hx
      rw [ha.course_ne j (Ne.symm hij)]
      rcases List.mem_append.mp hx with hx | hx
      · exact hi.batchDisj i j hij hb x hx
      · exact hfresh_course j x hx (by rw [← hb, hbi_eq])
    · by_cases hjc : j = ci
      · subst hjc
        rw [ha.course_ne i hic] at hx
        rw [hts']
        intro hmem
        rcases List.mem_append.mp hmem with hm | hm
        · exact hi.batchDisj i j hij hb x hx hm
        · exact hfresh_course i x hm (by rw [hb, hbi_eq]) hx
      · rw [ha.course_ne i hic] at hx
        rw [ha.course_ne j hjc]
        exact hi.batchDisj i j hij hb x hx
  · intro i j tj hij hti htj x hx
    have hth'' : ∀ k, (s'.courseD k).teacher = (s.courseD k).teacher := by
      intro k
      by_cases hkc : k = ci
      · subst hkc; exact hth'
      · rw [ha.course_ne k hkc]
    rw [hth'' i] at hti
    rw [hth'' j] at htj
    by_cases hic : i = ci
    · subst hic
      rw [hts'] at hx
      rw [ha.course_ne j (Ne.symm hij)]
      rcases List.mem_append.mp hx with hx | hx
      · exact hi.teacherDisj i j tj hij hti htj x hx
      · have : tj = ti := by
          rw [hteq] at hti; injection hti with h; exact h.symm
        subst this
        exact hfresh_teacher j x hx htj
    · by_cases hjc : j = ci
      · subst hjc
        rw [ha.course_ne i hic] at hx
        rw [hts']
        intro hmem
        rcases List.mem_append.mp hmem with hm | hm
        · exact hi.teacherDisj i j tj hij hti htj x hx hm
        · have : tj = ti := by
            rw [hteq] at htj; injection htj with h; exact h.symm
          subst this
          exact hfresh_teacher i x hm hti hx
      · rw [ha.course_ne i hic] at hx
        rw [ha.course_ne j hjc]
        exact hi.teacherDisj i j tj hij hti htj x hx

/-- Rolling back committed slots of a course preserves the search invariant. -/
theorem Inv.unassign {s s' : State} {ci ti bi : Nat} {slots : List Nat}
    (hi : Inv s) (hr : RCore s ci ti bi slots s')
    (hbi_eq : (s.courseD ci).batchIdx = bi)
    (hteq : (s.courseD ci).teacher = some ti)
    (hsub : ∀ x ∈ slots, x ∈ (s.courseD ci).time_slots) :
    Inv s' := by
  have hcs := hr.course_self
  have hts' : (s'.courseD ci).time_slots =
      slots.foldl List.erase (s.courseD ci).time_slots := by rw [hcs]
  have hmem' : ∀ x, x ∈ (s'.courseD ci).time_slots ↔
      x ∈ (s.courseD ci).time_slots ∧ x ∉ slots := by
    intro x
    rw [hts']
    exact foldl_list_erase_mem slots x (hi.nodup ci)
  have hbx' : (s'.courseD ci).batchIdx = (s.courseD ci).batchIdx := by rw [hcs]
  have hth' : (s'.courseD ci).teacher = (s.courseD ci).teacher := by rw [hcs]
  -- a removed slot cannot sit in another course of the same batch or teacher
  have hout_batch : ∀ j, j ≠ ci → (s.courseD j).batchIdx = (s.courseD ci).batchIdx →
      ∀ x ∈ (s.courseD j).time_slots, x ∉ slots := by
    intro j hj hb x hx hxs
    exact hi.batchDisj j ci hj hb x hx (hsub x hxs)
  have hout_teacher : ∀ j, j ≠ ci → (s.courseD j).teacher = some ti →
      ∀ x ∈ (s.courseD j).time_slots, x ∉ slots := by
    intro j hj ht x hx hxs
    exact hi.teacherDisj j ci ti hj ht hteq x hx (hsub x hxs)
  refine ⟨?_, ?_, ?_, ?_, ?_⟩
  · intro i
    by_cases hic : i = ci
    · subst hic
      rw [hts']
      exact foldl_list_erase_nodup slots (hi.nodup i)
    · rw [hr.course_ne i hic]; exact hi.nodup i
  · intro i x hx
    by_cases hic : i = ci
    · subst hic
      rw [hbx', hbi_eq]
      obtain ⟨hx1, hx2⟩ := (hmem' x).mp hx
      exact (hr.used_self x).mpr ⟨by rw [← hbi_eq]; exact hi.subUsed i x hx1, hx2⟩
    · rw [hr.course_ne i hic] at hx ⊢
      by_cases hbb : (s.courseD i).batchIdx = bi
      · rw [hbb]
        refine (hr.used_self x).mpr ⟨by rw [← hbb]; exact hi.subUsed i x hx, ?_⟩
        exact hout_batch i hic (by rw [hbb, hbi_eq]) x hx
      · rw [hr.batch_ne _ hbb]
        exact hi.subUsed i x hx
  · intro i tj htj x hx
    by_cases hic : i = ci
    · subst hic
      rw [hth', hteq] at htj
      injection htj with htj
      subst htj
      obtain ⟨hx1, hx2⟩ := (hmem' x).mp hx
      exact (hr.t_assigned x).mpr ⟨hi.subAssigned i ti hteq x hx1, hx2⟩
    · rw [hr.course_ne i hic] at htj hx
      by_cases htt : tj = ti
      · subst htt
        exact (hr.t_assigned x).mpr ⟨hi.subAssigned i tj htj x hx,
          hout_teacher i hic htj x hx⟩
      · rw [hr.t_ne _ htt]
        exact hi.subAssigned i tj htj x hx
  · intro i j hij hb x hx
    have hbi' : ∀ k, (s'.courseD k).batchIdx = (s.courseD k).batchIdx := by
      intro k
      by_cases hkc : k = ci
      · subst hkc; exact hbx'
      · rw [hr.course_ne k hkc]
    rw [hbi' i, hbi' j] at hb
    have hsubi : ∀ k, ∀ y ∈ (s'.courseD k).time_slots, y ∈ (s.courseD k).time_slots := by
      intro k y hy
      by_cases hkc : k = ci
      · subst hkc; exact ((hmem' y).mp hy).1
      · rwa [hr.course_ne k hkc] at hy
    intro hmem
    exact hi.batchDisj i j hij hb x (hsubi i x hx) (hsubi j x hmem)
  · intro i j tj hij hti htj x hx
    have hth'' : ∀ k, (s'.courseD k).teacher = (s.courseD k).teacher := by
      intro k
      by_cases hkc : k = ci
      · subst hkc; exact hth'
      · rw [hr.course_ne k hkc]
    rw [hth'' i] at hti
    rw [hth'' j] at htj
    have hsubi : ∀ k, ∀ y ∈ (s'.courseD k).time_slots, y ∈ (s.courseD k).time_slots := by
      intro k y hy
      by_cases hkc : k = ci
      · subst hkc
        exact ((hmem' y).mp hy).1
      · rwa [hr.course_ne k hkc] at hy
    intro hmem
    exact hi.teacherDisj i j tj hij hti htj x (hsubi i x hx) (hsubi j x hmem)

/-! ### Effects of the course-level backtrack of `_schedule_recursive` -/

theorem backtrack_slot_courseD (cfg : Config) (ci ti : Nat) (s : State) (x : Nat) :
    (∀ j, (backtrack_slot cfg ci ti s x).courseD j = s.courseD j) ∧
    (backtrack_slot cfg ci ti s x).courses.length = s.courses.length ∧
    (backtrack_slot cfg ci ti s x).batches.length = s.batches.length ∧
    (backtrack_slot cfg ci ti s x).teachers.length = s.teachers.length := by
  by_cases hlab : ((s.courseD ci).course_type == "lab") = true
  · simp only [backtrack_slot, hlab, if_true]
    simp
  · rw [Bool.not_eq_true] at hlab
    simp only [backtrack_slot, hlab, Bool.false_eq_true, if_false]
    simp

theorem backtrack_slot_teacherD_self (cfg : Config) (ci ti : Nat) (s : State)
    (x : Nat) (hti : ti < s.teachers.length) :
    (backtrack_slot cfg ci ti s x).teacherD ti =
      { s.teacherD ti with
          assigned_time_slots :=
            (s.teacherD ti).assigned_time_slots.erase x,
          assigned_hours := (s.teacherD ti).assigned_hours - 1,
          daily_hours :=
            (s.teacherD ti).daily_hours.incr (x / cfg.periods_per_day) (-1) } := by
  by_cases hlab : ((s.courseD ci).course_type == "lab") = true
  · simp only [backtrack_slot, hlab, if_true]
    simp only [State.modBatch_teacherD]
    exact State.modTeacher_teacherD_self _ _ _ hti
  · rw [Bool.not_eq_true] at hlab
    simp only [backtrack_slot, hlab, Bool.false_eq_true, if_false]
    simp only [State.modBatch_teacherD]
    exact State.modTeacher_teacherD_self _ _ _ hti

theorem backtrack_slot_teacherD_ne (cfg : Config) (ci ti : Nat) (s : State)
    (x j : Nat) (hj : j ≠ ti) :
    (backtrack_slot cfg ci ti s x).teacherD j = s.teacherD j := by
  by_cases hlab : ((s.courseD ci).course_type == "lab") = true
  · simp only [backtrack_slot, hlab, if_true]
    simp only [State.modBatch_teacherD]
    exact State.modTeacher_teacherD_ne _ _ _ _ hj
  · rw [Bool.not_eq_true] at hlab
    simp only [backtrack_slot, hlab, Bool.false_eq_true, if_false]
    simp only [State.modBatch_teacherD]
    exact State.modTeacher_teacherD_ne _ _ _ _ hj

theorem backtrack_slot_batchD_self (cfg : Config) (ci ti : Nat) (s : State)
    (x : Nat) (hbi : (s.courseD ci).batchIdx < s.batches.length) :
    ((backtrack_slot cfg ci ti s x).batchD (s.courseD ci).batchIdx).used_time_slots =
        (s.batchD (s.courseD ci).batchIdx).used_time_slots.erase x ∧
    ((backtrack_slot cfg ci ti s x).batchD (s.courseD ci).batchIdx).lab_start_slots =
        (s.batchD (s.courseD ci).batchIdx).lab_start_slots ∧
    ((backtrack_slot cfg ci ti s x).batchD (s.courseD ci).batchIdx).name =
        (s.batchD (s.courseD ci).batchIdx).name := by
  by_cases hlab : ((s.courseD ci).course_type == "lab") = true
  · simp only [backtrack_slot, hlab, if_true]
    rw [State.modBatch_batchD_self _ _ _ (by simpa using hbi)]
    rw [State.modBatch_batchD_self _ _ _ (by simpa using hbi)]
    simp
  · rw [Bool.not_eq_true] at hlab
    simp only [backtrack_slot, hlab, Bool.false_eq_true, if_false]
    rw [State.modBatch_batchD_self _ _ _ (by simpa using hbi)]
    rw [State.modBatch_batchD_self _ _ _ (by simpa using hbi)]
    simp

theorem backtrack_slot_batchD_ne (cfg : Config) (ci ti : Nat) (s : State)
    (x j : Nat) (hj : j ≠ (s.courseD ci).batchIdx) :
    (backtrack_slot cfg ci ti s x).batchD j = s.batchD j := by
  by_cases hlab : ((s.courseD ci).course_type == "lab") = true
  · simp only [backtrack_slot, hlab, if_true]
    rw [State.modBatch_batchD_ne _ _ _ _ hj, State.modBatch_batchD_ne _ _ _ _ hj]
    simp
  · rw [Bool.not_eq_true] at hlab
    simp only [backtrack_slot, hlab, Bool.false_eq_true, if_false]
    rw [State.modBatch_batchD_ne _ _ _ _ hj, State.modBatch_batchD_ne _ _ _ _ hj]
    simp

/-- Effects of the per-slot loop of the course-level backtrack. -/
structure BCore (s : State) (ci ti : Nat) (slots : List Nat) (s' : State) : Prop where
  clen : s'.courses.length = s.courses.length
  blen : s'.batches.length = s.batches.length
  tlen : s'.teachers.length = s.teachers.length
  course : ∀ j, s'.courseD j = s.courseD j
  used_self : ∀ y, y ∈ (s'.batchD (s.courseD ci).batchIdx).used_time_slots ↔
    y ∈ (s.batchD (s.courseD ci).batchIdx).used_time_slots ∧ y ∉ slots
  batch_ne : ∀ j, j ≠ (s.courseD ci).batchIdx → s'.batchD j = s.batchD j
  t_assigned : ∀ y, y ∈ (s'.teacherD ti).assigned_time_slots ↔
    y ∈ (s.teacherD ti).assigned_time_slots ∧ y ∉ slots
  t_hours : (s'.teacherD ti).assigned_hours =
    (s.teacherD ti).assigned_hours - slots.length
  t_static : tstatic (s'.teacherD ti) = tstatic (s.teacherD ti)
  t_ne : ∀ j, j ≠ ti → s'.teacherD j = s.teacherD j

theorem foldl_backtrack_bcore (cfg : Config) {ci ti : Nat} (slots : List Nat)
    (s : State) (hti : ti < s.teachers.length)
    (hbi : (s.courseD ci).batchIdx < s.batches.length) :
    BCore s ci ti slots (slots.foldl (backtrack_slot cfg ci ti) s) := by
  induction slots generalizing s with
  | nil =>
    exact ⟨rfl, rfl, rfl, fun _ => rfl, by simp, fun _ _ => rfl, by simp, by simp,
      rfl, fun _ _ => rfl⟩
  | cons x rest ih =>
    obtain ⟨hc1, hl1, hl2, hl3⟩ := backtrack_slot_courseD cfg ci ti s x
    have ht1 := backtrack_slot_teacherD_self cfg ci ti s x hti
    have hb1 := backtrack_slot_batchD_self cfg ci ti s x hbi
    have h2 := ih (backtrack_slot cfg ci ti s x)
      (by rw [hl3]; exact hti) (by rw [hc1 ci, hl2]; exact hbi)
    have hbieq : ((backtrack_slot cfg ci ti s x).courseD ci).batchIdx =
        (s.courseD ci).batchIdx := by rw [hc1 ci]
    simp only [List.foldl_cons]
    refine ⟨by rw [h2.clen, hl1], by rw [h2.blen, hl2], by rw [h2.tlen, hl3],
      ?_, ?_, ?_, ?_, ?_, ?_, ?_⟩
    · intro j
      rw [h2.course j, hc1 j]
    · intro y
      have hu := h2.used_self y
      rw [hbieq] at hu
      rw [hu, hb1.1]
      simp only [Finset.mem_erase, List.mem_cons]
      tauto
    · intro j hj
      have hbn := h2.batch_ne j (by rw [hbieq]; exact hj)
      rw [hbn, backtrack_slot_batchD_ne cfg ci ti s x j hj]
    · intro y
      rw [h2.t_assigned y, ht1]
      simp only [Finset.mem_erase, List.mem_cons]
      tauto
    · rw [h2.t_hours, ht1]
      simp only [List.length_cons]
      push_cast
      ring
    · rw [h2.t_static, ht1]
      rfl
    · intro j hj
      rw [h2.t_ne j hj, backtrack_slot_teacherD_ne cfg ci ti s x j hj]

/-- Effects of the whole course-level backtrack block. -/
structure CBCore (s : State) (ci ti : Nat) (s' : State) : Prop where
  clen : s'.courses.length = s.courses.length
  blen : s'.batches.length = s.batches.length
  tlen : s'.teachers.length = s.teachers.length
  course_self : s'.courseD ci = { s.courseD ci with time_slots := [] }
  course_ne : ∀ j, j ≠ ci → s'.courseD j = s.courseD j
  used_self : ∀ y, y ∈ (s'.batchD (s.courseD ci).batchIdx).used_time_slots ↔
    y ∈ (s.batchD (s.courseD ci).batchIdx).used_time_slots ∧
      y ∉ (s.courseD ci).time_slots
  batch_ne : ∀ j, j ≠ (s.courseD ci).batchIdx → s'.batchD j = s.batchD j
  t_assigned : ∀ y, y ∈ (s'.teacherD ti).assigned_time_slots ↔
    y ∈ (s.teacherD ti).assigned_time_slots ∧ y ∉ (s.courseD ci).time_slots
  t_hours : (s'.teacherD ti).assigned_hours =
    (s.teacherD ti).assigned_hours - (s.courseD ci).time_slots.length
  t_static : tstatic (s'.teacherD ti) = tstatic (s.teacherD ti)
  t_ne : ∀ j, j ≠ ti → s'.teacherD j = s.teacherD j

theorem course_backtrack_cbcore (cfg : Config) {ci ti : Nat} (s : State)
    (hci : ci < s.courses.length) (hti : ti < s.teachers.length)
    (hbi : (s.courseD ci).batchIdx < s.batches.length) :
    CBCore s ci ti (course_backtrack cfg ci ti s) := by
  unfold course_backtrack
  by_cases hemp : (s.courseD ci).time_slots.isEmpty
  · rw [if_pos hemp]
    have hnil : (s.courseD ci).time_slots = [] := List.isEmpty_iff.mp hemp
    refine ⟨rfl, rfl, rfl, ?_, fun _ _ => rfl, ?_, fun _ _ => rfl, ?_, ?_, rfl,
      fun _ _ => rfl⟩
    · rw [← hnil]
    · intro y; rw [hnil]; simp
    · intro y; rw [hnil]; simp
    · rw [hnil]; simp
  · rw [if_neg hemp]
    have hb := foldl_backtrack_bcore cfg (s.courseD ci).time_slots s hti hbi
    set s1 := (s.courseD ci).time_slots.foldl (backtrack_slot cfg ci ti) s with hs1
    have hci1 : ci < s1.courses.length := by rw [hb.clen]; exact hci
    refine ⟨by simp [hb.clen], by simp [hb.blen], by simp [hb.tlen], ?_, ?_, ?_,
      ?_, ?_, ?_, ?_, ?_⟩
    · rw [State.modCourse_courseD_self _ _ _ hci1, hb.course ci]
    · intro j hj
      rw [State.modCourse_courseD_ne _ _ _ _ hj, hb.course j]
    · intro y
      simpa using hb.used_self y
    · intro j hj
      simpa using hb.batch_ne j hj
    · intro y
      simpa using hb.t_assigned y
    · simpa using hb.t_hours
    · simpa using hb.t_static
    · intro j hj
      simpa using hb.t_ne j hj

/-- The course-level backtrack preserves the search invariant. -/
theorem Inv.backtrack {s s' : State} {ci ti : Nat}
    (hi : Inv s) (hb : CBCore s ci ti s')
    (hteq : (s.courseD ci).teacher = some ti) :
    Inv s' := by
  have hcs := hb.course_self
  refine ⟨?_, ?_, ?_, ?_, ?_⟩
  · intro i
    by_cases hic : i = ci
    · subst hic; rw [hcs]; exact List.nodup_nil
    · rw [hb.course_ne i hic]; exact hi.nodup i
  · intro i x hx
    by_cases hic : i = ci
    · subst hic; rw [hcs] at hx; exact absurd hx (List.not_mem_nil x)
    · rw [hb.course_ne i hic] at hx ⊢
      by_cases hbb : (s.courseD i).batchIdx = (s.courseD ci).batchIdx
      · rw [hbb]
        refine (hb.used_self x).mpr ⟨by rw [← hbb]; exact hi.subUsed i x hx, ?_⟩
        exact hi.batchDisj i ci hic hbb x hx
      · rw [hb.batch_ne _ hbb]
        exact hi.subUsed i x hx
  · intro i tj htj x hx
    by_cases hic : i = ci
    · subst hic; rw [hcs] at hx; exact absurd hx (List.not_mem_nil x)
    · rw [hb.course_ne i hic] at htj hx
      by_cases htt : tj = ti
      · subst htt
        exact (hb.t_assigned x).mpr ⟨hi.subAssigned i tj htj x hx,
          hi.teacherDisj i ci tj hic htj hteq x hx⟩
      · rw [hb.t_ne _ htt]
        exact hi.subAssigned i tj htj x hx
  · intro i j hij hbx x hx
    have hbi' : ∀ k, (s'.courseD k).batchIdx = (s.courseD k).batchIdx := by
      intro k
      by_cases hkc : k = ci
      · subst hkc; rw [hcs]
      · rw [hb.course_ne k hkc]
    rw [hbi' i, hbi' j] at hbx
    have hsubi : ∀ k, ∀ y ∈ (s'.courseD k).time_slots, y ∈ (s.courseD k).time_slots := by
      intro k y hy
      by_cases hkc : k = ci
      · subst hkc; rw [hcs] at hy; exact absurd hy (List.not_mem_nil y)
      · rwa [hb.course_ne k hkc] at hy
    intro hmem
    exact hi.batchDisj i j hij hbx x (hsubi i x hx) (hsubi j x hmem)
  · intro i j tj hij hti' htj' x hx
    have hth'' : ∀ k, (s'.courseD k).teacher = (s.courseD k).teacher := by
      intro k
      by_cases hkc : k = ci
      · subst hkc; rw [hcs]
      · rw [hb.course_ne k hkc]
    rw [hth'' i] at hti'
    rw [hth'' j] at htj'
    have hsubi : ∀ k, ∀ y ∈ (s'.courseD k).time_slots, y ∈ (s.courseD k).time_slots := by
      intro k y hy
      by_cases hkc : k = ci
      · subst hkc; rw [hcs] at hy; exact absurd hy (List.not_mem_nil y)
      · rwa [hb.course_ne k hkc] at hy
    intro hmem
    exact hi.teacherDisj i j tj hij hti' htj' x (hsubi i x hx) (hsubi j x hmem)

/-- Setting or clearing `course.teacher` preserves the invariant when the
course holds no slots (the `teacher = None` write needs no such hypothesis,
but this form covers both call sites). -/
theorem Inv.set_teacher {s : State} {ci : Nat} {tv : Option Nat}
    (hi : Inv s) (hci : ci < s.courses.length)
    (hnil : (s.courseD ci).time_slots = []) :
    Inv (s.modCourse ci fun c => { c with teacher := tv }) := by
  set s' := s.modCourse ci fun c => { c with teacher := tv } with hs'
  have hcs : s'.courseD ci = { s.courseD ci with teacher := tv } :=
    State.modCourse_courseD_self _ _ _ hci
  have hcn : ∀ j, j ≠ ci → s'.courseD j = s.courseD j := fun j hj =>
    State.modCourse_courseD_ne _ _ _ _ hj
  have hts : (s'.courseD ci).time_slots = [] := by rw [hcs]; exact hnil
  refine ⟨?_, ?_, ?_, ?_, ?_⟩
  · intro i
    by_cases hic : i = ci
    · subst hic; rw [hts]; exact List.nodup_nil
    · rw [hcn i hic]; exact hi.nodup i
  · intro i x hx
    by_cases hic : i = ci
    · subst hic; rw [hts] at hx; exact absurd hx (List.not_mem_nil x)
    · rw [hcn i hic] at hx ⊢
      have : s'.batchD (s.courseD i).batchIdx = s.batchD (s.courseD i).batchIdx := rfl
      rw [this]
      exact hi.subUsed i x hx
  · intro i tj htj x hx
    by_cases hic : i = ci
    · subst hic; rw [hts] at hx; exact absurd hx (List.not_mem_nil x)
    · rw [hcn i hic] at htj hx
      have : s'.teacherD tj = s.teacherD tj := rfl
      rw [this]
      exact hi.subAssigned i tj htj x hx
  · intro i j hij hbx x hx
    by_cases hic : i = ci
    · subst hic; rw [hts] at hx; exact absurd hx (List.not_mem_nil x)
    · by_cases hjc : j = ci
      · subst hjc; rw [hts]; exact List.not_mem_nil x
      · rw [hcn i hic] at hx hbx
        rw [hcn j hjc] at hbx ⊢
        exact hi.batchDisj i j hij hbx x hx
  · intro i j tj hij hti' htj' x hx
    by_cases hic : i = ci
    · subst hic; rw [hts] at hx; exact absurd hx (List.not_mem_nil x)
    · by_cases hjc : j = ci
      · subst hjc; rw [hts]; exact List.not_mem_nil x
      · rw [hcn i hic] at hx hti'
        rw [hcn j hjc] at htj' ⊢
        exact hi.teacherDisj i j tj hij hti' htj' x hx

/-- The round trip behind the failure path of a placement loop iteration:
commit, recurse (restoring the conflict-relevant state), roll back. -/
theorem rt_compose {s s1 s2 s3 : State} {ci ti bi : Nat} {slots : List Nat}
    (ha : ACore s ci ti bi slots s1) (hr : REq s1 s2)
    (hu : RCore s2 ci ti bi slots s3)
    (hnd : slots.Nodup)
    (hfc : ∀ x ∈ slots, x ∉ (s.courseD ci).time_slots)
    (hfu : ∀ x ∈ slots, x ∉ (s.batchD bi).used_time_slots)
    (hfa : ∀ x ∈ slots, x ∉ (s.teacherD ti).assigned_time_slots) :
    REq s s3 := by
  refine ⟨?_, ?_, ?_, ?_, ?_, ?_, ?_, ?_⟩
  · rw [hu.clen, hr.clen, ha.clen]
  · rw [hu.blen, hr.blen, ha.blen]
  · rw [hu.tlen, hr.tlen, ha.tlen]
  · intro i
    by_cases hi : i = ci
    · subst hi
      rw [hu.course_self, hr.course i, ha.course_self]
      have : slots.foldl List.erase ((s.courseD i).time_slots ++ slots) =
          (s.courseD i).time_slots :=
        foldl_list_erase_append slots _ hnd hfc
      simp only [this]
    · rw [hu.course_ne i hi, hr.course i, ha.course_ne i hi]
  · intro i
    by_cases hi : i = bi
    · subst hi
      apply Finset.ext
      intro y
      rw [hu.used_self y, hr.used i, ha.used_self y]
      constructor
      · rintro ⟨hy1 | hy2, hy3⟩
        · exact hy1
        · exact absurd hy2 hy3
      · intro hy
        exact ⟨Or.inl hy, fun hc => hfu y hc hy⟩
    · rw [hu.batch_ne i hi, hr.used i, ha.batch_ne i hi]
  · intro i
    by_cases hi : i = ti
    · subst hi
      apply Finset.ext
      intro y
      rw [hu.t_assigned y, hr.assigned i, ha.t_assigned y]
      constructor
      · rintro ⟨hy1 | hy2, hy3⟩
        · exact hy1
        · exact absurd hy2 hy3
      · intro hy
        exact ⟨Or.inl hy, fun hc => hfa y hc hy⟩
    · rw [hu.t_ne i hi, hr.assigned i, ha.t_ne i hi]
  · intro i
    by_cases hi : i = ti
    · subst hi
      rw [hu.t_hours, hr.hours i, ha.t_hours]
      ring
    · rw [hu.t_ne i hi, hr.hours i, ha.t_ne i hi]
  · intro i
    by_cases hi : i = ti
    · subst hi
      rw [hu.t_static, hr.tstat i, ha.t_static]
    · rw [hu.t_ne i hi, hr.tstat i, ha.t_ne i hi]

/-! ## Lemma layer: lab placement -/

/-- Decomposition of a lab course's committed slot list into session blocks:
each block is `session_duration` consecutive slots inside one day, starting
at day-relative position 0 or 4 (the two anchors the code hardcodes). -/
inductive Blocks (cfg : Config) (dur : Nat) : List Nat → Prop
  | nil : Blocks cfg dur []
  | block (start : Nat) (rest : List Nat)
      (hpos : start % cfg.periods_per_day = 0 ∨ start % cfg.periods_per_day = 4)
      (hfit : start % cfg.periods_per_day + dur ≤ cfg.periods_per_day)
      (h : Blocks cfg dur rest) : Blocks cfg dur (List.range' start dur ++ rest)

/-- In-range and binding hypotheses for a placement attempt on course `ci`
with teacher `ti`. -/
structure PlaceOk (s : State) (ci ti : Nat) : Prop where
  hci : ci < s.courses.length
  hti : ti < s.teachers.length
  hbi : (s.courseD ci).batchIdx < s.batches.length
  hteq : (s.courseD ci).teacher = some ti

theorem PlaceOk.of_req_pl {s s' : State} {ci ti : Nat} (hr : REq s s')
    (h : PlaceOk s ci ti) : PlaceOk s' ci ti :=
  ⟨by rw [hr.clen]; exact h.hci, by rw [hr.tlen]; exact h.hti,
   by rw [hr.course, hr.blen]; exact h.hbi, by rw [hr.course]; exact h.hteq⟩

/-- Effects of a successful lab placement of `k` sessions: the course list
grows by `ext`, a fresh `Blocks`-decomposable extension of length
`k * session_duration`, mirrored in the batch's and teacher's sets. -/
structure LabExt (cfg : Config) (s : State) (ci ti k : Nat) (ext : List Nat)
    (s' : State) : Prop where
  clen : s'.courses.length = s.courses.length
  blen : s'.batches.length = s.batches.length
  tlen : s'.teachers.length = s.teachers.length
  course_self : s'.courseD ci =
    { s.courseD ci with time_slots := (s.courseD ci).time_slots ++ ext }
  course_ne : ∀ j, j ≠ ci → s'.courseD j = s.courseD j
  len : ext.length = k * (s.courseD ci).session_duration
  blocks : Blocks cfg (s.courseD ci).session_duration ext
  fresh_used : ∀ x ∈ ext, x ∉ (s.batchD (s.courseD ci).batchIdx).used_time_slots
  fresh_assigned : ∀ x ∈ ext, x ∉ (s.teacherD ti).assigned_time_slots
  used_self : ∀ y, y ∈ (s'.batchD (s.courseD ci).batchIdx).used_time_slots ↔
    y ∈ (s.batchD (s.courseD ci).batchIdx).used_time_slots ∨ y ∈ ext
  used_ne : ∀ j, j ≠ (s.courseD ci).batchIdx →
    (s'.batchD j).used_time_slots = (s.batchD j).used_time_slots
  t_assigned : ∀ y, y ∈ (s'.teacherD ti).assigned_time_slots ↔
    y ∈ (s.teacherD ti).assigned_time_slots ∨ y ∈ ext
  t_hours : (s'.teacherD ti).assigned_hours =
    (s.teacherD ti).assigned_hours + ext.length
  t_ne_assigned : ∀ j, j ≠ ti →
    (s'.teacherD j).assigned_time_slots = (s.teacherD j).assigned_time_slots
  t_ne_hours : ∀ j, j ≠ ti →
    (s'.teacherD j).assigned_hours = (s.teacherD j).assigned_hours
  t_stat : ∀ j, tstatic (s'.teacherD j) = tstatic (s.teacherD j)

/-- A `LabExt` over a restored base state transports to the original base. -/
theorem LabExt.transport_lab {cfg : Config} {s s3 s4 : State} {ci ti k : Nat}
    {ext : List Nat} (hr : REq s s3) (h : LabExt cfg s3 ci ti k ext s4) :
    LabExt cfg s ci ti k ext s4 := by
  refine ⟨h.clen.trans hr.clen, h.blen.trans hr.blen, h.tlen.trans hr.tlen,
    ?_, ?_, ?_, ?_, ?_, ?_, ?_, ?_, ?_, ?_, ?_, ?_, ?_⟩
  · rw [h.course_self, hr.course]
  · intro j hj
    rw [h.course_ne j hj, hr.course]
  · rw [h.len, hr.course]
  · rw [← hr.course ci]; exact h.blocks
  · intro x hx
    rw [← hr.course ci, ← hr.used]
    exact h.fresh_used x hx
  · intro x hx
    rw [← hr.assigned]
    exact h.fresh_assigned x hx
  · intro y
    rw [← hr.course ci, ← hr.used]
    exact h.used_self y
  · intro j hj
    rw [← hr.course ci] at hj
    rw [h.used_ne j hj, hr.used]
  · intro y
    rw [← hr.assigned]
    exact h.t_assigned y
  · rw [h.t_hours, hr.hours]
  · intro j hj
    rw [h.t_ne_assigned j hj, hr.assigned]
  · intro j hj
    rw [h.t_ne_hours j hj, hr.hours]
  · intro j
    rw [h.t_stat j, hr.tstat]

/-- What membership in the `_find_consecutive_slots` result guarantees. -/
theorem find_consecutive_mem_spec {cfg : Config} {t : Teacher} {b : Batch}
    {day dur start : Nat}
    (h : start ∈ find_consecutive_slots cfg t b day dur) :
    (start = day * cfg.periods_per_day ∨
      start = day * cfg.periods_per_day + 4) ∧
    start + dur ≤ day * cfg.periods_per_day + cfg.periods_per_day ∧
    ∀ x ∈ List.range' start dur, slot_free t b x = true := by
  unfold find_consecutive_slots at h
  rw [List.mem_filterMap] at h
  obtain ⟨rel, hrel, hcond⟩ := h
  have hrel' : rel = 0 ∨ rel = 4 := by simpa using hrel
  by_cases hc : day * cfg.periods_per_day + rel + dur ≤
      day * cfg.periods_per_day + cfg.periods_per_day ∧
      ((List.range' (day * cfg.periods_per_day + rel) dur).all
        fun slot => slot_free t b slot) = true
  · rw [if_pos hc] at hcond
    injection hcond with hcond
    subst hcond
    refine ⟨?_, hc.1, ?_⟩
    · rcases hrel' with h0 | h4
      · left; rw [h0]; exact Nat.add_zero _
      · right; rw [h4]
    · intro x hx
      exact List.all_eq_true.mp hc.2 x hx
  · rw [if_neg hc] at hcond
    exact absurd hcond (by simp)

/-- The day-relative anchor facts of a committed lab block. -/
theorem anchor_block_facts {p d start dur : Nat}
    (h1 : start = d * p ∨ start = d * p + 4)
    (h2 : start + dur ≤ d * p + p) :
    (start % p = 0 ∨ start % p = 4) ∧ start % p + dur ≤ p := by
  rcases h1 with h | h
  · subst h
    have hm : d * p % p = 0 := Nat.mul_mod_left d p
    have hd : dur ≤ p := by omega
    rw [hm]
    exact ⟨Or.inl rfl, by omega⟩
  · subst h
    have hd : 4 + dur ≤ p := by omega
    have hm : (d * p + 4) % p = 4 % p := by
      rw [Nat.add_comm]
      exact Nat.add_mul_mod_self_right 4 d p
    by_cases h4 : 4 < p
    · rw [hm, Nat.mod_eq_of_lt h4]
      exact ⟨Or.inr rfl, by omega⟩
    · have hp4 : p = 4 := by omega
      have : dur = 0 := by omega
      subst hp4
      rw [hm]
      simp [this]

/-- Zero sessions placed: the state is untouched. -/
theorem LabExt.zero_lab (cfg : Config) (s : State) (ci ti : Nat) :
    LabExt cfg s ci ti 0 [] s := by
  refine ⟨rfl, rfl, rfl, by simp, fun _ _ => rfl, by simp, Blocks.nil, by simp,
    by simp, ?_, fun _ _ => rfl, ?_, by simp, fun _ _ => rfl, fun _ _ => rfl,
    fun _ => rfl⟩
  · intro y; simp
  · intro y; simp

/-- One fresh committed block followed by `k` more sessions. -/
theorem LabExt.cons_lab {cfg : Config} {s s1 s2 : State} {ci ti k start dur : Nat}
    {ext2 : List Nat}
    (ha : ACore s ci ti (s.courseD ci).batchIdx (List.range' start dur) s1)
    (hdur : dur = (s.courseD ci).session_duration)
    (hpos : start % cfg.periods_per_day = 0 ∨ start % cfg.periods_per_day = 4)
    (hfit : start % cfg.periods_per_day + dur ≤ cfg.periods_per_day)
    (hfu : ∀ x ∈ List.range' start dur,
      x ∉ (s.batchD (s.courseD ci).batchIdx).used_time_slots)
    (hfa : ∀ x ∈ List.range' start dur,
      x ∉ (s.teacherD ti).assigned_time_slots)
    (h2 : LabExt cfg s1 ci ti k ext2 s2) :
    LabExt cfg s ci ti (k + 1) (List.range' start dur ++ ext2) s2 := by
  have hcs1 := ha.course_self
  have hbi1 : (s1.courseD ci).batchIdx = (s.courseD ci).batchIdx := by rw [hcs1]
  have hdur1 : (s1.courseD ci).session_duration = (s.courseD ci).session_duration := by
    rw [hcs1]
  refine ⟨h2.clen.trans ha.clen, h2.blen.trans ha.blen, h2.tlen.trans ha.tlen,
    ?_, ?_, ?_, ?_, ?_, ?_, ?_, ?_, ?_, ?_, ?_, ?_, ?_⟩
  · rw [h2.course_self, hcs1]
    simp
  · intro j hj
    rw [h2.course_ne j hj, ha.course_ne j hj]
  · rw [List.length_append, List.length_range', h2.len, hdur1, ← hdur]
    ring
  · rw [← hdur]
    refine Blocks.block start ext2 hpos hfit ?_
    have := h2.blocks
    rwa [hdur1, ← hdur] at this
  · intro x hx
    rcases List.mem_append.mp hx with hx | hx
    · exact hfu x hx
    · intro hmem
      have := h2.fresh_used x hx
      rw [hbi1] at this
      exact this ((ha.used_self x).mpr (Or.inl hmem))
  · intro x hx
    rcases List.mem_append.mp hx with hx | hx
    · exact hfa x hx
    · intro hmem
      exact h2.fresh_assigned x hx ((ha.t_assigned x).mpr (Or.inl hmem))
  · intro y
    have h2u := h2.used_self y
    rw [hbi1] at h2u
    rw [h2u, ha.used_self y]
    simp only [List.mem_append]
    tauto
  · intro j hj
    have h2n := h2.used_ne j (by rw [hbi1]; exact hj)
    rw [h2n, ha.batch_ne j hj]
  · intro y
    rw [h2.t_assigned y, ha.t_assigned y]
    simp only [List.mem_append]
    tauto
  · rw [h2.t_hours, ha.t_hours]
    simp only [List.length_append, List.length_range']
    push_cast
    ring
  · intro j hj
    rw [h2.t_ne_assigned j hj, ha.t_ne j hj]
  · intro j hj
    rw [h2.t_ne_hours j hj, ha.t_ne j hj]
  · intro j
    by_cases hj : j = ti
    · subst hj
      rw [h2.t_stat j, ha.t_static]
    · rw [h2.t_stat j, ha.t_ne j hj]

/-! ### Branch equations of the lab day loop -/

theorem lab_day_loop_skip1 (cfg : Config) (ci ti : Nat)
    (next : State → Bool × State) (day : Nat) (rest : List Nat) (s : State)
    (h : can_add_lab_on_day (s.batchD (s.courseD ci).batchIdx) day = false) :
    lab_day_loop cfg ci ti next (day :: rest) s =
      lab_day_loop cfg ci ti next rest s := by
  simp only [lab_day_loop, h]
  rfl

theorem lab_day_loop_skip2 (cfg : Config) (ci ti : Nat)
    (next : State → Bool × State) (day : Nat) (rest : List Nat) (s : State)
    (h : can_add_lab_on_day (s.batchD (s.courseD ci).batchIdx) day = true)
    (hf : find_consecutive_slots cfg (s.teacherD ti)
      (s.batchD (s.courseD ci).batchIdx) day (s.courseD ci).session_duration = []) :
    lab_day_loop cfg ci ti next (day :: rest) s =
      lab_day_loop cfg ci ti next rest s := by
  simp only [lab_day_loop, h, hf]
  rfl

theorem lab_day_loop_skip3 (cfg : Config) (ci ti : Nat)
    (next : State → Bool × State) (day : Nat) (rest : List Nat) (s : State)
    (start : Nat) (l2 : List Nat)
    (h : can_add_lab_on_day (s.batchD (s.courseD ci).batchIdx) day = true)
    (hf : find_consecutive_slots cfg (s.teacherD ti)
      (s.batchD (s.courseD ci).batchIdx) day (s.courseD ci).session_duration =
        start :: l2)
    (hp : ((start - day * cfg.periods_per_day == 0) ||
           (start - day * cfg.periods_per_day == 4)) = false) :
    lab_day_loop cfg ci ti next (day :: rest) s =
      lab_day_loop cfg ci ti next rest s := by
  simp only [lab_day_loop, h, hf, hp]
  rfl

theorem lab_day_loop_enter (cfg : Config) (ci ti : Nat)
    (next : State → Bool × State) (day : Nat) (rest : List Nat) (s : State)
    (start : Nat) (l2 : List Nat)
    (h : can_add_lab_on_day (s.batchD (s.courseD ci).batchIdx) day = true)
    (hf : find_consecutive_slots cfg (s.teacherD ti)
      (s.batchD (s.courseD ci).batchIdx) day (s.courseD ci).session_duration =
        start :: l2)
    (hp : ((start - day * cfg.periods_per_day == 0) ||
           (start - day * cfg.periods_per_day == 4)) = true) :
    lab_day_loop cfg ci ti next (day :: rest) s =
      match next (bump (assign_slots s ci ti (s.courseD ci).batchIdx
          (List.range' start (s.courseD ci).session_duration) day true)) with
      | (true, s2) => (true, s2)
      | (false, s2) =>
        lab_day_loop cfg ci ti next rest
          (unassign_slots s2 ci ti (s.courseD ci).batchIdx
            (List.range' start (s.courseD ci).session_duration) day true) := by
  simp only [lab_day_loop, h, hf, hp]
  rfl

/-- Behaviour of a session placer: it keeps the invariant, restores the
conflict-relevant state on failure, and on success appends `k` fresh valid
session blocks. -/
def LabSpec (cfg : Config) (ci k : Nat) (f : State → Bool × State) : Prop :=
  ∀ s ti, Inv s → PlaceOk s ci ti →
    Inv (f s).2 ∧
    ((f s).1 = false → REq s (f s).2) ∧
    ((f s).1 = true → ∃ ext, LabExt cfg s ci ti k ext (f s).2)

theorem lab_day_loop_spec (cfg : Config) (ci ti k : Nat)
    (next : State → Bool × State) (hnext : LabSpec cfg ci k next) :
    ∀ (days : List Nat) (s : State), Inv s → PlaceOk s ci ti →
      Inv (lab_day_loop cfg ci ti next days s).2 ∧
      ((lab_day_loop cfg ci ti next days s).1 = false →
        REq s (lab_day_loop cfg ci ti next days s).2) ∧
      ((lab_day_loop cfg ci ti next days s).1 = true →
        ∃ ext, LabExt cfg s ci ti (k + 1) ext
          (lab_day_loop cfg ci ti next days s).2) := by
  intro days
  induction days with
  | nil =>
    intro s hi hok
    simp only [lab_day_loop]
    exact ⟨hi, fun _ => REq.refl s, fun h => absurd h (by simp)⟩
  | cons day rest ih =>
    intro s hi hok
    by_cases hca : can_add_lab_on_day (s.batchD (s.courseD ci).batchIdx) day = true
    case neg =>
      rw [lab_day_loop_skip1 cfg ci ti next day rest s (Bool.not_eq_true _ ▸ hca)]
      exact ih s hi hok
    case pos =>
    rcases hfind : find_consecutive_slots cfg (s.teacherD ti)
        (s.batchD (s.courseD ci).batchIdx) day (s.courseD ci).session_duration with
      _ | ⟨start, l2⟩
    case nil =>
      rw [lab_day_loop_skip2 cfg ci ti next day rest s hca hfind]
      exact ih s hi hok
    case cons =>
    by_cases hpos : ((start - day * cfg.periods_per_day == 0) ||
        (start - day * cfg.periods_per_day == 4)) = true
    case neg =>
      rw [lab_day_loop_skip3 cfg ci ti next day rest s start l2 hca hfind
        (Bool.not_eq_true _ ▸ hpos)]
      exact ih s hi hok
    case pos =>
    rw [lab_day_loop_enter cfg ci ti next day rest s start l2 hca hfind hpos]
    obtain ⟨hanchor, hfits, hfree⟩ := find_consecutive_mem_spec
      (show start ∈ find_consecutive_slots cfg (s.teacherD ti)
        (s.batchD (s.courseD ci).batchIdx) day (s.courseD ci).session_duration by
          rw [hfind]; exact List.mem_cons_self _ _)
    have hnd : (List.range' start (s.courseD ci).session_duration).Nodup :=
      List.nodup_range' _ _
    have hfu : ∀ x ∈ List.range' start (s.courseD ci).session_duration,
        x ∉ (s.batchD (s.courseD ci).batchIdx).used_time_slots := by
      intro x hx
      have := hfree x hx
      unfold slot_free at this
      simp only [decide_eq_true_eq] at this
      exact this.2.1
    have hfa : ∀ x ∈ List.range' start (s.courseD ci).session_duration,
        x ∉ (s.teacherD ti).assigned_time_slots := by
      intro x hx
      have := hfree x hx
      unfold slot_free at this
      simp only [decide_eq_true_eq] at this
      exact this.2.2
    have hfc : ∀ x ∈ List.range' start (s.courseD ci).session_duration,
        x ∉ (s.courseD ci).time_slots := by
      intro x hx hmem
      exact hfu x hx (hi.subUsed ci x hmem)
    have ha : ACore s ci ti (s.courseD ci).batchIdx
        (List.range' start (s.courseD ci).session_duration)
        (bump (assign_slots s ci ti (s.courseD ci).batchIdx
          (List.range' start (s.courseD ci).session_duration) day true)) :=
      (assign_slots_acore _ true hok.hci hok.hti hok.hbi).bump
    set s1 := bump (assign_slots s ci ti (s.courseD ci).batchIdx
      (List.range' start (s.courseD ci).session_duration) day true) with hs1
    have hinv1 : Inv s1 := hi.assign ha rfl hok.hteq hnd hfu hfa
    have hok1 : PlaceOk s1 ci ti := by
      refine ⟨by rw [ha.clen]; exact hok.hci, by rw [ha.tlen]; exact hok.hti, ?_, ?_⟩
      · rw [ha.course_self]
        show (s.courseD ci).batchIdx < s1.batches.length
        rw [ha.blen]; exact hok.hbi
      · rw [ha.course_self]
        show (s.courseD ci).teacher = some ti
        exact hok.hteq
    obtain ⟨hinv2, hfalse2, htrue2⟩ := hnext s1 ti hinv1 hok1
    have hblockfacts := anchor_block_facts hanchor hfits
    rcases hnx : next s1 with ⟨b2, s2⟩
    rw [hnx] at hinv2 hfalse2 htrue2
    cases b2 with
    | true =>
      simp only
      obtain ⟨ext2, hext2⟩ := htrue2 rfl
      refine ⟨hinv2, fun h => absurd h (by simp), fun _ => ?_⟩
      exact ⟨List.range' start (s.courseD ci).session_duration ++ ext2,
        LabExt.cons_lab ha rfl hblockfacts.1 hblockfacts.2 hfu hfa hext2⟩
    | false =>
      simp only
      have hr12 : REq s1 s2 := hfalse2 rfl
      set s3 := unassign_slots s2 ci ti (s.courseD ci).batchIdx
        (List.range' start (s.courseD ci).session_duration) day true with hs3
      have hu : RCore s2 ci ti (s.courseD ci).batchIdx
          (List.range' start (s.courseD ci).session_duration) s3 :=
        unassign_slots_rcore _ true
          (by rw [hr12.clen, ha.clen]; exact hok.hci)
          (by rw [hr12.tlen, ha.tlen]; exact hok.hti)
          (by rw [hr12.blen, ha.blen]; exact hok.hbi)
      have hreq : REq s s3 := rt_compose ha hr12 hu hnd hfc hfu hfa
      obtain ⟨ih1, ih2, ih3⟩ := ih s3 (Inv.of_req hreq hi) (hok.of_req_pl hreq)
      refine ⟨ih1, fun h => hreq.trans (ih2 h), fun h => ?_⟩
      obtain ⟨ext, hext⟩ := ih3 h
      exact ⟨ext, hext.transport_lab hreq⟩

theorem assign_lab_go_spec (cfg : Config) (ci : Nat) :
    ∀ r : Nat, LabSpec cfg ci r (assign_lab_go cfg ci r) := by
  intro r
  induction r with
  | zero =>
    intro s ti hi hok
    simp only [assign_lab_go]
    exact ⟨hi, fun h => absurd h (by simp), fun _ => ⟨[], LabExt.zero_lab cfg s ci ti⟩⟩
  | succ r ih =>
    intro s ti hi hok
    by_cases hbud : cfg.max_assignments ≤ s.tried
    · have : assign_lab_go cfg ci (r + 1) s = (false, s) := by
        simp only [assign_lab_go, if_pos hbud]
      rw [this]
      exact ⟨hi, fun _ => REq.refl s, fun h => absurd h (by simp)⟩
    · have heq : assign_lab_go cfg ci (r + 1) s =
          lab_day_loop cfg ci ti (assign_lab_go cfg ci r)
            ((List.range cfg.number_of_days).insertionSort fun x y =>
              lex3_le ((s.batchD (s.courseD ci).batchIdx).lab_days.get x,
                       (s.batchD (s.courseD ci).batchIdx).theory_hours_per_day.get x, x)
                      ((s.batchD (s.courseD ci).batchIdx).lab_days.get y,
                       (s.batchD (s.courseD ci).batchIdx).theory_hours_per_day.get y, y)
                = true) s := by
        simp only [assign_lab_go, if_neg hbud, hok.hteq]
      rw [heq]
      exact lab_day_loop_spec cfg ci ti r (assign_lab_go cfg ci r) ih _ s hi hok

/-! ## Lemma layer: theory placement -/

theorem State.modBatch_oob {s : State} {i : Nat} {f : Batch → Batch}
    (h : s.batches.length ≤ i) : s.modBatch i f = s := by
  unfold State.modBatch
  rw [List.set_eq_of_length_le h]

theorem modBatch_labstart {s : State} {i : Nat} {f : Batch → Batch}
    (hf : ∀ b, (f b).lab_start_slots = b.lab_start_slots) (j : Nat) :
    ((s.modBatch i f).batchD j).lab_start_slots = (s.batchD j).lab_start_slots := by
  by_cases hj : j = i
  · subst hj
    by_cases hb : j < s.batches.length
    · rw [State.modBatch_batchD_self _ _ _ hb, hf]
    · rw [State.modBatch_oob (le_of_not_lt hb)]
  · rw [State.modBatch_batchD_ne _ _ _ _ hj]

theorem add_slot_labstart (ci ti bi day : Nat) (st : State) (x : Nat) (j : Nat) :
    ((add_slot ci ti bi day st x).batchD j).lab_start_slots =
      (st.batchD j).lab_start_slots := by
  unfold add_slot
  simp only [State.modTeacher_batchD]
  refine Eq.trans (modBatch_labstart ?_ j) rfl
  intro b
  rfl

theorem remove_slot_labstart (ci ti bi day : Nat) (st : State) (x : Nat) (j : Nat) :
    ((remove_slot ci ti bi day st x).batchD j).lab_start_slots =
      (st.batchD j).lab_start_slots := by
  unfold remove_slot
  simp only [State.modTeacher_batchD]
  refine Eq.trans (modBatch_labstart ?_ j) rfl
  intro b
  rfl

theorem foldl_add_labstart (ci ti bi day : Nat) (slots : List Nat) (s : State)
    (j : Nat) :
    (((slots.foldl (add_slot ci ti bi day)) s).batchD j).lab_start_slots =
      (s.batchD j).lab_start_slots := by
  induction slots generalizing s with
  | nil => rfl
  | cons x rest ih =>
    simp only [List.foldl_cons]
    rw [ih, add_slot_labstart]

theorem foldl_remove_labstart (ci ti bi day : Nat) (slots : List Nat) (s : State)
    (j : Nat) :
    (((slots.foldl (remove_slot ci ti bi day)) s).batchD j).lab_start_slots =
      (s.batchD j).lab_start_slots := by
  induction slots generalizing s with
  | nil => rfl
  | cons x rest ih =>
    simp only [List.foldl_cons]
    rw [ih, remove_slot_labstart]

/-- Theory commit/rollback (`is_lab = false`) never touches `lab_start_slots`. -/
theorem assign_slots_theory_labstart (s : State) (ci ti bi : Nat)
    (slots : List Nat) (day : Nat) (j : Nat) :
    ((assign_slots s ci ti bi slots day false).batchD j).lab_start_slots =
      (s.batchD j).lab_start_slots := by
  rw [assign_slots_false_eq]
  refine Eq.trans (modBatch_labstart ?_ j) ?_
  · intro b
    rfl
  · exact foldl_add_labstart ci ti bi day slots s j

theorem unassign_slots_theory_labstart (s : State) (ci ti bi : Nat)
    (slots : List Nat) (day : Nat) (j : Nat) :
    ((unassign_slots s ci ti bi slots day false).batchD j).lab_start_slots =
      (s.batchD j).lab_start_slots := by
  rw [unassign_slots_false_eq]
  refine Eq.trans (modBatch_labstart ?_ j) ?_
  · intro b
    rfl
  · exact foldl_remove_labstart ci ti bi day slots s j

theorem has_lab_congr {cfg : Config} {b1 b2 : Batch} (day : Nat)
    (h : b1.lab_start_slots = b2.lab_start_slots) :
    has_lab_on_day cfg b1 day = has_lab_on_day cfg b2 day := by
  unfold has_lab_on_day
  rw [h]

/-- Membership in the `_get_sorted_theory_slots` candidate list (also the
first half of C7). -/
theorem get_sorted_theory_slots_mem (cfg : Config) (t : Teacher) (b : Batch)
    (slot : Nat) :
    slot ∈ get_sorted_theory_slots cfg t b ↔
      (slot ∈ t.available_time_slots ∧ slot ∉ b.used_time_slots ∧
        slot ∉ t.assigned_time_slots) ∧
      ¬(slot % cfg.periods_per_day = 3 ∧
        has_lab_on_day cfg b (slot / cfg.periods_per_day) = true) := by
  unfold get_sorted_theory_slots
  rw [List.mem_insertionSort, List.mem_filter, mem_finsetAsc, Finset.mem_filter]
  constructor
  · rintro ⟨⟨h1, h2, h3⟩, h4⟩
    refine ⟨⟨h1, h2, h3⟩, ?_⟩
    rintro ⟨hp, hl⟩
    rw [Bool.not_eq_true'] at h4
    rw [hp, hl] at h4
    simp at h4
  · rintro ⟨⟨h1, h2, h3⟩, h4⟩
    refine ⟨⟨h1, h2, h3⟩, ?_⟩
    rw [Bool.not_eq_true']
    by_cases hp : slot % cfg.periods_per_day = 3
    · by_cases hl : has_lab_on_day cfg b (slot / cfg.periods_per_day) = true
      · exact absurd ⟨hp, hl⟩ h4
      · rw [Bool.not_eq_true] at hl
        simp [hl]
    · simp [hp]

/-- Effects of a successful theory placement of `k` single-slot sessions. -/
structure TheoryExt (cfg : Config) (s : State) (ci ti k : Nat) (ext : List Nat)
    (s' : State) : Prop where
  clen : s'.courses.length = s.courses.length
  blen : s'.batches.length = s.batches.length
  tlen : s'.teachers.length = s.teachers.length
  course_self : s'.courseD ci =
    { s.courseD ci with time_slots := (s.courseD ci).time_slots ++ ext }
  course_ne : ∀ j, j ≠ ci → s'.courseD j = s.courseD j
  len : ext.length = k
  buffer : ∀ x ∈ ext, ¬(x % cfg.periods_per_day = 3 ∧
    has_lab_on_day cfg (s.batchD (s.courseD ci).batchIdx)
      (x / cfg.periods_per_day) = true)
  fresh_used : ∀ x ∈ ext, x ∉ (s.batchD (s.courseD ci).batchIdx).used_time_slots
  fresh_assigned : ∀ x ∈ ext, x ∉ (s.teacherD ti).assigned_time_slots
  used_self : ∀ y, y ∈ (s'.batchD (s.courseD ci).batchIdx).used_time_slots ↔
    y ∈ (s.batchD (s.courseD ci).batchIdx).used_time_slots ∨ y ∈ ext
  used_ne : ∀ j, j ≠ (s.courseD ci).batchIdx →
    (s'.batchD j).used_time_slots = (s.batchD j).used_time_slots
  t_assigned : ∀ y, y ∈ (s'.teacherD ti).assigned_time_slots ↔
    y ∈ (s.teacherD ti).assigned_time_slots ∨ y ∈ ext
  t_hours : (s'.teacherD ti).assigned_hours =
    (s.teacherD ti).assigned_hours + ext.length
  t_ne_assigned : ∀ j, j ≠ ti →
    (s'.teacherD j).assigned_time_slots = (s.teacherD j).assigned_time_slots
  t_ne_hours : ∀ j, j ≠ ti →
    (s'.teacherD j).assigned_hours = (s.teacherD j).assigned_hours
  t_stat : ∀ j, tstatic (s'.teacherD j) = tstatic (s.teacherD j)

theorem TheoryExt.zero_th (cfg : Config) (s : State) (ci ti : Nat) :
    TheoryExt cfg s ci ti 0 [] s := by
  refine ⟨rfl, rfl, rfl, by simp, fun _ _ => rfl, by simp, by simp, by simp,
    by simp, ?_, fun _ _ => rfl, ?_, by simp, fun _ _ => rfl, fun _ _ => rfl,
    fun _ => rfl⟩
  · intro y; simp
  · intro y; simp

/-- A `TheoryExt` over a restored base with unchanged lab starts transports. -/
theorem TheoryExt.transport_th {cfg : Config} {s s3 s4 : State} {ci ti k : Nat}
    {ext : List Nat} (hr : REq s s3)
    (hls : ∀ j, (s3.batchD j).lab_start_slots = (s.batchD j).lab_start_slots)
    (h : TheoryExt cfg s3 ci ti k ext s4) :
    TheoryExt cfg s ci ti k ext s4 := by
  refine ⟨h.clen.trans hr.clen, h.blen.trans hr.blen, h.tlen.trans hr.tlen,
    ?_, ?_, h.len, ?_, ?_, ?_, ?_, ?_, ?_, ?_, ?_, ?_, ?_⟩
  · rw [h.course_self, hr.course]
  · intro j hj
    rw [h.course_ne j hj, hr.course]
  · intro x hx
    have hb := h.buffer x hx
    rw [← hr.course ci]
    rwa [has_lab_congr _ (hls ((s3.courseD ci).batchIdx))] at hb
  · intro x hx
    rw [← hr.course ci, ← hr.used]
    exact h.fresh_used x hx
  · intro x hx
    rw [← hr.assigned]
    exact h.fresh_assigned x hx
  · intro y
    rw [← hr.course ci, ← hr.used]
    exact h.used_self y
  · intro j hj
    rw [← hr.course ci] at hj
    rw [h.used_ne j hj, hr.used]
  · intro y
    rw [← hr.assigned]
    exact h.t_assigned y
  · rw [h.t_hours, hr.hours]
  · intro j hj
    rw [h.t_ne_assigned j hj, hr.assigned]
  · intro j hj
    rw [h.t_ne_hours j hj, hr.hours]
  · intro j
    rw [h.t_stat j, hr.tstat]

/-- One fresh committed theory slot followed by `k` more sessions. -/
theorem TheoryExt.cons_th {cfg : Config} {s s1 s2 : State} {ci ti k slot : Nat}
    {ext2 : List Nat}
    (ha : ACore s ci ti (s.courseD ci).batchIdx [slot] s1)
    (hls1 : ∀ j, (s1.batchD j).lab_start_slots = (s.batchD j).lab_start_slots)
    (hbuf : ¬(slot % cfg.periods_per_day = 3 ∧
      has_lab_on_day cfg (s.batchD (s.courseD ci).batchIdx)
        (slot / cfg.periods_per_day) = true))
    (hfu : slot ∉ (s.batchD (s.courseD ci).batchIdx).used_time_slots)
    (hfa : slot ∉ (s.teacherD ti).assigned_time_slots)
    (h2 : TheoryExt cfg s1 ci ti k ext2 s2) :
    TheoryExt cfg s ci ti (k + 1) (slot :: ext2) s2 := by
  have hcs1 := ha.course_self
  have hbi1 : (s1.courseD ci).batchIdx = (s.courseD ci).batchIdx := by rw [hcs1]
  refine ⟨h2.clen.trans ha.clen, h2.blen.trans ha.blen, h2.tlen.trans ha.tlen,
    ?_, ?_, ?_, ?_, ?_, ?_, ?_, ?_, ?_, ?_, ?_, ?_, ?_⟩
  · rw [h2.course_self, hcs1]
    simp
  · intro j hj
    rw [h2.course_ne j hj, ha.course_ne j hj]
  · rw [List.length_cons, h2.len]
  · intro x hx
    rcases List.mem_cons.mp hx with hx | hx
    · subst hx; exact hbuf
    · have hb := h2.buffer x hx
      rw [hbi1] at hb
      rwa [has_lab_congr _ (hls1 ((s.courseD ci).batchIdx))] at hb
  · intro x hx
    rcases List.mem_cons.mp hx with hx | hx
    · subst hx; exact hfu
    · intro hmem
      have := h2.fresh_used x hx
      rw [hbi1] at this
      exact this ((ha.used_self x).mpr (Or.inl hmem))
  · intro x hx
    rcases List.mem_cons.mp hx with hx | hx
    · subst hx; exact hfa
    · intro hmem
      exact h2.fresh_assigned x hx ((ha.t_assigned x).mpr (Or.inl hmem))
  · intro y
    have h2u := h2.used_self y
    rw [hbi1] at h2u
    rw [h2u, ha.used_self y]
    simp only [List.mem_cons, List.mem_singleton]
    tauto
  · intro j hj
    have h2n := h2.used_ne j (by rw [hbi1]; exact hj)
    rw [h2n, ha.batch_ne j hj]
  · intro y
    rw [h2.t_assigned y, ha.t_assigned y]
    simp only [List.mem_cons, List.mem_singleton]
    tauto
  · rw [h2.t_hours, ha.t_hours]
    simp only [List.length_cons, List.length_nil]
    push_cast
    ring
  · intro j hj
    rw [h2.t_ne_assigned j hj, ha.t_ne j hj]
  · intro j hj
    rw [h2.t_ne_hours j hj, ha.t_ne j hj]
  · intro j
    by_cases hj : j = ti
    · subst hj
      rw [h2.t_stat j, ha.t_static]
    · rw [h2.t_stat j, ha.t_ne j hj]

/-! ### Branch equations of the theory slot loop -/

theorem theory_slot_loop_skipA (cfg : Config) (ci ti : Nat)
    (next : State → Bool × State) (slot : Nat) (rest : List Nat) (s : State)
    (h : can_add_theory_on_day (s.batchD (s.courseD ci).batchIdx)
      (slot / cfg.periods_per_day) cfg.max_theory_per_day = false) :
    theory_slot_loop cfg ci ti next (slot :: rest) s =
      theory_slot_loop cfg ci ti next rest s := by
  simp only [theory_slot_loop, h]
  rfl

theorem theory_slot_loop_skipB (cfg : Config) (ci ti : Nat)
    (next : State → Bool × State) (slot : Nat) (rest : List Nat) (s : State)
    (h : can_add_theory_on_day (s.batchD (s.courseD ci).batchIdx)
      (slot / cfg.periods_per_day) cfg.max_theory_per_day = true)
    (hb : ((slot % cfg.periods_per_day == 3) &&
      has_lab_on_day cfg (s.batchD (s.courseD ci).batchIdx)
        (slot / cfg.periods_per_day)) = true) :
    theory_slot_loop cfg ci ti next (slot :: rest) s =
      theory_slot_loop cfg ci ti next rest s := by
  simp only [theory_slot_loop, h, hb]
  rfl

theorem theory_slot_loop_enter (cfg : Config) (ci ti : Nat)
    (next : State → Bool × State) (slot : Nat) (rest : List Nat) (s : State)
    (h : can_add_theory_on_day (s.batchD (s.courseD ci).batchIdx)
      (slot / cfg.periods_per_day) cfg.max_theory_per_day = true)
    (hb : ((slot % cfg.periods_per_day == 3) &&
      has_lab_on_day cfg (s.batchD (s.courseD ci).batchIdx)
        (slot / cfg.periods_per_day)) = false) :
    theory_slot_loop cfg ci ti next (slot :: rest) s =
      match next (bump (assign_slots s ci ti (s.courseD ci).batchIdx [slot]
          (slot / cfg.periods_per_day) false)) with
      | (true, s2) => (true, s2)
      | (false, s2) =>
        theory_slot_loop cfg ci ti next rest
          (unassign_slots s2 ci ti (s.courseD ci).batchIdx [slot]
            (slot / cfg.periods_per_day) false) := by
  simp only [theory_slot_loop, h, hb]
  rfl

/-- Behaviour of an hour placer for theory sessions. -/
def TheorySpec (cfg : Config) (ci k : Nat) (f : State → Bool × State) : Prop :=
  ∀ s ti, Inv s → PlaceOk s ci ti →
    Inv (f s).2 ∧
    (∀ j, ((f s).2.batchD j).lab_start_slots = (s.batchD j).lab_start_slots) ∧
    ((f s).1 = false → REq s (f s).2) ∧
    ((f s).1 = true → ∃ ext, TheoryExt cfg s ci ti k ext (f s).2)

theorem theory_slot_loop_spec (cfg : Config) (ci ti k : Nat)
    (next : State → Bool × State) (hnext : TheorySpec cfg ci k next) :
    ∀ (cand : List Nat) (s : State), Inv s → PlaceOk s ci ti →
      (∀ x ∈ cand, x ∉ (s.batchD (s.courseD ci).batchIdx).used_time_slots ∧
        x ∉ (s.teacherD ti).assigned_time_slots) →
      Inv (theory_slot_loop cfg ci ti next cand s).2 ∧
      (∀ j, ((theory_slot_loop cfg ci ti next cand s).2.batchD j).lab_start_slots =
        (s.batchD j).lab_start_slots) ∧
      ((theory_slot_loop cfg ci ti next cand s).1 = false →
        REq s (theory_slot_loop cfg ci ti next cand s).2) ∧
      ((theory_slot_loop cfg ci ti next cand s).1 = true →
        ∃ ext, TheoryExt cfg s ci ti (k + 1) ext
          (theory_slot_loop cfg ci ti next cand s).2) := by
  intro cand
  induction cand with
  | nil =>
    intro s hi hok _
    exact ⟨hi, fun _ => rfl, fun _ => REq.refl s,
      fun h => by simp only [theory_slot_loop] at h; exact absurd h (by decide)⟩
  | cons slot rest ih =>
    intro s hi hok hfr
    by_cases hca : can_add_theory_on_day (s.batchD (s.courseD ci).batchIdx)
        (slot / cfg.periods_per_day) cfg.max_theory_per_day = true
    case neg =>
      rw [theory_slot_loop_skipA cfg ci ti next slot rest s
        (Bool.not_eq_true _ ▸ hca)]
      exact ih s hi hok fun x hx => hfr x (by simp [hx])
    case pos =>
    by_cases hbuf : ((slot % cfg.periods_per_day == 3) &&
        has_lab_on_day cfg (s.batchD (s.courseD ci).batchIdx)
          (slot / cfg.periods_per_day)) = true
    case pos =>
      rw [theory_slot_loop_skipB cfg ci ti next slot rest s hca hbuf]
      exact ih s hi hok fun x hx => hfr x (by simp [hx])
    case neg =>
    rw [theory_slot_loop_enter cfg ci ti next slot rest s hca
      (Bool.not_eq_true _ ▸ hbuf)]
    have hbuf' : ¬(slot % cfg.periods_per_day = 3 ∧
        has_lab_on_day cfg (s.batchD (s.courseD ci).batchIdx)
          (slot / cfg.periods_per_day) = true) := by
      rintro ⟨hp, hl⟩
      rw [Bool.not_eq_true] at hbuf
      rw [hp, hl] at hbuf
      simp at hbuf
    have hfu : slot ∉ (s.batchD (s.courseD ci).batchIdx).used_time_slots :=
      (hfr slot (by simp)).1
    have hfa : slot ∉ (s.teacherD ti).assigned_time_slots :=
      (hfr slot (by simp)).2
    have hfu' : ∀ x ∈ [slot], x ∉ (s.batchD (s.courseD ci).batchIdx).used_time_slots := by
      intro x hx
      rw [List.mem_singleton] at hx
      subst hx; exact hfu
    have hfa' : ∀ x ∈ [slot], x ∉ (s.teacherD ti).assigned_time_slots := by
      intro x hx
      rw [List.mem_singleton] at hx
      subst hx; exact hfa
    have hfc : ∀ x ∈ [slot], x ∉ (s.courseD ci).time_slots := by
      intro x hx hmem
      rw [List.mem_singleton] at hx
      subst hx
      exact hfu (hi.subUsed ci x hmem)
    have ha : ACore s ci ti (s.courseD ci).batchIdx [slot]
        (bump (assign_slots s ci ti (s.courseD ci).batchIdx [slot]
          (slot / cfg.periods_per_day) false)) :=
      (assign_slots_acore _ false hok.hci hok.hti hok.hbi).bump
    set s1 := bump (assign_slots s ci ti (s.courseD ci).batchIdx [slot]
      (slot / cfg.periods_per_day) false) with hs1
    have hls1 : ∀ j, (s1.batchD j).lab_start_slots = (s.batchD j).lab_start_slots := by
      intro j
      rw [hs1]
      exact assign_slots_theory_labstart s ci ti _ [slot] _ j
    have hinv1 : Inv s1 := hi.assign ha rfl hok.hteq (List.nodup_singleton slot)
      hfu' hfa'
    have hok1 : PlaceOk s1 ci ti := by
      refine ⟨by rw [ha.clen]; exact hok.hci, by rw [ha.tlen]; exact hok.hti, ?_, ?_⟩
      · rw [ha.course_self]
        show (s.courseD ci).batchIdx < s1.batches.length
        rw [ha.blen]; exact hok.hbi
      · rw [ha.course_self]
        show (s.courseD ci).teacher = some ti
        exact hok.hteq
    obtain ⟨hinv2, hls2, hfalse2, htrue2⟩ := hnext s1 ti hinv1 hok1
    rcases hnx : next s1 with ⟨b2, s2⟩
    rw [hnx] at hinv2 hls2 hfalse2 htrue2
    cases b2 with
    | true =>
      simp only
      obtain ⟨ext2, hext2⟩ := htrue2 rfl
      refine ⟨hinv2, ?_, fun h => absurd h (by simp), fun _ => ?_⟩
      · intro j
        rw [hls2 j, hls1 j]
      · exact ⟨slot :: ext2, TheoryExt.cons_th ha hls1 hbuf' hfu hfa hext2⟩
    | false =>
      simp only
      have hr12 : REq s1 s2 := hfalse2 rfl
      set s3 := unassign_slots s2 ci ti (s.courseD ci).batchIdx [slot]
        (slot / cfg.periods_per_day) false with hs3
      have hu : RCore s2 ci ti (s.courseD ci).batchIdx [slot] s3 :=
        unassign_slots_rcore _ false
          (by rw [hr12.clen, ha.clen]; exact hok.hci)
          (by rw [hr12.tlen, ha.tlen]; exact hok.hti)
          (by rw [hr12.blen, ha.blen]; exact hok.hbi)
      have hreq : REq s s3 := rt_compose ha hr12 hu (List.nodup_singleton slot)
        hfc hfu' hfa'
      have hls3 : ∀ j, (s3.batchD j).lab_start_slots = (s.batchD j).lab_start_slots := by
        intro j
        rw [hs3]
        rw [unassign_slots_theory_labstart s2 ci ti _ [slot] _ j]
        rw [hls2 j, hls1 j]
      have hfr3 : ∀ x ∈ rest, x ∉ (s3.batchD (s3.courseD ci).batchIdx).used_time_slots ∧
          x ∉ (s3.teacherD ti).assigned_time_slots := by
        intro x hx
        rw [hreq.course, hreq.used, hreq.assigned]
        exact hfr x (by simp [hx])
      obtain ⟨ih1, ihls, ih2, ih3⟩ := ih s3 (Inv.of_req hreq hi)
        (hok.of_req_pl hreq) hfr3
      refine ⟨ih1, ?_, fun h => hreq.trans (ih2 h), fun h => ?_⟩
      · intro j
        rw [ihls j, hls3 j]
      · obtain ⟨ext, hext⟩ := ih3 h
        exact ⟨ext, hext.transport_th hreq hls3⟩

theorem assign_theory_go_spec (cfg : Config) (ci : Nat) :
    ∀ r : Nat, TheorySpec cfg ci r (assign_theory_go cfg ci r) := by
  intro r
  induction r with
  | zero =>
    intro s ti hi hok
    exact ⟨hi, fun _ => rfl,
      fun h => by simp only [assign_theory_go] at h; exact absurd h (by decide),
      fun _ => ⟨[], TheoryExt.zero_th cfg s ci ti⟩⟩
  | succ r ih =>
    intro s ti hi hok
    by_cases hbud : cfg.max_assignments ≤ s.tried
    · have : assign_theory_go cfg ci (r + 1) s = (false, s) := by
        simp only [assign_theory_go, if_pos hbud]
      rw [this]
      exact ⟨hi, fun _ => rfl, fun _ => REq.refl s, fun h => absurd h (by simp)⟩
    · have heq : assign_theory_go cfg ci (r + 1) s =
          theory_slot_loop cfg ci ti (assign_theory_go cfg ci r)
            (get_sorted_theory_slots cfg (s.teacherD ti)
              (s.batchD (s.courseD ci).batchIdx)) s := by
        simp only [assign_theory_go, if_neg hbud, hok.hteq]
      rw [heq]
      refine theory_slot_loop_spec cfg ci ti r (assign_theory_go cfg ci r) ih _ s hi hok ?_
      intro x hx
      have := (get_sorted_theory_slots_mem cfg _ _ x).mp hx
      exact ⟨this.1.2.1, this.1.2.2⟩

/-! ## Lemma layer: the course-level search -/

/-- A fully placed course: as many committed slots as it needs, and for labs a
decomposition into anchored contiguous session blocks. -/
def DoneCourse (cfg : Config) (c : Course) : Prop :=
  c.time_slots.length = total_slots_needed c ∧
  (((c.course_type == "lab") = true) → Blocks cfg c.session_duration c.time_slots)

/-- Courses still to schedule: no committed slots, no teacher binding, valid
indices. -/
def FreshAll (s : State) (idxs : List Nat) : Prop :=
  ∀ i ∈ idxs, (s.courseD i).time_slots = [] ∧ (s.courseD i).teacher = none ∧
    i < s.courses.length ∧ (s.courseD i).batchIdx < s.batches.length

/-- Every teacher within the hour cap (the C4 invariant). -/
def HoursOk (s : State) : Prop :=
  ∀ j, j < s.teachers.length →
    (s.teacherD j).assigned_hours ≤ (s.teacherD j).max_hours

theorem HoursOk.of_req_h {s s' : State} (hr : REq s s') (h : HoursOk s) :
    HoursOk s' := by
  intro j hj
  rw [hr.tlen] at hj
  have hst := hr.tstat j
  have hmax : (s'.teacherD j).max_hours = (s.teacherD j).max_hours := by
    have := congrArg (fun q => q.2.2.2) hst
    simpa [tstatic] using this
  rw [hr.hours j, hmax]
  exact h j hj

theorem FreshAll.of_req_f {s s' : State} {idxs : List Nat} (hr : REq s s')
    (h : FreshAll s idxs) : FreshAll s' idxs := by
  intro i hi
  obtain ⟨h1, h2, h3, h4⟩ := h i hi
  exact ⟨by rw [hr.course]; exact h1, by rw [hr.course]; exact h2,
    by rw [hr.clen]; exact h3, by rw [hr.course, hr.blen]; exact h4⟩

/-- Behaviour of `_schedule_recursive` on a list of still-fresh course
indices. -/
def SchedSpec (cfg : Config) (idxs : List Nat) (f : State → Bool × State) : Prop :=
  ∀ s, Inv s → HoursOk s → FreshAll s idxs → idxs.Nodup →
    Inv (f s).2 ∧ HoursOk (f s).2 ∧
    ((f s).1 = false → REq s (f s).2) ∧
    ((f s).1 = true → (∀ i ∈ idxs, DoneCourse cfg ((f s).2.courseD i)) ∧
      (∀ j, j ∉ idxs → (f s).2.courseD j = s.courseD j))

/-- What membership in `get_eligible_teachers` guarantees. -/
theorem get_eligible_teachers_mem {teachers : List Teacher} {c : Course}
    {ti : Nat} (h : ti ∈ get_eligible_teachers teachers c) :
    ti < teachers.length ∧ c.subject ∈ (teachers.getD ti dummyTeacher).subjects ∧
      (teachers.getD ti dummyTeacher).assigned_hours +
        (total_slots_needed c : Int) ≤ (teachers.getD ti dummyTeacher).max_hours := by
  unfold get_eligible_teachers at h
  rw [List.mem_filter] at h
  obtain ⟨h1, h2⟩ := h
  rw [List.mem_range] at h1
  simp only [decide_eq_true_eq] at h2
  refine ⟨h1, h2.1, ?_⟩
  have := h2.2
  unfold can_teach_more at this
  simpa using this

/-! ### Branch equations of the teacher loop -/

theorem teacher_loop_cons_lab (cfg : Config) (ci : Nat)
    (next : State → Bool × State) (ti : Nat) (tis : List Nat) (s : State)
    (hlab : (((s.modCourse ci fun c => { c with teacher := some ti }).courseD ci).course_type
      == "lab") = true) :
    teacher_loop cfg ci next (ti :: tis) s =
      match (fun r1 : Bool × State => if r1.1 then next r1.2 else (false, r1.2))
          (assign_lab_go cfg ci
            ((s.modCourse ci fun c => { c with teacher := some ti }).courseD ci).number_of_sessions
            (s.modCourse ci fun c => { c with teacher := some ti })) with
      | (true, s2) => (true, s2)
      | (false, s2) =>
        teacher_loop cfg ci next tis
          ((course_backtrack cfg ci ti s2).modCourse ci fun c0 =>
            { c0 with teacher := none }) := by
  simp only [teacher_loop, hlab, if_true]

theorem teacher_loop_cons_theory (cfg : Config) (ci : Nat)
    (next : State → Bool × State) (ti : Nat) (tis : List Nat) (s : State)
    (hlab : (((s.modCourse ci fun c => { c with teacher := some ti }).courseD ci).course_type
      == "lab") = false)
    (hth : (((s.modCourse ci fun c => { c with teacher := some ti }).courseD ci).course_type
      == "theory") = true) :
    teacher_loop cfg ci next (ti :: tis) s =
      match (fun r1 : Bool × State => if r1.1 then next r1.2 else (false, r1.2))
          (assign_theory_go cfg ci
            ((s.modCourse ci fun c => { c with teacher := some ti }).courseD ci).required_hours
            (s.modCourse ci fun c => { c with teacher := some ti })) with
      | (true, s2) => (true, s2)
      | (false, s2) =>
        teacher_loop cfg ci next tis
          ((course_backtrack cfg ci ti s2).modCourse ci fun c0 =>
            { c0 with teacher := none }) := by
  simp only [teacher_loop, hlab, hth, Bool.false_eq_true, if_false, if_true]

theorem teacher_loop_cons_other (cfg : Config) (ci : Nat)
    (next : State → Bool × State) (ti : Nat) (tis : List Nat) (s : State)
    (hlab : (((s.modCourse ci fun c => { c with teacher := some ti }).courseD ci).course_type
      == "lab") = false)
    (hth : (((s.modCourse ci fun c => { c with teacher := some ti }).courseD ci).course_type
      == "theory") = false) :
    teacher_loop cfg ci next (ti :: tis) s =
      teacher_loop cfg ci next tis
        ((course_backtrack cfg ci ti
            (s.modCourse ci fun c => { c with teacher := some ti })).modCourse ci
          fun c0 => { c0 with teacher := none }) := by
  simp only [teacher_loop, hlab, hth, Bool.false_eq_true, if_false]

theorem course_restore_eq (c : Course) (h1 : c.time_slots = [])
    (h2 : c.teacher = none) :
    ({ c with time_slots := ([] : List Nat), teacher := (none : Option Nat) }
      : Course) = c := by
  rw [← h1, ← h2]

/-- The course-level backtrack after a failed teacher choice restores the
conflict-relevant state, given the exact effect `ext` of the placement. -/
theorem backtrack_restores (cfg : Config) {s s2 : State} {ci ti : Nat}
    (ext : List Nat)
    (hciS : ci < s.courses.length) (htiS : ti < s.teachers.length)
    (hbiS : (s.courseD ci).batchIdx < s.batches.length)
    (hnilS : (s.courseD ci).time_slots = [])
    (hnoneS : (s.courseD ci).teacher = none)
    (hclen : s2.courses.length = s.courses.length)
    (hblen : s2.batches.length = s.batches.length)
    (htlen : s2.teachers.length = s.teachers.length)
    (hcself : s2.courseD ci =
      { s.courseD ci with teacher := some ti, time_slots := ext })
    (hcne : ∀ j, j ≠ ci → s2.courseD j = s.courseD j)
    (hused : ∀ y, y ∈ (s2.batchD (s.courseD ci).batchIdx).used_time_slots ↔
      y ∈ (s.batchD (s.courseD ci).batchIdx).used_time_slots ∨ y ∈ ext)
    (husedne : ∀ j, j ≠ (s.courseD ci).batchIdx →
      (s2.batchD j).used_time_slots = (s.batchD j).used_time_slots)
    (hassigned : ∀ y, y ∈ (s2.teacherD ti).assigned_time_slots ↔
      y ∈ (s.teacherD ti).assigned_time_slots ∨ y ∈ ext)
    (hassne : ∀ j, j ≠ ti →
      (s2.teacherD j).assigned_time_slots = (s.teacherD j).assigned_time_slots)
    (hhours : (s2.teacherD ti).assigned_hours =
      (s.teacherD ti).assigned_hours + (ext.length : Int))
    (hhoursne : ∀ j, j ≠ ti →
      (s2.teacherD j).assigned_hours = (s.teacherD j).assigned_hours)
    (htstat : ∀ j, tstatic (s2.teacherD j) = tstatic (s.teacherD j))
    (hfreshU : ∀ x ∈ ext, x ∉ (s.batchD (s.courseD ci).batchIdx).used_time_slots)
    (hfreshA : ∀ x ∈ ext, x ∉ (s.teacherD ti).assigned_time_slots) :
    REq s ((course_backtrack cfg ci ti s2).modCourse ci
      fun c0 => { c0 with teacher := (none : Option Nat) }) := by
  have hbi2 : (s2.courseD ci).batchIdx = (s.courseD ci).batchIdx := by rw [hcself]
  have hts2 : (s2.courseD ci).time_slots = ext := by rw [hcself]
  have hcb := course_backtrack_cbcore cfg s2 (by rw [hclen]; exact hciS)
    (by rw [htlen]; exact htiS) (by rw [hbi2, hblen]; exact hbiS)
  set s3 := course_backtrack cfg ci ti s2 with hs3
  have hci3 : ci < s3.courses.length := by rw [hcb.clen, hclen]; exact hciS
  have hb4 : ∀ j, (s3.modCourse ci fun c0 =>
      { c0 with teacher := (none : Option Nat) }).batchD j = s3.batchD j :=
    fun _ => rfl
  have ht4 : ∀ j, (s3.modCourse ci fun c0 =>
      { c0 with teacher := (none : Option Nat) }).teacherD j = s3.teacherD j :=
    fun _ => rfl
  refine ⟨?_, ?_, ?_, ?_, ?_, ?_, ?_, ?_⟩
  · show (s3.modCourse ci _).courses.length = s.courses.length
    simp only [State.modCourse, List.length_set]
    rw [hcb.clen, hclen]
  · show (s3.modCourse ci _).batches.length = s.batches.length
    have : (s3.modCourse ci fun c0 =>
        { c0 with teacher := (none : Option Nat) }).batches.length
        = s3.batches.length := rfl
    rw [this, hcb.blen, hblen]
  · show (s3.modCourse ci _).teachers.length = s.teachers.length
    have : (s3.modCourse ci fun c0 =>
        { c0 with teacher := (none : Option Nat) }).teachers.length
        = s3.teachers.length := rfl
    rw [this, hcb.tlen, htlen]
  · intro j
    by_cases hj : j = ci
    · subst hj
      rw [State.modCourse_courseD_self _ _ _ hci3, hcb.course_self, hcself]
      exact course_restore_eq _ hnilS hnoneS
    · rw [State.modCourse_courseD_ne _ _ _ _ hj, hcb.course_ne j hj, hcne j hj]
  · intro j
    rw [hb4]
    by_cases hj : j = (s.courseD ci).batchIdx
    · subst hj
      refine Finset.ext fun y => ?_
      have h3 := hcb.used_self y
      rw [hbi2, hts2] at h3
      rw [h3, hused y]
      constructor
      · rintro ⟨hy | hy, hny⟩
        · exact hy
        · exact absurd hy hny
      · intro hy
        exact ⟨Or.inl hy, fun hc => hfreshU y hc hy⟩
    · have h3 := hcb.batch_ne j (by rw [hbi2]; exact hj)
      rw [h3, husedne j hj]
  · intro j
    rw [ht4]
    by_cases hj : j = ti
    · subst hj
      refine Finset.ext fun y => ?_
      have h3 := hcb.t_assigned y
      rw [hts2] at h3
      rw [h3, hassigned y]
      constructor
      · rintro ⟨hy | hy, hny⟩
        · exact hy
        · exact absurd hy hny
      · intro hy
        exact ⟨Or.inl hy, fun hc => hfreshA y hc hy⟩
    · rw [hcb.t_ne j hj, hassne j hj]
  · intro j
    rw [ht4]
    by_cases hj : j = ti
    · subst hj
      rw [hcb.t_hours, hts2, hhours]
      simp
    · rw [hcb.t_ne j hj, hhoursne j hj]
  · intro j
    rw [ht4]
    by_cases hj : j = ti
    · subst hj
      rw [hcb.t_static, htstat]
    · rw [hcb.t_ne j hj, htstat j]

/-- Behaviour of the `for teacher in eligible_teachers` loop: the invariant and
the hour caps are preserved, failure restores the conflict-relevant state, and
success leaves every course of `ci :: rest` fully placed and all others
untouched. -/
theorem teacher_loop_spec (cfg : Config) (ci : Nat) (rest : List Nat)
    (next : State → Bool × State) (hnext : SchedSpec cfg rest next)
    (hnotin : ci ∉ rest) (hnd : rest.Nodup) :
    ∀ (tis : List Nat) (s : State), Inv s → HoursOk s → FreshAll s (ci :: rest) →
      (∀ ti ∈ tis, ti < s.teachers.length ∧
        (s.teacherD ti).assigned_hours +
          (total_slots_needed (s.courseD ci) : Int) ≤ (s.teacherD ti).max_hours) →
      Inv (teacher_loop cfg ci next tis s).2 ∧
      HoursOk (teacher_loop cfg ci next tis s).2 ∧
      ((teacher_loop cfg ci next tis s).1 = false →
        REq s (teacher_loop cfg ci next tis s).2) ∧
      ((teacher_loop cfg ci next tis s).1 = true →
        (∀ i ∈ ci :: rest,
          DoneCourse cfg ((teacher_loop cfg ci next tis s).2.courseD i)) ∧
        (∀ j, j ∉ ci :: rest →
          (teacher_loop cfg ci next tis s).2.courseD j = s.courseD j)) := by
  intro tis
  induction tis with
  | nil =>
    intro s hi hok _ _
    simp only [teacher_loop]
    exact ⟨hi, hok, fun _ => REq.refl s, fun h => absurd h (by decide)⟩
  | cons ti tis ih =>
    intro s hi hok hfr htis
    obtain ⟨hnilS, hnoneS, hciS, hbiS⟩ := hfr ci (List.mem_cons_self ci rest)
    obtain ⟨htiS, hcapS⟩ := htis ti (List.mem_cons_self ti tis)
    set s0 := s.modCourse ci fun c => { c with teacher := some ti } with hs0
    have hcs0 : s0.courseD ci = { s.courseD ci with teacher := some ti } :=
      State.modCourse_courseD_self _ _ _ hciS
    have hcn0 : ∀ j, j ≠ ci → s0.courseD j = s.courseD j := fun j hj =>
      State.modCourse_courseD_ne _ _ _ _ hj
    have hclen0 : s0.courses.length = s.courses.length := by
      rw [hs0]
      simp [State.modCourse]
    have hblen0 : s0.batches.length = s.batches.length := rfl
    have htlen0 : s0.teachers.length = s.teachers.length := rfl
    have hbD0 : ∀ j, s0.batchD j = s.batchD j := fun _ => rfl
    have htD0 : ∀ j, s0.teacherD j = s.teacherD j := fun _ => rfl
    have hbieq : (s0.courseD ci).batchIdx = (s.courseD ci).batchIdx := by
      rw [hcs0]
    have hts0nil : (s0.courseD ci).time_slots = [] := by
      rw [hcs0]
      exact hnilS
    have hcs0full : s0.courseD ci =
        { s.courseD ci with teacher := some ti, time_slots := ([] : List Nat) } := by
      rw [hcs0, ← hnilS]
    have hi0 : Inv s0 := hi.set_teacher hciS hnilS
    have hpl0 : PlaceOk s0 ci ti := by
      refine ⟨by rw [hclen0]; exact hciS, htiS, ?_, by rw [hcs0]⟩
      rw [hbieq, hblen0]
      exact hbiS
    have tailstep : ∀ (s2 : State) (ext : List Nat),
        s2.courses.length = s.courses.length →
        s2.batches.length = s.batches.length →
        s2.teachers.length = s.teachers.length →
        s2.courseD ci = { s.courseD ci with teacher := some ti, time_slots := ext } →
        (∀ j, j ≠ ci → s2.courseD j = s.courseD j) →
        (∀ y, y ∈ (s2.batchD (s.courseD ci).batchIdx).used_time_slots ↔
          y ∈ (s.batchD (s.courseD ci).batchIdx).used_time_slots ∨ y ∈ ext) →
        (∀ j, j ≠ (s.courseD ci).batchIdx →
          (s2.batchD j).used_time_slots = (s.batchD j).used_time_slots) →
        (∀ y, y ∈ (s2.teacherD ti).assigned_time_slots ↔
          y ∈ (s.teacherD ti).assigned_time_slots ∨ y ∈ ext) →
        (∀ j, j ≠ ti →
          (s2.teacherD j).assigned_time_slots = (s.teacherD j).assigned_time_slots) →
        (s2.teacherD ti).assigned_hours =
          (s.teacherD ti).assigned_hours + (ext.length : Int) →
        (∀ j, j ≠ ti →
          (s2.teacherD j).assigned_hours = (s.teacherD j).assigned_hours) →
        (∀ j, tstatic (s2.teacherD j) = tstatic (s.teacherD j)) →
        (∀ x ∈ ext, x ∉ (s.batchD (s.courseD ci).batchIdx).used_time_slots) →
        (∀ x ∈ ext, x ∉ (s.teacherD ti).assigned_time_slots) →
        Inv (teacher_loop cfg ci next tis
          ((course_backtrack cfg ci ti s2).modCourse ci fun c0 =>
            { c0 with teacher := none })).2 ∧
        HoursOk (teacher_loop cfg ci next tis
          ((course_backtrack cfg ci ti s2).modCourse ci fun c0 =>
            { c0 with teacher := none })).2 ∧
        ((teacher_loop cfg ci next tis
          ((course_backtrack cfg ci ti s2).modCourse ci fun c0 =>
            { c0 with teacher := none })).1 = false →
          REq s (teacher_loop cfg ci next tis
            ((course_backtrack cfg ci ti s2).modCourse ci fun c0 =>
              { c0 with teacher := none })).2) ∧
        ((teacher_loop cfg ci next tis
          ((course_backtrack cfg ci ti s2).modCourse ci fun c0 =>
            { c0 with teacher := none })).1 = true →
          (∀ i ∈ ci :: rest, DoneCourse cfg ((teacher_loop cfg ci next tis
            ((course_backtrack cfg ci ti s2).modCourse ci fun c0 =>
              { c0 with teacher := none })).2.courseD i)) ∧
          (∀ j, j ∉ ci :: rest → (teacher_loop cfg ci next tis
            ((course_backtrack cfg ci ti s2).modCourse ci fun c0 =>
              { c0 with teacher := none })).2.courseD j = s.courseD j)) := by
      intro s2 ext h1 h2 h3 h4 h5 h6 h7 h8 h9 h10 h11 h12 h13 h14
      have hR : REq s ((course_backtrack cfg ci ti s2).modCourse ci
          fun c0 => { c0 with teacher := none }) :=
        backtrack_restores cfg ext hciS htiS hbiS hnilS hnoneS
          h1 h2 h3 h4 h5 h6 h7 h8 h9 h10 h11 h12 h13 h14
      have hmax4 : ∀ j, (((course_backtrack cfg ci ti s2).modCourse ci
          fun c0 => { c0 with teacher := none }).teacherD j).max_hours =
          (s.teacherD j).max_hours := by
        intro j
        have := congrArg (fun q => q.2.2.2) (hR.tstat j)
        simpa [tstatic] using this
      have htis4 : ∀ ti' ∈ tis, ti' < ((course_backtrack cfg ci ti s2).modCourse ci
          fun c0 => { c0 with teacher := none }).teachers.length ∧
          ((((course_backtrack cfg ci ti s2).modCourse ci
            fun c0 => { c0 with teacher := none }).teacherD ti').assigned_hours) +
            (total_slots_needed (((course_backtrack cfg ci ti s2).modCourse ci
              fun c0 => { c0 with teacher := none }).courseD ci) : Int) ≤
          (((course_backtrack cfg ci ti s2).modCourse ci
            fun c0 => { c0 with teacher := none }).teacherD ti').max_hours := by
        intro ti' hmem
        obtain ⟨ha, hb⟩ := htis ti' (List.mem_cons_of_mem ti hmem)
        refine ⟨by rw [hR.tlen]; exact ha, ?_⟩
        rw [hR.hours, hR.course, hmax4]
        exact hb
      obtain ⟨g1, g2, g3, g4⟩ := ih _ (Inv.of_req hR hi) (HoursOk.of_req_h hR hok)
        (FreshAll.of_req_f hR hfr) htis4
      refine ⟨g1, g2, fun hf => hR.trans (g3 hf), fun ht => ?_⟩
      obtain ⟨gd, gf⟩ := g4 ht
      exact ⟨gd, fun j hj => (gf j hj).trans (hR.course j)⟩
    have tail0 := fun (s2 : State) (hr : REq s0 s2) =>
      tailstep s2 []
        (by rw [hr.clen, hclen0])
        (by rw [hr.blen, hblen0])
        (by rw [hr.tlen, htlen0])
        (by rw [hr.course, hcs0full])
        (fun j hj => by rw [hr.course, hcn0 j hj])
        (fun y => by rw [hr.used, hbD0]; simp)
        (fun j hj => by rw [hr.used, hbD0])
        (fun y => by rw [hr.assigned, htD0]; simp)
        (fun j hj => by rw [hr.assigned, htD0])
        (by rw [hr.hours, htD0]; simp)
        (fun j hj => by rw [hr.hours, htD0])
        (fun j => by rw [hr.tstat, htD0])
        (fun x hx => absurd hx (List.not_mem_nil x))
        (fun x hx => absurd hx (List.not_mem_nil x))
    by_cases hlab : ((s0.courseD ci).course_type == "lab") = true
    case pos =>
      have hspec := assign_lab_go_spec cfg ci (s0.courseD ci).number_of_sessions
        s0 ti hi0 hpl0
      rcases hr1 : assign_lab_go cfg ci (s0.courseD ci).number_of_sessions s0 with
        ⟨b1, s1⟩
      rw [hr1] at hspec
      obtain ⟨hi1, hfail1, hsucc1⟩ := hspec
      cases b1 with
      | false =>
        have hout : teacher_loop cfg ci next (ti :: tis) s =
            teacher_loop cfg ci next tis
              ((course_backtrack cfg ci ti s1).modCourse ci fun c0 =>
                { c0 with teacher := none }) := by
          rw [teacher_loop_cons_lab cfg ci next ti tis s hlab, ← hs0, hr1]
          rfl
        rw [hout]
        exact tail0 s1 (hfail1 rfl)
      | true =>
        obtain ⟨ext, hx'⟩ := hsucc1 rfl
        have hx : LabExt cfg s0 ci ti (s0.courseD ci).number_of_sessions ext s1 := hx'
        have hi1' : Inv s1 := hi1
        have hct : (s0.courseD ci).course_type = (s.courseD ci).course_type := by
          rw [hcs0]
        have hlabS : ((s.courseD ci).course_type == "lab") = true := by
          rw [← hct]
          exact hlab
        have hns0 : (s0.courseD ci).number_of_sessions =
            (s.courseD ci).number_of_sessions := by rw [hcs0]
        have hdur0 : (s0.courseD ci).session_duration =
            (s.courseD ci).session_duration := by rw [hcs0]
        have htot : total_slots_needed (s.courseD ci) =
            (s.courseD ci).number_of_sessions * (s.courseD ci).session_duration := by
          simp only [total_slots_needed, hlabS, if_true]
        have hlenext : ext.length = total_slots_needed (s.courseD ci) := by
          rw [hx.len, hns0, hdur0, htot]
        have hcatts : (s0.courseD ci).time_slots ++ ext = ext := by
          rw [hts0nil]
          exact List.nil_append ext
        have hcs1full : s1.courseD ci =
            { s.courseD ci with teacher := some ti, time_slots := ext } := by
          rw [hx.course_self, hcatts, hcs0]
        have hok1 : HoursOk s1 := by
          intro j hj
          have hmax1 : (s1.teacherD j).max_hours = (s.teacherD j).max_hours := by
            have := congrArg (fun q => q.2.2.2) (hx.t_stat j)
            simpa [tstatic] using this
          rw [hx.tlen, htlen0] at hj
          by_cases hjt : j = ti
          · subst hjt
            rw [hx.t_hours, htD0, hmax1, hlenext]
            exact hcapS
          · rw [hx.t_ne_hours j hjt, htD0, hmax1]
            exact hok j hj
        have hfr1 : FreshAll s1 rest := by
          intro i hir
          have hine : i ≠ ci := fun h => hnotin (h ▸ hir)
          obtain ⟨f1, f2, f3, f4⟩ := hfr i (List.mem_cons_of_mem ci hir)
          have hc1 : s1.courseD i = s.courseD i :=
            (hx.course_ne i hine).trans (hcn0 i hine)
          refine ⟨by rw [hc1]; exact f1, by rw [hc1]; exact f2, ?_, ?_⟩
          · rw [hx.clen, hclen0]
            exact f3
          · rw [hc1, hx.blen, hblen0]
            exact f4
        obtain ⟨k1, k2, k3, k4⟩ := hnext s1 hi1' hok1 hfr1 hnd
        rcases hn : next s1 with ⟨b2, s2⟩
        rw [hn] at k1 k2 k3 k4
        have hout0 : teacher_loop cfg ci next (ti :: tis) s =
            (match next s1 with
              | (true, sx) => (true, sx)
              | (false, sx) =>
                teacher_loop cfg ci next tis
                  ((course_backtrack cfg ci ti sx).modCourse ci fun c0 =>
                    { c0 with teacher := none })) := by
          rw [teacher_loop_cons_lab cfg ci next ti tis s hlab, ← hs0, hr1]
          rfl
        rw [hn] at hout0
        cases b2 with
        | true =>
          have k1' : Inv s2 := k1
          have k2' : HoursOk s2 := k2
          obtain ⟨kd0, kf0⟩ := k4 rfl
          have kd : ∀ i ∈ rest, DoneCourse cfg (s2.courseD i) := kd0
          have kf : ∀ j, j ∉ rest → s2.courseD j = s1.courseD j := kf0
          have hout : teacher_loop cfg ci next (ti :: tis) s = (true, s2) := hout0
          rw [hout]
          refine ⟨k1', k2', fun h => Bool.noConfusion h, fun _ => ⟨?_, ?_⟩⟩
          · intro i hmem
            show DoneCourse cfg (s2.courseD i)
            rcases List.mem_cons.mp hmem with hic | hir
            · subst hic
              have hcs2 : s2.courseD i =
                  { s.courseD i with teacher := some ti, time_slots := ext } := by
                rw [kf i hnotin, hcs1full]
              rw [hcs2]
              refine ⟨?_, ?_⟩
              · show ext.length = total_slots_needed (s.courseD i)
                exact hlenext
              · intro _
                show Blocks cfg (s.courseD i).session_duration ext
                exact hdur0 ▸ hx.blocks
            · exact kd i hir
          · intro j hj
            have hjc : j ≠ ci := fun h => hj (h ▸ List.mem_cons_self ci rest)
            have hjr : j ∉ rest := fun h => hj (List.mem_cons_of_mem ci h)
            show s2.courseD j = s.courseD j
            rw [kf j hjr, hx.course_ne j hjc, hcn0 j hjc]
        | false =>
          have hreq12 : REq s1 s2 := k3 rfl
          have hout : teacher_loop cfg ci next (ti :: tis) s =
              teacher_loop cfg ci next tis
                ((course_backtrack cfg ci ti s2).modCourse ci fun c0 =>
                  { c0 with teacher := none }) := hout0
          rw [hout]
          refine tailstep s2 ext ?_ ?_ ?_ ?_ ?_ ?_ ?_ ?_ ?_ ?_ ?_ ?_ ?_ ?_
          · rw [hreq12.clen, hx.clen, hclen0]
          · rw [hreq12.blen, hx.blen, hblen0]
          · rw [hreq12.tlen, hx.tlen, htlen0]
          · rw [hreq12.course, hcs1full]
          · intro j hj
            rw [hreq12.course, hx.course_ne j hj, hcn0 j hj]
          · intro y
            rw [hreq12.used]
            have hu := hx.used_self y
            rw [hbieq, hbD0] at hu
            exact hu
          · intro j hj
            rw [hreq12.used]
            have hu := hx.used_ne j (by rw [hbieq]; exact hj)
            rw [hbD0] at hu
            exact hu
          · intro y
            rw [hreq12.assigned]
            have hu := hx.t_assigned y
            rw [htD0] at hu
            exact hu
          · intro j hj
            rw [hreq12.assigned]
            have hu := hx.t_ne_assigned j hj
            rw [htD0] at hu
            exact hu
          · rw [hreq12.hours]
            have hu := hx.t_hours
            rw [htD0] at hu
            exact hu
          · intro j hj
            rw [hreq12.hours]
            have hu := hx.t_ne_hours j hj
            rw [htD0] at hu
            exact hu
          · intro j
            rw [hreq12.tstat]
            have hu := hx.t_stat j
            rw [htD0] at hu
            exact hu
          · intro x hxe
            have hu := hx.fresh_used x hxe
            rw [hbieq, hbD0] at hu
            exact hu
          · intro x hxe
            have hu := hx.fresh_assigned x hxe
            rw [htD0] at hu
            exact hu
    case neg =>
    have hlabF : ((s0.courseD ci).course_type == "lab") = false :=
      Bool.not_eq_true _ ▸ hlab
    by_cases hth : ((s0.courseD ci).course_type == "theory") = true
    case pos =>
      have hspec := assign_theory_go_spec cfg ci (s0.courseD ci).required_hours
        s0 ti hi0 hpl0
      rcases hr1 : assign_theory_go cfg ci (s0.courseD ci).required_hours s0 with
        ⟨b1, s1⟩
      rw [hr1] at hspec
      obtain ⟨hi1, hls1, hfail1, hsucc1⟩ := hspec
      cases b1 with
      | false =>
        have hout : teacher_loop cfg ci next (ti :: tis) s =
            teacher_loop cfg ci next tis
              ((course_backtrack cfg ci ti s1).modCourse ci fun c0 =>
                { c0 with teacher := none }) := by
          rw [teacher_loop_cons_theory cfg ci next ti tis s hlabF hth, ← hs0, hr1]
          rfl
        rw [hout]
        exact tail0 s1 (hfail1 rfl)
      | true =>
        obtain ⟨ext, hx'⟩ := hsucc1 rfl
        have hx : TheoryExt cfg s0 ci ti (s0.courseD ci).required_hours ext s1 := hx'
        have hi1' : Inv s1 := hi1
        have hct : (s0.courseD ci).course_type = (s.courseD ci).course_type := by
          rw [hcs0]
        have hlabS : ((s.courseD ci).course_type == "lab") = false := by
          rw [← hct]
          exact hlabF
        have hreq0 : (s0.courseD ci).required_hours =
            (s.courseD ci).required_hours := by rw [hcs0]
        have htot : total_slots_needed (s.courseD ci) =
            (s.courseD ci).required_hours := by
          simp only [total_slots_needed, hlabS, Bool.false_eq_true, if_false]
        have hlenext : ext.length = total_slots_needed (s.courseD ci) := by
          rw [hx.len, hreq0, htot]
        have hcatts : (s0.courseD ci).time_slots ++ ext = ext := by
          rw [hts0nil]
          exact List.nil_append ext
        have hcs1full : s1.courseD ci =
            { s.courseD ci with teacher := some ti, time_slots := ext } := by
          rw [hx.course_self, hcatts, hcs0]
        have hok1 : HoursOk s1 := by
          intro j hj
          have hmax1 : (s1.teacherD j).max_hours = (s.teacherD j).max_hours := by
            have := congrArg (fun q => q.2.2.2) (hx.t_stat j)
            simpa [tstatic] using this
          rw [hx.tlen, htlen0] at hj
          by_cases hjt : j = ti
          · subst hjt
            rw [hx.t_hours, htD0, hmax1, hlenext]
            exact hcapS
          · rw [hx.t_ne_hours j hjt, htD0, hmax1]
            exact hok j hj
        have hfr1 : FreshAll s1 rest := by
          intro i hir
          have hine : i ≠ ci := fun h => hnotin (h ▸ hir)
          obtain ⟨f1, f2, f3, f4⟩ := hfr i (List.mem_cons_of_mem ci hir)
          have hc1 : s1.courseD i = s.courseD i :=
            (hx.course_ne i hine).trans (hcn0 i hine)
          refine ⟨by rw [hc1]; exact f1, by rw [hc1]; exact f2, ?_, ?_⟩
          · rw [hx.clen, hclen0]
            exact f3
          · rw [hc1, hx.blen, hblen0]
            exact f4
        obtain ⟨k1, k2, k3, k4⟩ := hnext s1 hi1' hok1 hfr1 hnd
        rcases hn : next s1 with ⟨b2, s2⟩
        rw [hn] at k1 k2 k3 k4
        have hout0 : teacher_loop cfg ci next (ti :: tis) s =
            (match next s1 with
              | (true, sx) => (true, sx)
              | (false, sx) =>
                teacher_loop cfg ci next tis
                  ((course_backtrack cfg ci ti sx).modCourse ci fun c0 =>
                    { c0 with teacher := none })) := by
          rw [teacher_loop_cons_theory cfg ci next ti tis s hlabF hth, ← hs0, hr1]
          rfl
        rw [hn] at hout0
        cases b2 with
        | true =>
          have k1' : Inv s2 := k1
          have k2' : HoursOk s2 := k2
          obtain ⟨kd0, kf0⟩ := k4 rfl
          have kd : ∀ i ∈ rest, DoneCourse cfg (s2.courseD i) := kd0
          have kf : ∀ j, j ∉ rest → s2.courseD j = s1.courseD j := kf0
          have hout : teacher_loop cfg ci next (ti :: tis) s = (true, s2) := hout0
          rw [hout]
          refine ⟨k1', k2', fun h => Bool.noConfusion h, fun _ => ⟨?_, ?_⟩⟩
          · intro i hmem
            show DoneCourse cfg (s2.courseD i)
            rcases List.mem_cons.mp hmem with hic | hir
            · subst hic
              have hcs2 : s2.courseD i =
                  { s.courseD i with teacher := some ti, time_slots := ext } := by
                rw [kf i hnotin, hcs1full]
              rw [hcs2]
              refine ⟨?_, ?_⟩
              · show ext.length = total_slots_needed (s.courseD i)
                exact hlenext
              · intro hcontra
                have hc' : ((s.courseD i).course_type == "lab") = true := hcontra
                rw [hlabS] at hc'
                exact absurd hc' (by decide)
            · exact kd i hir
          · intro j hj
            have hjc : j ≠ ci := fun h => hj (h ▸ List.mem_cons_self ci rest)
            have hjr : j ∉ rest := fun h => hj (List.mem_cons_of_mem ci h)
            show s2.courseD j = s.courseD j
            rw [kf j hjr, hx.course_ne j hjc, hcn0 j hjc]
        | false =>
          have hreq12 : REq s1 s2 := k3 rfl
          have hout : teacher_loop cfg ci next (ti :: tis) s =
              teacher_loop cfg ci next tis
                ((course_backtrack cfg ci ti s2).modCourse ci fun c0 =>
                  { c0 with teacher := none }) := hout0
          rw [hout]
          refine tailstep s2 ext ?_ ?_ ?_ ?_ ?_ ?_ ?_ ?_ ?_ ?_ ?_ ?_ ?_ ?_
          · rw [hreq12.clen, hx.clen, hclen0]
          · rw [hreq12.blen, hx.blen, hblen0]
          · rw [hreq12.tlen, hx.tlen, htlen0]
          · rw [hreq12.course, hcs1full]
          · intro j hj
            rw [hreq12.course, hx.course_ne j hj, hcn0 j hj]
          · intro y
            rw [hreq12.used]
            have hu := hx.used_self y
            rw [hbieq, hbD0] at hu
            exact hu
          · intro j hj
            rw [hreq12.used]
            have hu := hx.used_ne j (by rw [hbieq]; exact hj)
            rw [hbD0] at hu
            exact hu
          · intro y
            rw [hreq12.assigned]
            have hu := hx.t_assigned y
            rw [htD0] at hu
            exact hu
          · intro j hj
            rw [hreq12.assigned]
            have hu := hx.t_ne_assigned j hj
            rw [htD0] at hu
            exact hu
          · rw [hreq12.hours]
            have hu := hx.t_hours
            rw [htD0] at hu
            exact hu
          · intro j hj
            rw [hreq12.hours]
            have hu := hx.t_ne_hours j hj
            rw [htD0] at hu
            exact hu
          · intro j
            rw [hreq12.tstat]
            have hu := hx.t_stat j
            rw [htD0] at hu
            exact hu
          · intro x hxe
            have hu := hx.fresh_used x hxe
            rw [hbieq, hbD0] at hu
            exact hu
          · intro x hxe
            have hu := hx.fresh_assigned x hxe
            rw [htD0] at hu
            exact hu
    case neg =>
      have hthF : ((s0.courseD ci).course_type == "theory") = false :=
        Bool.not_eq_true _ ▸ hth
      rw [teacher_loop_cons_other cfg ci next ti tis s hlabF hthF, ← hs0]
      exact tail0 s0 (REq.refl s0)

/-- `_schedule_recursive` satisfies its course-list specification. -/
theorem schedule_go_spec (cfg : Config) :
    ∀ idxs : List Nat, SchedSpec cfg idxs (schedule_go cfg idxs) := by
  intro idxs
  induction idxs with
  | nil =>
    intro s hi hok _ _
    exact ⟨hi, hok, fun h => Bool.noConfusion h,
      fun _ => ⟨fun i hmem => absurd hmem (List.not_mem_nil i), fun _ _ => rfl⟩⟩
  | cons ci rest ih =>
    intro s hi hok hfr hnd
    by_cases hbud : cfg.max_assignments ≤ s.tried
    · have hout : schedule_go cfg (ci :: rest) s = (false, s) := by
        simp only [schedule_go, if_pos hbud]
      rw [hout]
      exact ⟨hi, hok, fun _ => REq.refl s, fun h => Bool.noConfusion h⟩
    · by_cases hel : (get_eligible_teachers s.teachers (s.courseD ci)).isEmpty = true
      · have hout : schedule_go cfg (ci :: rest) s = (false, s) := by
          simp only [schedule_go, if_neg hbud, hel, if_true]
        rw [hout]
        exact ⟨hi, hok, fun _ => REq.refl s, fun h => Bool.noConfusion h⟩
      · have helF : (get_eligible_teachers s.teachers (s.courseD ci)).isEmpty = false :=
          Bool.not_eq_true _ ▸ hel
        have hout : schedule_go cfg (ci :: rest) s =
            teacher_loop cfg ci (schedule_go cfg rest)
              ((get_eligible_teachers s.teachers (s.courseD ci)).insertionSort
                fun x y =>
                  lexII_le
                    (get_teacher_priority (s.teacherD x)
                      (s.batchD (s.courseD ci).batchIdx))
                    (get_teacher_priority (s.teacherD y)
                      (s.batchD (s.courseD ci).batchIdx)) = true) s := by
          simp only [schedule_go, if_neg hbud, helF, Bool.false_eq_true, if_false]
        rw [hout]
        have hnotin : ci ∉ rest := (List.nodup_cons.mp hnd).1
        have hndr : rest.Nodup := (List.nodup_cons.mp hnd).2
        have htis : ∀ ti ∈ (get_eligible_teachers s.teachers
            (s.courseD ci)).insertionSort
              (fun x y =>
                lexII_le
                  (get_teacher_priority (s.teacherD x)
                    (s.batchD (s.courseD ci).batchIdx))
                  (get_teacher_priority (s.teacherD y)
                    (s.batchD (s.courseD ci).batchIdx)) = true),
            ti < s.teachers.length ∧
            (s.teacherD ti).assigned_hours +
              (total_slots_needed (s.courseD ci) : Int) ≤
              (s.teacherD ti).max_hours := by
          intro ti hmem
          rw [List.mem_insertionSort] at hmem
          obtain ⟨hlt, _, hcap⟩ := get_eligible_teachers_mem hmem
          exact ⟨hlt, hcap⟩
        exact teacher_loop_spec cfg ci rest (schedule_go cfg rest) ih hnotin hndr
          _ s hi hok hfr htis

/-! ## Lemma layer: classroom matching -/

theorem find_map_updR (l : RoomMap) (k : String × Nat) (v : Nat) :
    (l.map fun e => if e.1 = k then (k, v) else e).find?
        (fun e => decide (e.1 = k)) =
      (l.find? (fun e => decide (e.1 = k))).map fun _ => (k, v) := by
  induction l with
  | nil => rfl
  | cons a t ih =>
    by_cases h : a.1 = k
    · simp [List.find?, h]
    · simp only [List.map_cons]
      rw [if_neg h]
      rw [List.find?_cons_of_neg _ (by simpa using h),
        List.find?_cons_of_neg _ (by simpa using h)]
      exact ih

theorem find_map_updR_ne (l : RoomMap) (k k' : String × Nat) (v : Nat)
    (hk : k' ≠ k) :
    (l.map fun e => if e.1 = k then (k, v) else e).find?
        (fun e => decide (e.1 = k')) =
      l.find? (fun e => decide (e.1 = k')) := by
  induction l with
  | nil => rfl
  | cons a t ih =>
    by_cases h : a.1 = k
    · have hfa : (if a.1 = k then (k, v) else a) = (k, v) := if_pos h
      have hb1 : decide ((k, v).1 = k') = false :=
        decide_eq_false fun hkk => hk hkk.symm
      have hb2 : decide (a.1 = k') = false :=
        decide_eq_false fun hkk => hk (hkk.symm.trans h)
      simp only [List.map_cons, hfa, List.find?_cons, hb1, hb2]
      exact ih
    · have hfa : (if a.1 = k then (k, v) else a) = a := if_neg h
      simp only [List.map_cons, hfa]
      by_cases h2 : a.1 = k'
      · have hb : decide (a.1 = k') = true := decide_eq_true h2
        simp only [List.find?_cons, hb]
      · have hb : decide (a.1 = k') = false := decide_eq_false h2
        simp only [List.find?_cons, hb]
        exact ih

theorem mapLookup_insert_self (m : RoomMap) (k : String × Nat) (v : Nat) :
    mapLookup (mapInsert m k v) k = some v := by
  unfold mapInsert mapLookup
  by_cases h : (m.find? fun e => decide (e.1 = k)).isSome
  · rw [if_pos h, find_map_updR]
    obtain ⟨e, he⟩ := Option.isSome_iff_exists.mp h
    simp [he]
  · rw [if_neg h]
    simp only [List.find?_append]
    rw [Option.not_isSome_iff_eq_none.mp h]
    simp [List.find?]

theorem mapLookup_insert_ne (m : RoomMap) (k k' : String × Nat) (v : Nat)
    (hk : k' ≠ k) : mapLookup (mapInsert m k v) k' = mapLookup m k' := by
  unfold mapInsert mapLookup
  by_cases h : (m.find? fun e => decide (e.1 = k)).isSome
  · rw [if_pos h, find_map_updR_ne _ _ _ _ hk]
  · rw [if_neg h]
    simp only [List.find?_append]
    have hone : List.find? (fun e => decide (e.1 = k')) [(k, v)] = none := by
      have hb : decide (((k, v) : (String × Nat) × Nat).1 = k') = false :=
        decide_eq_false fun hkk => hk hkk.symm
      simp only [List.find?_cons, hb]
      rfl
    rw [hone]
    simp

theorem mapLookup_nil (k : String × Nat) : mapLookup [] k = none := rfl

theorem min_usage_mem (usage : Nat → Finset Nat) (rs : List Nat) (r : Nat) :
    min_usage usage (r :: rs) ∈ r :: rs := by
  have haux : ∀ (l : List Nat) (acc : Nat),
      l.foldl (fun best c =>
        if (usage c).card < (usage best).card then c else best) acc ∈ acc :: l := by
    intro l
    induction l with
    | nil => intro acc; exact List.mem_cons_self _ _
    | cons c l ih =>
      intro acc
      simp only [List.foldl_cons]
      by_cases h : (usage c).card < (usage acc).card
      · rw [if_pos h]
        exact List.mem_cons_of_mem acc (ih c)
      · rw [if_neg h]
        rcases List.mem_cons.mp (ih acc) with h1 | h1
        · rw [h1]
          exact List.mem_cons_self _ _
        · exact List.mem_cons_of_mem acc (List.mem_cons_of_mem c h1)
  exact haux rs r

/-- Map/usage consistency: every assigned `(course, slot) ↦ room` entry is
recorded in the room's usage set. -/
def RoomOk (m : RoomMap) (usage : Nat → Finset Nat) : Prop :=
  ∀ n ts r, mapLookup m (n, ts) = some r → ts ∈ usage r

/-- Room exclusivity: no slot maps two different courses to one room. -/
def RoomExcl (m : RoomMap) : Prop :=
  ∀ n1 n2 ts r, mapLookup m (n1, ts) = some r →
    mapLookup m (n2, ts) = some r → n1 = n2

theorem RoomOk.nil_ok (usage : Nat → Finset Nat) : RoomOk [] usage :=
  fun _ _ _ h => by rw [mapLookup_nil] at h; exact absurd h (by simp)

theorem RoomExcl.nil_excl : RoomExcl [] :=
  fun _ _ _ _ h => by rw [mapLookup_nil] at h; exact absurd h (by simp)

/-- One insertion step preserves consistency and exclusivity when the slot is
free in the chosen room. -/
theorem roomok_excl_insert {m : RoomMap} {usage : Nat → Finset Nat}
    (name : String) (ts room : Nat)
    (hmu : RoomOk m usage) (hex : RoomExcl m) (hfree : ts ∉ usage room) :
    RoomOk (mapInsert m (name, ts) room)
      (fun r => if r = room then insert ts (usage r) else usage r) ∧
    RoomExcl (mapInsert m (name, ts) room) := by
  constructor
  · intro n t r hl
    by_cases hk : ((n, t) : String × Nat) = (name, ts)
    · rw [hk, mapLookup_insert_self] at hl
      have ht : t = ts := congrArg Prod.snd hk
      cases hl
      rw [ht]
      show ts ∈ (if room = room then insert ts (usage room) else usage room)
      rw [if_pos rfl]
      exact Finset.mem_insert_self ts (usage room)
    · rw [mapLookup_insert_ne _ _ _ _ hk] at hl
      have hmem := hmu n t r hl
      show t ∈ (if r = room then insert ts (usage r) else usage r)
      by_cases hr : r = room
      · rw [if_pos hr]
        exact Finset.mem_insert_of_mem hmem
      · rw [if_neg hr]
        exact hmem
  · intro n1 n2 t r h1 h2
    by_cases hk1 : ((n1, t) : String × Nat) = (name, ts)
    · by_cases hk2 : ((n2, t) : String × Nat) = (name, ts)
      · have e1 : n1 = name := congrArg Prod.fst hk1
        have e2 : n2 = name := congrArg Prod.fst hk2
        rw [e1, e2]
      · rw [hk1, mapLookup_insert_self] at h1
        cases h1
        rw [mapLookup_insert_ne _ _ _ _ hk2] at h2
        have hts : t = ts := congrArg Prod.snd hk1
        rw [hts] at h2
        exact absurd (hmu n2 ts room h2) hfree
    · by_cases hk2 : ((n2, t) : String × Nat) = (name, ts)
      · rw [hk2, mapLookup_insert_self] at h2
        cases h2
        rw [mapLookup_insert_ne _ _ _ _ hk1] at h1
        have hts : t = ts := congrArg Prod.snd hk2
        rw [hts] at h1
        exact absurd (hmu n1 ts room h1) hfree
      · rw [mapLookup_insert_ne _ _ _ _ hk1] at h1
        rw [mapLookup_insert_ne _ _ _ _ hk2] at h2
        exact hex n1 n2 t r h1 h2

/-- The lab branch's per-slot commit fold of `assign_classrooms`. -/
theorem lab_fold_spec (name : String) (room : Nat) :
    ∀ (slots : List Nat) (m : RoomMap) (usage : Nat → Finset Nat),
      RoomOk m usage → RoomExcl m → slots.Nodup →
      (∀ ts ∈ slots, ts ∉ usage room) →
      RoomOk (slots.foldl (fun (acc : RoomMap × (Nat → Finset Nat)) ts =>
          (mapInsert acc.1 (name, ts) room,
           fun r => if r = room then insert ts (acc.2 r) else acc.2 r))
          (m, usage)).1
        (slots.foldl (fun (acc : RoomMap × (Nat → Finset Nat)) ts =>
          (mapInsert acc.1 (name, ts) room,
           fun r => if r = room then insert ts (acc.2 r) else acc.2 r))
          (m, usage)).2 ∧
      RoomExcl (slots.foldl (fun (acc : RoomMap × (Nat → Finset Nat)) ts =>
          (mapInsert acc.1 (name, ts) room,
           fun r => if r = room then insert ts (acc.2 r) else acc.2 r))
          (m, usage)).1 ∧
      (∀ n t, n ≠ name →
        mapLookup (slots.foldl (fun (acc : RoomMap × (Nat → Finset Nat)) ts =>
          (mapInsert acc.1 (name, ts) room,
           fun r => if r = room then insert ts (acc.2 r) else acc.2 r))
          (m, usage)).1 (n, t) = mapLookup m (n, t)) ∧
      (∀ t ∈ slots,
        mapLookup (slots.foldl (fun (acc : RoomMap × (Nat → Finset Nat)) ts =>
          (mapInsert acc.1 (name, ts) room,
           fun r => if r = room then insert ts (acc.2 r) else acc.2 r))
          (m, usage)).1 (name, t) = some room) ∧
      (∀ t, t ∉ slots →
        mapLookup (slots.foldl (fun (acc : RoomMap × (Nat → Finset Nat)) ts =>
          (mapInsert acc.1 (name, ts) room,
           fun r => if r = room then insert ts (acc.2 r) else acc.2 r))
          (m, usage)).1 (name, t) = mapLookup m (name, t)) := by
  intro slots
  induction slots with
  | nil =>
    intro m usage hmu hex _ _
    exact ⟨hmu, hex, fun _ _ _ => rfl, fun t ht => absurd ht (List.not_mem_nil t),
      fun _ _ => rfl⟩
  | cons ts slots ih =>
    intro m usage hmu hex hnd hfree
    simp only [List.foldl_cons]
    obtain ⟨hmu1, hex1⟩ := roomok_excl_insert name ts room hmu hex
      (hfree ts (List.mem_cons_self ts slots))
    have hndt : slots.Nodup := (List.nodup_cons.mp hnd).2
    have hhd : ts ∉ slots := (List.nodup_cons.mp hnd).1
    have hfree1 : ∀ t ∈ slots, t ∉ (fun r =>
        if r = room then insert ts (usage r) else usage r) room := by
      intro t htm
      show t ∉ (if room = room then insert ts (usage room) else usage room)
      rw [if_pos rfl, Finset.mem_insert]
      push_neg
      exact ⟨fun he => hhd (he ▸ htm), hfree t (List.mem_cons_of_mem ts htm)⟩
    obtain ⟨g1, g2, g3, g4, g5⟩ := ih (mapInsert m (name, ts) room)
      (fun r => if r = room then insert ts (usage r) else usage r)
      hmu1 hex1 hndt hfree1
    refine ⟨g1, g2, ?_, ?_, ?_⟩
    · intro n t hn
      rw [g3 n t hn, mapLookup_insert_ne]
      intro hk
      exact hn (congrArg Prod.fst hk)
    · intro t htm
      rcases List.mem_cons.mp htm with h1 | h1
      · subst h1
        rw [g5 t hhd, mapLookup_insert_self]
      · exact g4 t h1
    · intro t htm
      have h1 : t ≠ ts := fun he => htm (he ▸ List.mem_cons_self ts slots)
      have h2 : t ∉ slots := fun he => htm (List.mem_cons_of_mem ts he)
      rw [g5 t h2, mapLookup_insert_ne]
      intro hk
      exact h1 (congrArg Prod.snd hk)

/-- The theory branch's per-slot loop of `assign_classrooms`. -/
theorem theory_rooms_go_spec (ncr : Nat) (name : String) :
    ∀ (slots : List Nat) (m : RoomMap) (usage : Nat → Finset Nat),
      RoomOk m usage → RoomExcl m →
      ∀ m' usage', theory_rooms_go ncr name slots m usage = some (m', usage') →
        RoomOk m' usage' ∧ RoomExcl m' ∧
        (∀ n t, n ≠ name → mapLookup m' (n, t) = mapLookup m (n, t)) ∧
        (∀ t ∈ slots, (mapLookup m' (name, t)).isSome = true) ∧
        (∀ t, (mapLookup m (name, t)).isSome = true →
          (mapLookup m' (name, t)).isSome = true) := by
  intro slots
  induction slots with
  | nil =>
    intro m usage hmu hex m' usage' heq
    simp only [theory_rooms_go, Option.some.injEq] at heq
    obtain ⟨h1, h2⟩ := Prod.mk.injEq .. ▸ heq
    subst h1
    subst h2
    exact ⟨hmu, hex, fun _ _ _ => rfl,
      fun t ht => absurd ht (List.not_mem_nil t), fun _ h => h⟩
  | cons ts slots ih =>
    intro m usage hmu hex m' usage' heq
    by_cases hav : ((List.range ncr).filter fun r => ts ∉ usage r).isEmpty = true
    · rw [show theory_rooms_go ncr name (ts :: slots) m usage = none by
        simp only [theory_rooms_go, hav, if_true]] at heq
      exact absurd heq (by simp)
    · have havF : ((List.range ncr).filter fun r => ts ∉ usage r).isEmpty = false :=
        Bool.not_eq_true _ ▸ hav
      rw [show theory_rooms_go ncr name (ts :: slots) m usage =
          theory_rooms_go ncr name slots
            (mapInsert m (name, ts)
              (min_usage usage ((List.range ncr).filter fun r => ts ∉ usage r)))
            (fun r => if r = min_usage usage
                ((List.range ncr).filter fun r => ts ∉ usage r) then
              insert ts (usage r) else usage r) by
        simp only [theory_rooms_go, havF, Bool.false_eq_true, if_false]] at heq
      have hne : ((List.range ncr).filter fun r => ts ∉ usage r) ≠ [] := by
        intro h
        rw [h] at havF
        exact absurd havF (by simp)
      obtain ⟨hd, tl, hcons⟩ := List.exists_cons_of_ne_nil hne
      have hmem : min_usage usage ((List.range ncr).filter fun r => ts ∉ usage r) ∈
          (List.range ncr).filter fun r => ts ∉ usage r := by
        rw [hcons]
        exact min_usage_mem usage tl hd
      have hfree : ts ∉ usage (min_usage usage
          ((List.range ncr).filter fun r => ts ∉ usage r)) := by
        have := (List.mem_filter.mp hmem).2
        simpa using this
      obtain ⟨hmu1, hex1⟩ := roomok_excl_insert name ts
        (min_usage usage ((List.range ncr).filter fun r => ts ∉ usage r))
        hmu hex hfree
      obtain ⟨g1, g2, g3, g4, g5⟩ := ih _ _ hmu1 hex1 m' usage' heq
      refine ⟨g1, g2, ?_, ?_, ?_⟩
      · intro n t hn
        rw [g3 n t hn, mapLookup_insert_ne]
        intro hk
        exact hn (congrArg Prod.fst hk)
      · intro t htm
        rcases List.mem_cons.mp htm with h1 | h1
        · subst h1
          apply g5
          rw [mapLookup_insert_self]
          rfl
        · exact g4 t h1
      · intro t hsome
        apply g5
        by_cases hk : ((name, t) : String × Nat) = (name, ts)
        · rw [hk, mapLookup_insert_self]
          rfl
        · rw [mapLookup_insert_ne _ _ _ _ hk]
          exact hsome

/-- The course loop of `assign_classrooms`: on a `some` result the mapping is
room-exclusive, complete on every processed course's slots, labs get a single
room written back, and earlier map entries persist. -/
theorem assign_rooms_go_spec (ncr : Nat) :
    ∀ (idxs : List Nat) (courses : List Course) (m : RoomMap)
      (usage : Nat → Finset Nat),
      idxs.Nodup →
      (∀ i ∈ idxs, i < courses.length) →
      (∀ i j, i ≠ j → i < courses.length → j < courses.length →
        (courses.getD i dummyCourse).name ≠ (courses.getD j dummyCourse).name) →
      (∀ i, (courses.getD i dummyCourse).time_slots.Nodup) →
      RoomOk m usage → RoomExcl m →
      (∀ i ∈ idxs, ∀ t,
        mapLookup m ((courses.getD i dummyCourse).name, t) = none) →
      ∀ m' courses',
        assign_rooms_go ncr idxs courses m usage = (some m', courses') →
        courses'.length = courses.length ∧
        RoomExcl m' ∧
        (∀ n t r, mapLookup m (n, t) = some r → mapLookup m' (n, t) = some r) ∧
        (∀ j, j ∉ idxs → courses'.getD j dummyCourse = courses.getD j dummyCourse) ∧
        (∀ i ∈ idxs,
          (∀ t ∈ (courses.getD i dummyCourse).time_slots,
            (mapLookup m' ((courses.getD i dummyCourse).name, t)).isSome = true) ∧
          (((courses.getD i dummyCourse).course_type == "lab") = true →
            (courses.getD i dummyCourse).time_slots ≠ [] →
            ∃ room, courses'.getD i dummyCourse =
              { courses.getD i dummyCourse with classroom := some room } ∧
              ∀ t ∈ (courses.getD i dummyCourse).time_slots,
                mapLookup m' ((courses.getD i dummyCourse).name, t) = some room) ∧
          (((courses.getD i dummyCourse).course_type == "lab") = false →
            courses'.getD i dummyCourse = courses.getD i dummyCourse)) := by
  intro idxs
  induction idxs with
  | nil =>
    intro courses m usage _ _ _ _ _ hex _ m' courses' heq
    simp only [assign_rooms_go, Prod.mk.injEq, Option.some.injEq] at heq
    obtain ⟨h1, h2⟩ := heq
    subst h1
    subst h2
    exact ⟨rfl, hex, fun _ _ _ h => h, fun _ _ => rfl,
      fun i hi => absurd hi (List.not_mem_nil i)⟩
  | cons ci rest ih =>
    intro courses m usage hnd hbnd hnames hsl hmu hex hfresh m' courses' heq
    have hndr : rest.Nodup := (List.nodup_cons.mp hnd).2
    have hcir : ci ∉ rest := (List.nodup_cons.mp hnd).1
    have hci : ci < courses.length := hbnd ci (List.mem_cons_self ci rest)
    by_cases hskip : (courses.getD ci dummyCourse).time_slots.isEmpty = true
    · rw [show assign_rooms_go ncr (ci :: rest) courses m usage =
          assign_rooms_go ncr rest courses m usage by
        simp only [assign_rooms_go, hskip, if_true]] at heq
      obtain ⟨g1, g2, g3, g4, g5⟩ := ih courses m usage hndr
        (fun i hi => hbnd i (List.mem_cons_of_mem ci hi)) hnames hsl hmu hex
        (fun i hi t => hfresh i (List.mem_cons_of_mem ci hi) t) m' courses' heq
      refine ⟨g1, g2, g3, ?_, ?_⟩
      · intro j hj
        exact g4 j fun hm => hj (List.mem_cons_of_mem ci hm)
      · intro i hi
        rcases List.mem_cons.mp hi with h1 | h1
        · subst h1
          have hnil : (courses.getD i dummyCourse).time_slots = [] :=
            List.isEmpty_iff.mp hskip
          refine ⟨?_, ?_, ?_⟩
          · intro t ht
            rw [hnil] at ht
            exact absurd ht (List.not_mem_nil t)
          · intro _ hne
            exact absurd hnil hne
          · intro _
            exact g4 i hcir
        · exact g5 i h1
    · have hskipF : (courses.getD ci dummyCourse).time_slots.isEmpty = false :=
        Bool.not_eq_true _ ▸ hskip
      by_cases hlab : ((courses.getD ci dummyCourse).course_type == "lab") = true
      · by_cases hav : ((List.range ncr).filter fun r =>
            (courses.getD ci dummyCourse).time_slots.all fun ts =>
              ts ∉ usage r).isEmpty = true
        · simp only [assign_rooms_go, hskipF, Bool.false_eq_true, if_false, hlab,
            if_true, hav] at heq
          exact absurd (congrArg Prod.fst heq) (by simp)
        · have havF : ((List.range ncr).filter fun r =>
              (courses.getD ci dummyCourse).time_slots.all fun ts =>
                ts ∉ usage r).isEmpty = false := Bool.not_eq_true _ ▸ hav
          simp only [assign_rooms_go, hskipF, Bool.false_eq_true, if_false, hlab,
            if_true, havF] at heq
          set avail := (List.range ncr).filter fun r =>
            (courses.getD ci dummyCourse).time_slots.all fun ts =>
              ts ∉ usage r with havail
          set room := min_usage usage avail with hroom
          have hne : avail ≠ [] := by
            intro h
            rw [h] at havF
            exact absurd havF (by simp)
          obtain ⟨hd, tl, hcons⟩ := List.exists_cons_of_ne_nil hne
          have hmem : room ∈ avail := by
            rw [hroom, hcons]
            exact min_usage_mem usage tl hd
          have hfreeAll : ∀ t ∈ (courses.getD ci dummyCourse).time_slots,
              t ∉ usage room := by
            intro t ht
            have h2 := (List.mem_filter.mp (havail ▸ hmem)).2
            rw [List.all_eq_true] at h2
            have := h2 t ht
            simpa using this
          obtain ⟨f1, f2, f3, f4, f5⟩ := lab_fold_spec
            (courses.getD ci dummyCourse).name room
            (courses.getD ci dummyCourse).time_slots m usage hmu hex (hsl ci)
            hfreeAll
          have hgname : ∀ i, ((courses.set ci
              { courses.getD ci dummyCourse with classroom := some room }).getD i
                dummyCourse).name = (courses.getD i dummyCourse).name := by
            intro i
            by_cases hic : i = ci
            · subst hic
              rw [getD_set_self _ _ _ _ hci]
            · rw [getD_set_ne _ _ _ _ _ hic]
          have hgts : ∀ i, ((courses.set ci
              { courses.getD ci dummyCourse with classroom := some room }).getD i
                dummyCourse).time_slots =
              (courses.getD i dummyCourse).time_slots := by
            intro i
            by_cases hic : i = ci
            · subst hic
              rw [getD_set_self _ _ _ _ hci]
            · rw [getD_set_ne _ _ _ _ _ hic]
          have hlen1 : (courses.set ci
              { courses.getD ci dummyCourse with classroom := some room }).length =
              courses.length := List.length_set courses ci _
          have hfresh1 : ∀ j ∈ rest, ∀ t, mapLookup
              ((courses.getD ci dummyCourse).time_slots.foldl
                (fun (acc : RoomMap × (Nat → Finset Nat)) ts =>
                  (mapInsert acc.1 ((courses.getD ci dummyCourse).name, ts) room,
                   fun r => if r = room then insert ts (acc.2 r) else acc.2 r))
                (m, usage)).1
              (((courses.set ci { courses.getD ci dummyCourse with
                classroom := some room }).getD j dummyCourse).name, t) = none := by
            intro j hj t
            rw [hgname j]
            have hjne : (courses.getD j dummyCourse).name ≠
                (courses.getD ci dummyCourse).name :=
              hnames j ci (fun h => hcir (h ▸ hj)) (hbnd j (List.mem_cons_of_mem ci hj))
                hci
            rw [f3 _ t hjne]
            exact hfresh j (List.mem_cons_of_mem ci hj) t
          obtain ⟨g1, g2, g3, g4, g5⟩ := ih
            (courses.set ci { courses.getD ci dummyCourse with
              classroom := some room }) _ _ hndr
            (fun i hi => by rw [hlen1]; exact hbnd i (List.mem_cons_of_mem ci hi))
            (fun i j hij hi hj => by
              rw [hgname i, hgname j]
              rw [hlen1] at hi hj
              exact hnames i j hij hi hj)
            (fun i => by rw [hgts i]; exact hsl i)
            f1 f2 hfresh1 m' courses' heq
          have hpersist : ∀ n t r, mapLookup m (n, t) = some r →
              mapLookup m' (n, t) = some r := by
            intro n t r hl
            by_cases hn : n = (courses.getD ci dummyCourse).name
            · rw [hn, hfresh ci (List.mem_cons_self ci rest) t] at hl
              exact absurd hl (by simp)
            · exact g3 n t r (by rw [f3 n t hn]; exact hl)
          refine ⟨g1.trans hlen1, g2, hpersist, ?_, ?_⟩
          · intro j hj
            have hjc : j ≠ ci := fun h => hj (h ▸ List.mem_cons_self ci rest)
            have hjr : j ∉ rest := fun h => hj (List.mem_cons_of_mem ci h)
            rw [g4 j hjr, getD_set_ne _ _ _ _ _ hjc]
          · intro i hi
            rcases List.mem_cons.mp hi with h1 | h1
            · subst h1
              have hroomlook : ∀ t ∈ (courses.getD i dummyCourse).time_slots,
                  mapLookup m' ((courses.getD i dummyCourse).name, t) =
                    some room := by
                intro t ht
                exact g3 _ t room (f4 t ht)
              refine ⟨?_, ?_, ?_⟩
              · intro t ht
                rw [hroomlook t ht]
                rfl
              · intro _ _
                refine ⟨room, ?_, hroomlook⟩
                rw [g4 i hcir, getD_set_self _ _ _ _ hci]
              · intro hcontra
                rw [hlab] at hcontra
                exact absurd hcontra (by decide)
            · obtain ⟨b1, b2, b3⟩ := g5 i h1
              have hic : i ≠ ci := fun h => hcir (h ▸ h1)
              have hgi : (courses.set ci { courses.getD ci dummyCourse with
                  classroom := some room }).getD i dummyCourse =
                  courses.getD i dummyCourse := getD_set_ne _ _ _ _ _ hic
              rw [hgi] at b1 b2 b3
              exact ⟨b1, b2, b3⟩
      · have hlabF : ((courses.getD ci dummyCourse).course_type == "lab") = false :=
          Bool.not_eq_true _ ▸ hlab
        simp only [assign_rooms_go, hskipF, Bool.false_eq_true, if_false,
          hlabF] at heq
        rcases hth : theory_rooms_go ncr (courses.getD ci dummyCourse).name
            (courses.getD ci dummyCourse).time_slots m usage with _ | mu1
        · rw [hth] at heq
          exact absurd (congrArg Prod.fst heq) (by simp)
        · obtain ⟨m1, u1⟩ := mu1
          rw [hth] at heq
          have heq2 : assign_rooms_go ncr rest courses m1 u1 =
              (some m', courses') := heq
          obtain ⟨f1, f2, f3, f4, f5⟩ := theory_rooms_go_spec ncr
            (courses.getD ci dummyCourse).name
            (courses.getD ci dummyCourse).time_slots m usage hmu hex m1 u1 hth
          have hfresh1 : ∀ j ∈ rest, ∀ t,
              mapLookup m1 ((courses.getD j dummyCourse).name, t) = none := by
            intro j hj t
            have hjne : (courses.getD j dummyCourse).name ≠
                (courses.getD ci dummyCourse).name :=
              hnames j ci (fun h => hcir (h ▸ hj)) (hbnd j (List.mem_cons_of_mem ci hj))
                hci
            rw [f3 _ t hjne]
            exact hfresh j (List.mem_cons_of_mem ci hj) t
          obtain ⟨g1, g2, g3, g4, g5⟩ := ih courses m1 u1 hndr
            (fun i hi => hbnd i (List.mem_cons_of_mem ci hi)) hnames hsl f1 f2
            hfresh1 m' courses' heq2
          have hpersist : ∀ n t r, mapLookup m (n, t) = some r →
              mapLookup m' (n, t) = some r := by
            intro n t r hl
            by_cases hn : n = (courses.getD ci dummyCourse).name
            · rw [hn, hfresh ci (List.mem_cons_self ci rest) t] at hl
              exact absurd hl (by simp)
            · exact g3 n t r (by rw [f3 n t hn]; exact hl)
          refine ⟨g1, g2, hpersist, ?_, ?_⟩
          · intro j hj
            exact g4 j fun hm => hj (List.mem_cons_of_mem ci hm)
          · intro i hi
            rcases List.mem_cons.mp hi with h1 | h1
            · subst h1
              refine ⟨?_, ?_, ?_⟩
              · intro t ht
                obtain ⟨r, hr⟩ := Option.isSome_iff_exists.mp (f4 t ht)
                rw [g3 _ t r hr]
                rfl
              · intro hcontra
                rw [hlabF] at hcontra
                exact absurd hcontra (by decide)
              · intro _
                exact g4 i hcir
            · exact g5 i h1

/-! ## Top-level lemmas -/

theorem propagate_snd (cfg : Config) (s : State) :
    (propagate_constraints cfg s).2 = s := rfl

/-- A fresh scheduling problem: no course holds slots or a teacher binding,
batch indices are valid, and every teacher starts within the hour cap. -/
def startOk (s : State) : Bool :=
  (s.courses.all fun c => c.time_slots.isEmpty && c.teacher.isNone &&
    decide (c.batchIdx < s.batches.length)) &&
  s.teachers.all fun t => decide (t.assigned_hours ≤ t.max_hours)

theorem Inv.of_all_nil {s : State} (h : ∀ i, (s.courseD i).time_slots = []) :
    Inv s := by
  refine ⟨?_, ?_, ?_, ?_, ?_⟩
  · intro i
    rw [h i]
    exact List.nodup_nil
  · intro i x hx
    rw [h i] at hx
    exact absurd hx (List.not_mem_nil x)
  · intro i ti _ x hx
    rw [h i] at hx
    exact absurd hx (List.not_mem_nil x)
  · intro i j _ _ x hx
    rw [h i] at hx
    exact absurd hx (List.not_mem_nil x)
  · intro i j ti _ _ _ x hx
    rw [h i] at hx
    exact absurd hx (List.not_mem_nil x)

theorem startOk_course {s : State} (h : startOk s = true) (i : Nat) :
    (s.courseD i).time_slots = [] ∧ (s.courseD i).teacher = none ∧
    (i < s.courses.length → (s.courseD i).batchIdx < s.batches.length) := by
  unfold startOk at h
  rw [Bool.and_eq_true] at h
  obtain ⟨h1, _⟩ := h
  rw [List.all_eq_true] at h1
  by_cases hi : i < s.courses.length
  · have hmem : s.courseD i ∈ s.courses := by
      unfold State.courseD
      simp only [List.getD_eq_getElem?_getD, List.getElem?_eq_getElem hi,
        Option.getD_some]
      exact List.getElem_mem hi
    have := h1 _ hmem
    simp only [Bool.and_eq_true, List.isEmpty_iff, Option.isNone_iff_eq_none,
      decide_eq_true_eq] at this
    exact ⟨this.1.1, this.1.2, fun _ => this.2⟩
  · have hd : s.courseD i = dummyCourse := by
      unfold State.courseD
      rw [List.getD_eq_getElem?_getD,
        List.getElem?_eq_none (show s.courses.length ≤ i by omega)]
      rfl
    rw [hd]
    exact ⟨rfl, rfl, fun hlt => absurd hlt hi⟩

theorem startOk_hoursOk {s : State} (h : startOk s = true) : HoursOk s := by
  intro j hj
  unfold startOk at h
  rw [Bool.and_eq_true] at h
  obtain ⟨_, h2⟩ := h
  rw [List.all_eq_true] at h2
  have hmem : s.teacherD j ∈ s.teachers := by
    unfold State.teacherD
    simp only [List.getD_eq_getElem?_getD, List.getElem?_eq_getElem hj,
      Option.getD_some]
    exact List.getElem_mem hj
  have := h2 _ hmem
  simpa using this

theorem startOk_inv {s : State} (h : startOk s = true) : Inv s :=
  Inv.of_all_nil fun i => (startOk_course h i).1

theorem startOk_freshAll {s : State} (h : startOk s = true)
    {idxs : List Nat} (hb : ∀ i ∈ idxs, i < s.courses.length) :
    FreshAll s idxs := by
  intro i hi
  obtain ⟨h1, h2, h3⟩ := startOk_course h i
  exact ⟨h1, h2, hb i hi, h3 (hb i hi)⟩

/-- The full run: the search invariant and the hour caps hold in the final
state, and a `True` result leaves every course fully placed. -/
theorem schedule_courses_spec (cfg : Config) (s : State)
    (h : startOk s = true) :
    Inv (schedule_courses cfg s).2 ∧ HoursOk (schedule_courses cfg s).2 ∧
    ((schedule_courses cfg s).1 = true → ∀ i, i < s.courses.length →
      DoneCourse cfg ((schedule_courses cfg s).2.courseD i)) := by
  by_cases hp : (propagate_constraints cfg s).1 = true
  · have hout : schedule_courses cfg s =
        schedule_go cfg ((List.range s.courses.length).insertionSort fun x y =>
          lexII_le (get_course_priority s.teachers (s.courseD x))
                   (get_course_priority s.teachers (s.courseD y)) = true) s := by
      simp only [schedule_courses, propagate_snd, hp, Bool.not_true,
        Bool.false_eq_true, if_false]
    rw [hout]
    have hb : ∀ i ∈ (List.range s.courses.length).insertionSort (fun x y =>
        lexII_le (get_course_priority s.teachers (s.courseD x))
                 (get_course_priority s.teachers (s.courseD y)) = true),
        i < s.courses.length := by
      intro i hi
      rw [List.mem_insertionSort] at hi
      exact List.mem_range.mp hi
    have hnd : ((List.range s.courses.length).insertionSort fun x y =>
        lexII_le (get_course_priority s.teachers (s.courseD x))
                 (get_course_priority s.teachers (s.courseD y)) = true).Nodup :=
      (List.perm_insertionSort _ _).nodup_iff.mpr (List.nodup_range _)
    obtain ⟨g1, g2, g3, g4⟩ := schedule_go_spec cfg
      ((List.range s.courses.length).insertionSort fun x y =>
        lexII_le (get_course_priority s.teachers (s.courseD x))
                 (get_course_priority s.teachers (s.courseD y)) = true) s
      (startOk_inv h) (startOk_hoursOk h) (startOk_freshAll h hb) hnd
    refine ⟨g1, g2, fun hres i hi => ?_⟩
    refine (g4 hres).1 i ?_
    rw [List.mem_insertionSort]
    exact List.mem_range.mpr hi
  · have hpF : (propagate_constraints cfg s).1 = false :=
      Bool.not_eq_true _ ▸ hp
    have hout : schedule_courses cfg s = (false, s) := by
      simp only [schedule_courses, propagate_snd, hpF, Bool.not_false, if_true]
    rw [hout]
    exact ⟨startOk_inv h, startOk_hoursOk h, fun hres => Bool.noConfusion hres⟩

/-! ## Concrete scenarios -/

/-- S1: one teacher, a lab then an unsatisfiable theory course; the search
fails and the course-level backtrack corrupts the lab bookkeeping. -/
def cfg1 : Config := ⟨8, 1, 8, 10000⟩

def st1 : State :=
  { teachers := [⟨"T", ["P", "Q"], {0, 1, 2, 3, 4, 5}, 10, 0, ∅, emptyDict⟩],
    batches := [⟨"X", ∅, emptyDict, emptyDict, ∅⟩],
    courses := [⟨"A", 0, "P", "lab", 0, 1, 2, [], none, none⟩,
                ⟨"B", 0, "Q", "theory", 5, 0, 0, [], none, none⟩],
    tried := 0 }

/-- S2: two teachers; the run succeeds only after an inner backtrack, leaving
stale lab bookkeeping behind. -/
def st2 : State :=
  { teachers := [⟨"T1", ["P", "Q"], {0, 1, 2, 3, 6, 7}, 5, 0, ∅, emptyDict⟩,
                 ⟨"T2", ["P", "Q"], {4, 5}, 7, 0, ∅, emptyDict⟩],
    batches := [⟨"X", ∅, emptyDict, emptyDict, ∅⟩],
    courses := [⟨"A", 0, "P", "lab", 0, 1, 2, [], none, none⟩,
                ⟨"B", 0, "Q", "theory", 5, 0, 0, [], none, none⟩],
    tried := 0 }

/-- S3: six periods per day; the only feasible lab anchor is the hardcoded
offset `4`, not `periods_per_day / 2 = 3`. -/
def cfg3 : Config := ⟨6, 1, 4, 10000⟩

def st3 : State :=
  { teachers := [⟨"T", ["P"], {4, 5}, 10, 0, ∅, emptyDict⟩],
    batches := [⟨"X", ∅, emptyDict, emptyDict, ∅⟩],
    courses := [⟨"A", 0, "P", "lab", 0, 1, 2, [], none, none⟩],
    tried := 0 }

/-- A four-hour theory course over two four-period days. -/
def cfgA : Config := ⟨4, 2, 4, 10000⟩

/-- The theory scenario with the teacher already bound, for placement-level
properties. -/
def stW : State :=
  { teachers := [⟨"T", ["M"], {0, 1, 2, 3, 4, 5, 6, 7}, 6, 0, ∅, emptyDict⟩],
    batches := [⟨"X", ∅, emptyDict, emptyDict, ∅⟩],
    courses := [⟨"C", 0, "M", "theory", 4, 0, 0, [], some 0, none⟩],
    tried := 0 }

/-- A problem with no teachers at all: constraint propagation rejects it. -/
def stP : State :=
  { teachers := [],
    batches := [⟨"X", ∅, emptyDict, emptyDict, ∅⟩],
    courses := [⟨"A", 0, "P", "lab", 0, 1, 2, [], none, none⟩],
    tried := 0 }

/-- S3's configuration with a zero step budget: propagation passes, the search
gives up immediately. -/
def cfgB : Config := ⟨6, 1, 4, 0⟩

/-- A scheduled lab and theory course for the classroom matcher. -/
def coursesW : List Course :=
  [⟨"L", 0, "P", "lab", 0, 1, 2, [0, 1], none, none⟩,
   ⟨"T", 0, "Q", "theory", 2, 0, 0, [2, 3], none, none⟩]

/-! ## Claim theorems -/

/-- Claim C1: for every fresh problem on which `schedule_courses` returns
`True`, in the final state the committed slot lists of distinct courses of one
batch are disjoint, and so are those of distinct courses of one teacher. -/
theorem sched_batch_teacher_disjoint (cfg : Config) (s : State)
    (h : startOk s = true) (_hres : (schedule_courses cfg s).1 = true) :
    (∀ i j, i ≠ j →
      ((schedule_courses cfg s).2.courseD i).batchIdx =
        ((schedule_courses cfg s).2.courseD j).batchIdx →
      ∀ x ∈ ((schedule_courses cfg s).2.courseD i).time_slots,
        x ∉ ((schedule_courses cfg s).2.courseD j).time_slots) ∧
    (∀ i j ti, i ≠ j →
      ((schedule_courses cfg s).2.courseD i).teacher = some ti →
      ((schedule_courses cfg s).2.courseD j).teacher = some ti →
      ∀ x ∈ ((schedule_courses cfg s).2.courseD i).time_slots,
        x ∉ ((schedule_courses cfg s).2.courseD j).time_slots) := by
  obtain ⟨hinv, _, _⟩ := schedule_courses_spec cfg s h
  exact ⟨fun i j hij hb x hx => hinv.batchDisj i j hij hb x hx,
    fun i j ti hij h1 h2 x hx => hinv.teacherDisj i j ti hij h1 h2 x hx⟩

theorem sched_batch_teacher_disjoint_witness :
    startOk st2 = true ∧ (schedule_courses cfg1 st2).1 = true ∧
    ((∀ i j, i ≠ j →
      ((schedule_courses cfg1 st2).2.courseD i).batchIdx =
        ((schedule_courses cfg1 st2).2.courseD j).batchIdx →
      ∀ x ∈ ((schedule_courses cfg1 st2).2.courseD i).time_slots,
        x ∉ ((schedule_courses cfg1 st2).2.courseD j).time_slots) ∧
    (∀ i j ti, i ≠ j →
      ((schedule_courses cfg1 st2).2.courseD i).teacher = some ti →
      ((schedule_courses cfg1 st2).2.courseD j).teacher = some ti →
      ∀ x ∈ ((schedule_courses cfg1 st2).2.courseD i).time_slots,
        x ∉ ((schedule_courses cfg1 st2).2.courseD j).time_slots)) :=
  ⟨by decide, by decide, sched_batch_teacher_disjoint cfg1 st2 (by decide) (by decide)⟩

/-- Claim C2 (code bug): on scenario S1 the run fails, yet the failed lab
placement's course-level backtrack leaves `lab_days[0] = -1` (decremented once
per slot instead of once per session) and a stale `lab_start_slots = {0}`;
assign-then-undo is not the identity on the Resource Model. -/
theorem sched_undo_not_identity :
    (schedule_courses cfg1 st1).1 = false ∧
    (st1.batchD 0).lab_days.get 0 = 0 ∧
    (st1.batchD 0).lab_start_slots = ∅ ∧
    ((schedule_courses cfg1 st1).2.batchD 0).lab_days.get 0 = -1 ∧
    ((schedule_courses cfg1 st1).2.batchD 0).lab_start_slots = {0} := by
  decide

/-- Claim C3 (counterexample): with six periods per day the successful run
commits a lab session starting at day offset `4`, which is neither `0` nor
`periods_per_day / 2 = 3`: the anchors are hardcoded, not derived. -/
theorem lab_anchor_counterexample :
    (schedule_courses cfg3 st3).1 = true ∧
    ((schedule_courses cfg3 st3).2.courseD 0).course_type = "lab" ∧
    ((schedule_courses cfg3 st3).2.courseD 0).time_slots = [4, 5] ∧
    cfg3.periods_per_day / 2 = 3 ∧
    4 % cfg3.periods_per_day = 4 := by
  decide

/-- Claim C3 (amended): for every fresh problem on which `schedule_courses`
returns `True`, each lab course's committed slot list decomposes into
contiguous sessions that fit within one day and start at day offset `0` or at
the hardcoded offset `4`, and it holds exactly
`number_of_sessions * session_duration` slots. -/
theorem lab_blocks_anchored (cfg : Config) (s : State) (h : startOk s = true)
    (hres : (schedule_courses cfg s).1 = true) :
    ∀ i, i < s.courses.length →
      (((schedule_courses cfg s).2.courseD i).course_type == "lab") = true →
      Blocks cfg ((schedule_courses cfg s).2.courseD i).session_duration
        ((schedule_courses cfg s).2.courseD i).time_slots ∧
      ((schedule_courses cfg s).2.courseD i).time_slots.length =
        total_slots_needed ((schedule_courses cfg s).2.courseD i) := by
  obtain ⟨_, _, hdone⟩ := schedule_courses_spec cfg s h
  intro i hi hlab
  obtain ⟨h1, h2⟩ := hdone hres i hi
  exact ⟨h2 hlab, h1⟩

theorem lab_blocks_anchored_witness :
    startOk st2 = true ∧ (schedule_courses cfg1 st2).1 = true ∧
    0 < st2.courses.length ∧
    (((schedule_courses cfg1 st2).2.courseD 0).course_type == "lab") = true ∧
    (Blocks cfg1 ((schedule_courses cfg1 st2).2.courseD 0).session_duration
        ((schedule_courses cfg1 st2).2.courseD 0).time_slots ∧
      ((schedule_courses cfg1 st2).2.courseD 0).time_slots.length =
        total_slots_needed ((schedule_courses cfg1 st2).2.courseD 0)) :=
  ⟨by decide, by decide, by decide, by decide,
    lab_blocks_anchored cfg1 st2 (by decide) (by decide) 0 (by decide) (by decide)⟩

/-- Claim C4: for every fresh problem, whatever `schedule_courses` returns,
every teacher ends within the hour cap, every committed slot list is
duplicate-free, and one teacher's distinct courses never share a slot — the
teacher never holds the same slot twice. -/
theorem teacher_hour_cap_and_no_dup (cfg : Config) (s : State)
    (h : startOk s = true) :
    HoursOk (schedule_courses cfg s).2 ∧
    (∀ i, ((schedule_courses cfg s).2.courseD i).time_slots.Nodup) ∧
    (∀ i j ti, i ≠ j →
      ((schedule_courses cfg s).2.courseD i).teacher = some ti →
      ((schedule_courses cfg s).2.courseD j).teacher = some ti →
      ∀ x ∈ ((schedule_courses cfg s).2.courseD i).time_slots,
        x ∉ ((schedule_courses cfg s).2.courseD j).time_slots) := by
  obtain ⟨hinv, hok, _⟩ := schedule_courses_spec cfg s h
  exact ⟨hok, hinv.nodup,
    fun i j ti hij h1 h2 x hx => hinv.teacherDisj i j ti hij h1 h2 x hx⟩

theorem teacher_hour_cap_and_no_dup_witness :
    startOk st1 = true ∧
    (HoursOk (schedule_courses cfg1 st1).2 ∧
    (∀ i, ((schedule_courses cfg1 st1).2.courseD i).time_slots.Nodup) ∧
    (∀ i j ti, i ≠ j →
      ((schedule_courses cfg1 st1).2.courseD i).teacher = some ti →
      ((schedule_courses cfg1 st1).2.courseD j).teacher = some ti →
      ∀ x ∈ ((schedule_courses cfg1 st1).2.courseD i).time_slots,
        x ∉ ((schedule_courses cfg1 st1).2.courseD j).time_slots)) :=
  ⟨by decide, teacher_hour_cap_and_no_dup cfg1 st1 (by decide)⟩

/-- Claim C5 (code bug): scenario S2 returns `True` with a lab block committed
on day 0 (slots 4 and 5), yet the final `lab_days[0]` is `0`, not the number
of committed blocks, and `lab_start_slots` still contains the rolled-back
start `0`: the counter and set are corrupted across backtracking. -/
theorem lab_day_counter_bug :
    (schedule_courses cfg1 st2).1 = true ∧
    ((schedule_courses cfg1 st2).2.courseD 0).course_type = "lab" ∧
    ((schedule_courses cfg1 st2).2.courseD 0).time_slots = [4, 5] ∧
    4 / cfg1.periods_per_day = 0 ∧ 5 / cfg1.periods_per_day = 0 ∧
    ((schedule_courses cfg1 st2).2.batchD 0).lab_days.get 0 = 0 ∧
    ((schedule_courses cfg1 st2).2.batchD 0).lab_start_slots = {0, 4} := by
  decide

/-- Claim C6 (counterexample): a propagation-rejected problem and a
budget-exhausted problem both come back as the same bare `False`; the `Bool`
result carries no third state, so the caller cannot tell the categories
apart. -/
theorem failure_outcomes_indistinguishable :
    (propagate_constraints cfg1 stP).1 = false ∧
    (propagate_constraints cfgB st3).1 = true ∧
    cfgB.max_assignments ≤ (schedule_courses cfgB st3).2.tried ∧
    (schedule_courses cfg1 stP).1 = false ∧
    (schedule_courses cfgB st3).1 = false ∧
    (schedule_courses cfg1 stP).1 = (schedule_courses cfgB st3).1 := by
  decide

/-- Claim C6 (amended): the engine's only failure signal is the single `False`
of `schedule_courses`; in particular a propagation rejection yields exactly
`(False, unchanged state)`, indistinguishable from any other failure. -/
theorem schedule_courses_propagation_false (cfg : Config) (s : State)
    (h : (propagate_constraints cfg s).1 = false) :
    schedule_courses cfg s = (false, s) := by
  simp only [schedule_courses, propagate_snd, h, Bool.not_false, if_true]

theorem schedule_courses_propagation_false_witness :
    (propagate_constraints cfg1 stP).1 = false ∧
    schedule_courses cfg1 stP = (false, stP) :=
  ⟨by decide, schedule_courses_propagation_false cfg1 stP (by decide)⟩

/-- Claim C7: the theory candidate list is exactly the teacher's available
slots minus the batch's used slots minus the teacher's assigned slots, with
slots at day position 3 removed on days where `lab_start_slots` records a lab;
and a successful `assign_theory_time_slots` run commits only slots that are
not at position 3 of a recorded lab day. -/
theorem theory_candidate_buffer (cfg : Config) (ci k : Nat) (s : State)
    (ti : Nat) (hinv : Inv s) (hpl : PlaceOk s ci ti)
    (hres : (assign_theory_go cfg ci k s).1 = true) :
    (∀ (t : Teacher) (b : Batch) (slot : Nat),
      slot ∈ get_sorted_theory_slots cfg t b ↔
        (slot ∈ t.available_time_slots ∧ slot ∉ b.used_time_slots ∧
          slot ∉ t.assigned_time_slots) ∧
        ¬(slot % cfg.periods_per_day = 3 ∧
          has_lab_on_day cfg b (slot / cfg.periods_per_day) = true)) ∧
    ∃ ext, ((assign_theory_go cfg ci k s).2.courseD ci).time_slots =
        (s.courseD ci).time_slots ++ ext ∧
      ext.length = k ∧
      ∀ x ∈ ext, ¬(x % cfg.periods_per_day = 3 ∧
        has_lab_on_day cfg (s.batchD (s.courseD ci).batchIdx)
          (x / cfg.periods_per_day) = true) := by
  obtain ⟨_, _, _, hsucc⟩ := assign_theory_go_spec cfg ci k s ti hinv hpl
  obtain ⟨ext, hx⟩ := hsucc hres
  refine ⟨fun t b slot => get_sorted_theory_slots_mem cfg t b slot,
    ext, ?_, hx.len, hx.buffer⟩
  rw [hx.course_self]

theorem theory_candidate_buffer_witness :
    Inv stW ∧ PlaceOk stW 0 0 ∧ (assign_theory_go cfgA 0 4 stW).1 = true ∧
    ((∀ (t : Teacher) (b : Batch) (slot : Nat),
      slot ∈ get_sorted_theory_slots cfgA t b ↔
        (slot ∈ t.available_time_slots ∧ slot ∉ b.used_time_slots ∧
          slot ∉ t.assigned_time_slots) ∧
        ¬(slot % cfgA.periods_per_day = 3 ∧
          has_lab_on_day cfgA b (slot / cfgA.periods_per_day) = true)) ∧
    ∃ ext, ((assign_theory_go cfgA 0 4 stW).2.courseD 0).time_slots =
        (stW.courseD 0).time_slots ++ ext ∧
      ext.length = 4 ∧
      ∀ x ∈ ext, ¬(x % cfgA.periods_per_day = 3 ∧
        has_lab_on_day cfgA (stW.batchD (stW.courseD 0).batchIdx)
          (x / cfgA.periods_per_day) = true)) := by
  have hinv : Inv stW := Inv.of_all_nil fun i => match i with
    | 0 => rfl
    | _ + 1 => rfl
  have hpl : PlaceOk stW 0 0 := ⟨by decide, by decide, by decide, rfl⟩
  exact ⟨hinv, hpl, by decide,
    theory_candidate_buffer cfgA 0 4 stW 0 hinv hpl (by decide)⟩

/-- Claim C8: whenever `assign_classrooms` returns a mapping (with distinct
course names and duplicate-free slot lists), no slot maps two courses to the
same room, every nonempty lab course gets one single room covering all its
slots (written back into `classroom`), and every slot of every course is
mapped — a failed room search yields `none`, never a partial mapping. -/
theorem assign_classrooms_correct (courses : List Course) (nts ncr : Nat)
    (m : RoomMap) (courses' : List Course)
    (hnames : ∀ i j, i ≠ j → i < courses.length → j < courses.length →
      (courses.getD i dummyCourse).name ≠ (courses.getD j dummyCourse).name)
    (hslots : ∀ i, (courses.getD i dummyCourse).time_slots.Nodup)
    (heq : assign_classrooms courses nts ncr = (some m, courses')) :
    (∀ n1 n2 t r, mapLookup m (n1, t) = some r →
      mapLookup m (n2, t) = some r → n1 = n2) ∧
    (∀ i, i < courses.length →
      ((courses.getD i dummyCourse).course_type == "lab") = true →
      (courses.getD i dummyCourse).time_slots ≠ [] →
      ∃ room, courses'.getD i dummyCourse =
        { courses.getD i dummyCourse with classroom := some room } ∧
        ∀ t ∈ (courses.getD i dummyCourse).time_slots,
          mapLookup m ((courses.getD i dummyCourse).name, t) = some room) ∧
    (∀ i, i < courses.length →
      ∀ t ∈ (courses.getD i dummyCourse).time_slots,
        (mapLookup m ((courses.getD i dummyCourse).name, t)).isSome = true) := by
  rw [show assign_classrooms courses nts ncr =
      assign_rooms_go ncr ((List.range courses.length).insertionSort fun x y =>
        classroom_key_le (classroom_key (courses.getD x dummyCourse))
          (classroom_key (courses.getD y dummyCourse)) = true)
        courses [] (fun _ => ∅) from rfl] at heq
  have hmemiff : ∀ i, i ∈ (List.range courses.length).insertionSort (fun x y =>
      classroom_key_le (classroom_key (courses.getD x dummyCourse))
        (classroom_key (courses.getD y dummyCourse)) = true) ↔
      i < courses.length := by
    intro i
    rw [List.mem_insertionSort, List.mem_range]
  obtain ⟨_, g2, _, _, g5⟩ := assign_rooms_go_spec ncr
    ((List.range courses.length).insertionSort fun x y =>
      classroom_key_le (classroom_key (courses.getD x dummyCourse))
        (classroom_key (courses.getD y dummyCourse)) = true)
    courses [] (fun _ => ∅)
    ((List.perm_insertionSort _ _).nodup_iff.mpr (List.nodup_range _))
    (fun i hi => (hmemiff i).mp hi) hnames hslots (RoomOk.nil_ok _) RoomExcl.nil_excl
    (fun _ _ _ => rfl) m courses' heq
  refine ⟨fun n1 n2 t r h1 h2 => g2 n1 n2 t r h1 h2, ?_, ?_⟩
  · intro i hi hlab hne
    exact (g5 i ((hmemiff i).mpr hi)).2.1 hlab hne
  · intro i hi t ht
    exact (g5 i ((hmemiff i).mpr hi)).1 t ht

theorem assign_classrooms_correct_witness :
    (∀ i j, i ≠ j → i < coursesW.length → j < coursesW.length →
      (coursesW.getD i dummyCourse).name ≠ (coursesW.getD j dummyCourse).name) ∧
    (∀ i, (coursesW.getD i dummyCourse).time_slots.Nodup) ∧
    assign_classrooms coursesW 8 2 =
      (some ((assign_classrooms coursesW 8 2).1.getD []),
        (assign_classrooms coursesW 8 2).2) ∧
    ((∀ n1 n2 t r,
      mapLookup ((assign_classrooms coursesW 8 2).1.getD []) (n1, t) = some r →
      mapLookup ((assign_classrooms coursesW 8 2).1.getD []) (n2, t) = some r →
      n1 = n2) ∧
    (∀ i, i < coursesW.length →
      ((coursesW.getD i dummyCourse).course_type == "lab") = true →
      (coursesW.getD i dummyCourse).time_slots ≠ [] →
      ∃ room, (assign_classrooms coursesW 8 2).2.getD i dummyCourse =
        { coursesW.getD i dummyCourse with classroom := some room } ∧
        ∀ t ∈ (coursesW.getD i dummyCourse).time_slots,
          mapLookup ((assign_classrooms coursesW 8 2).1.getD [])
            ((coursesW.getD i dummyCourse).name, t) = some room) ∧
    (∀ i, i < coursesW.length →
      ∀ t ∈ (coursesW.getD i dummyCourse).time_slots,
        (mapLookup ((assign_classrooms coursesW 8 2).1.getD [])
          ((coursesW.getD i dummyCourse).name, t)).isSome = true)) := by
  have hlen : coursesW.length = 2 := rfl
  have hnames : ∀ i j, i ≠ j → i < coursesW.length → j < coursesW.length →
      (coursesW.getD i dummyCourse).name ≠ (coursesW.getD j dummyCourse).name := by
    intro i j hij hi hj
    rw [hlen] at hi hj
    have hi2 : i = 0 ∨ i = 1 := by omega
    have hj2 : j = 0 ∨ j = 1 := by omega
    rcases hi2 with rfl | rfl <;> rcases hj2 with rfl | rfl
    · exact absurd rfl hij
    · decide
    · decide
    · exact absurd rfl hij
  have hslots : ∀ i, (coursesW.getD i dummyCourse).time_slots.Nodup := fun i =>
    match i with
    | 0 => by decide
    | 1 => by decide
    | _ + 2 => List.nodup_nil
  have heq : assign_classrooms coursesW 8 2 =
      (some ((assign_classrooms coursesW 8 2).1.getD []),
        (assign_classrooms coursesW 8 2).2) := by decide
  exact ⟨hnames, hslots, heq,
    assign_classrooms_correct coursesW 8 2 _ _ hnames hslots heq⟩

/-- Claim C9: the scheduling core and the classroom matcher are deterministic
functions of their inputs — equal inputs give equal results and equal final
states; no ordering decision depends on randomness. -/
theorem scheduler_deterministic (cfg : Config) (s t : State)
    (courses courses' : List Course) (nts ncr : Nat)
    (h1 : s = t) (h2 : courses = courses') :
    schedule_courses cfg s = schedule_courses cfg t ∧
    assign_classrooms courses nts ncr = assign_classrooms courses' nts ncr := by
  subst h1
  subst h2
  exact ⟨rfl, rfl⟩

theorem scheduler_deterministic_witness :
    st3 = st3 ∧ coursesW = coursesW ∧
    (schedule_courses cfg3 st3 = schedule_courses cfg3 st3 ∧
      assign_classrooms coursesW 8 2 = assign_classrooms coursesW 8 2) :=
  ⟨rfl, rfl, scheduler_deterministic cfg3 st3 st3 coursesW coursesW 8 2 rfl rfl⟩

/-- Claim C10: `propagate_constraints` is read-only — it returns the state it
was given, so every field of every teacher, course, and batch is unchanged
whether its verdict is `True` or `False`. -/
theorem propagate_constraints_read_only (cfg : Config) (s : State) :
    (propagate_constraints cfg s).2 = s := rfl

end Sched
